import Mathlib

/-!
# Write-ahead log: replay, append, cut and release

A shallow embedding of `src/wal.go` (package `wal`) and of `ReadWAL` of
`src/storage.go`.  Stateful methods of `*WAL` become functions from a `WAL` value
to the new `WAL` value together with what the method returns.  Calls into the operating system (seek, fsync, rename, ...)
cannot be computed from the program text; each of them consults an `FsEnv`
that says whether the call fails, so every error exit of the source is present.

The record codec (`encoder`, `decoder`), the name parser and the payload types
are used by `wal.go` but their sources are not among the files: they are
modelled from the written specification and marked as such.  `Repair`, called by
`ReadWAL`, is a parameter of the model of `ReadWAL`.
-/

set_option autoImplicit false

namespace Wal

/-! ## Plain data -/

/-- Go byte slice: `none` is the nil slice, `some bs` an allocated slice. -/
abbrev Bytes := Option (List Nat)

/-- Go `bytes.Equal`: compares contents only, so nil and the empty slice are equal. -/
def bytesEqual (a b : Bytes) : Bool := a.getD [] == b.getD []

/-- Width of the unsigned 64 bit integers used for indices. -/
def u64 : Nat := 2 ^ 64

/-- Record type tags, `metadataType RecordType = iota + 1` onwards. -/
def metadataType : Int := 1
def entryType : Int := 2
def stateType : Int := 3
def crcType : Int := 4
def snapshotType : Int := 5

/-- Error values: the package errors of `wal.go`, the two `io` sentinels, `os.ErrExist`,
the formatted "unexpected block type" error, a name that does not parse, and errors
coming back from the operating system. -/
inductive Error where
  | EOF
  | ErrUnexpectedEOF
  | ErrExist
  | ErrMetadataConflict
  | ErrFileNotFound
  | ErrCRCMismatch
  | ErrSnapshotNotFound
  | ErrSliceOutOfRange
  | ErrMaxWALEntrySizeLimitExceeded
  | ErrDecoderNotFound
  | unexpectedBlockType (t : Int)
  | badWalName
  | fs (code : Nat)
  deriving DecidableEq, Repr

/-- Modelled from the spec: the `HardState` payload type (its declaration is not among the
files); the glossary gives it the fields term, vote and committed. -/
structure HardState where
  term : Nat
  vote : Nat
  committed : Nat
  deriving DecidableEq, Repr

/-- Modelled from the spec: `HardState.Reset`, which puts the zero value back. -/
def HardState.reset (_ : HardState) : HardState := ⟨0, 0, 0⟩

/-- Modelled from the spec: the snapshot marker `(index, term)`. -/
structure Snapshot where
  index : Nat
  term : Nat
  deriving DecidableEq, Repr

/-- Modelled from the spec: a log entry, an opaque command carrying its `index`. -/
structure Entry where
  term : Nat
  index : Nat
  data : Bytes
  deriving DecidableEq, Repr

/-- Modelled from the spec: the framed unit `(type, crc, data)`. -/
structure Record where
  type : Int
  crc : Nat
  data : Bytes
  deriving DecidableEq, Repr

/-- The payload codec is an outside collaborator (`pbutil.MustMarshal`,
`mustUnmarshalEntry`, ...): it is a parameter of the model. -/
structure Codec where
  marshalEntry : Entry → Bytes
  mustUnmarshalEntry : Bytes → Entry
  marshalState : HardState → Bytes
  mustUnmarshalState : Bytes → HardState
  marshalSnapshot : Snapshot → Bytes
  mustUnmarshalSnapshot : Bytes → Snapshot

/-- The process wide registry `recordTypes` of custom record handlers: a tag is either
unknown or has a handler that unmarshals the payload. -/
abbrev Registry := Int → Option (Bytes → Bytes)

/-- `hash/crc32` is a library: the per-byte update of the running CRC is a parameter and
writing a slice folds it over the bytes (writing nil or empty data changes nothing). -/
def crcUpdate (crcByte : Nat → Nat → Nat) (crc : Nat) (data : Bytes) : Nat :=
  (data.getD []).foldl crcByte crc

/-- Modelled from the spec: a segment file name. Names of the form
`<seq:16hex>-<first-index:16hex>.wal` are kept parsed; anything else (such as the
temporary name the file pipeline gives) is kept as text. -/
inductive WalName where
  | canonical (seq : Nat) (index : Nat)
  | other (s : String)
  deriving DecidableEq, Repr

/-- Modelled from the spec: `walName(seq, index)` formats the two fields. -/
def walName (seq index : Nat) : WalName := WalName.canonical seq index

/-- Whether a name has the form of a segment file name. -/
def WalName.isCanonical : WalName → Bool
  | WalName.canonical _ _ => true
  | WalName.other _ => false

/-- Modelled from the spec: `parseWALName`, strict parsing of a segment file name into
`(seq, first-index)`. -/
def parseWALName : WalName → Except Error (Nat × Nat)
  | WalName.canonical s i => Except.ok (s, i)
  | WalName.other _ => Except.error Error.badWalName

/-- A segment file as the WAL holds it: its name, the intact records stored in it, and
what a reader meets after the last intact record (`EOF` at the zeroed or absent rest,
`ErrUnexpectedEOF` at a partial frame, or another error). -/
structure LockedFile where
  name : WalName
  recs : List Record
  ending : Error
  deriving DecidableEq, Repr

/-- Calls into the operating system made by `wal.go`. -/
inductive FsOp where
  | removeAll
  | createDirAll
  | lockFile
  | tryLockFile
  | openFile
  | seekEnd
  | seekCurrent
  | seekStart
  | preallocate
  | newFileEncoder
  | encode
  | flush
  | fdatasync
  | truncate
  | pipelineOpen
  | rename
  | openDir
  | closeDir
  | fsyncDir
  | zeroToEnd
  deriving DecidableEq, Repr

/-- What the operating system answers during one call of a WAL operation. -/
structure FsEnv where
  /-- The error a call returns, if it fails. -/
  fail : FsOp → Option Error
  /-- The offset `Seek(0, io.SeekCurrent)` reports for the tail. -/
  curOff : Int
  /-- The package variable `SegmentSizeBytes`. -/
  segmentSizeBytes : Int
  /-- Whether `Exist(dirpath)` holds. -/
  dirExists : Bool
  /-- Whether the temporary directory already exists. -/
  tmpExists : Bool

/-- An environment in which no call fails and the tail is below the segment size. -/
def FsEnv.quiet : FsEnv :=
  { fail := fun _ => none, curOff := 0, segmentSizeBytes := 64 * 1000 * 1000,
    dirExists := false, tmpExists := false }

/-- Result of a method: it returns (a value and an optional error) or the Go runtime
panics (a nil pointer is dereferenced, or `lg.Fatal` ends the process). -/
inductive Res (α : Type) where
  | ret (val : α) (err : Option Error)
  | panic
  deriving DecidableEq, Repr

/-! ## Codec state (modelled from the spec) -/

/-- Modelled from the spec: the encoder keeps the running CRC and the frames it has
encoded and not yet written to its file; `flush()` writes the buffered frames to the file. -/
structure Encoder where
  crc : Nat
  buf : List Record
  deriving DecidableEq, Repr

/-- Modelled from the spec: the decoder reads one frame at a time from the concatenated
segments; it keeps the frames still to read, what ends the stream, and the running CRC. -/
structure Decoder where
  frames : List Record
  term : Error
  crc : Nat
  deriving DecidableEq, Repr

/-- Modelled from the spec: `Record.Validate(crc)`, nil exactly when the stored CRC
equals the given one. -/
def Record.Validate (rec : Record) (crc : Nat) : Option Error :=
  if rec.crc = crc then none else some Error.ErrCRCMismatch

/-- Modelled from the spec: decoding one intact frame. A `crc` record is handed over
as it is; for every other record the running CRC is updated with the payload and
compared with the stored CRC. Returns the running CRC after the frame. -/
def decodeRecord (crcByte : Nat → Nat → Nat) (crc : Nat) (rec : Record) : Except Error Nat :=
  if rec.type = crcType then Except.ok crc
  else
    let crc1 := crcUpdate crcByte crc rec.data
    if rec.crc = crc1 then Except.ok crc1 else Except.error Error.ErrCRCMismatch

/-- Modelled from the spec: `decoder.decode`, the next record or the error that ends
the stream. -/
def Decoder.decode (crcByte : Nat → Nat → Nat) (d : Decoder) : Except Error Record × Decoder :=
  match d.frames with
  | [] => (Except.error d.term, d)
  | r :: rest =>
    match decodeRecord crcByte d.crc r with
    | Except.ok crc1 => (Except.ok r, { d with frames := rest, crc := crc1 })
    | Except.error e => (Except.error e, { d with frames := rest })

/-- Modelled from the spec: `decoder.updateCRC(seed)` re-seeds the running CRC. -/
def Decoder.updateCRC (d : Decoder) (seed : Nat) : Decoder := { d with crc := seed }

/-- Modelled from the spec: `newDecoder(rs...)` over the files in order; a file that ends
cleanly is followed by the next one, the first other ending ends the stream. -/
def newDecoder : List LockedFile → Decoder
  | [] => { frames := [], term := Error.EOF, crc := 0 }
  | f :: rest =>
    if f.ending = Error.EOF then
      let d := newDecoder rest
      { d with frames := f.recs ++ d.frames }
    else { frames := f.recs, term := f.ending, crc := 0 }

/-- Modelled from the spec: `encoder.encode`. The running CRC is updated with the
payload; a `crc` record keeps the chain seed it was given, every other record stores
the running CRC. The record as framed goes to the end of the buffer. -/
def Encoder.encode (crcByte : Nat → Nat → Nat) (fs : FsEnv) (e : Encoder) (rec : Record) :
    Except Error Encoder :=
  match fs.fail FsOp.encode with
  | some err => Except.error err
  | none =>
    let crc1 := crcUpdate crcByte e.crc rec.data
    Except.ok
      { crc := crc1,
        buf := e.buf ++ [{ rec with crc := if rec.type = crcType then rec.crc else crc1 }] }

/-- Modelled from the spec: `newFileEncoder(f, prevCrc)` seeks in the file and seeds a
fresh encoder, with an empty buffer, with `prevCrc`. -/
def newFileEncoder (fs : FsEnv) (prevCrc : Nat) : Except Error Encoder :=
  match fs.fail FsOp.newFileEncoder with
  | some err => Except.error err
  | none => Except.ok { crc := prevCrc, buf := [] }

/-! ## The WAL -/

/-- The fields of `type WAL struct` that carry log state. `locks` may hold nil entries
(a WAL opened for reading). -/
structure WAL where
  metadata : Bytes
  state : HardState
  start : Snapshot
  decoder : Option Decoder
  readClose : Bool
  unsafeNoSync : Bool
  enti : Nat
  encoder : Option Encoder
  locks : List (Option LockedFile)
  deriving DecidableEq, Repr

/-- `func (w *WAL) tail()`: the last lock, nil when there is none. -/
def WAL.tail (w : WAL) : Option LockedFile :=
  match w.locks.getLast? with
  | some l => l
  | none => none

/-- `func (w *WAL) seq()`: the sequence number in the name of the tail; `lg.Fatal` when
the name does not parse. -/
def WAL.seq (w : WAL) : Option Nat :=
  match w.tail with
  | none => some 0
  | some t =>
    match parseWALName t.name with
    | Except.ok (seq, _) => some seq
    | Except.error _ => none

/-! ### ReleaseLockTo -/

/-- Outcome of the search loop of `ReleaseLockTo`. -/
inductive ScanResult where
  | found (smaller : Int)
  | notFound
  | failed (e : Error)
  | panicked
  deriving DecidableEq, Repr

/-- The loop `for i, l := range w.locks` of `ReleaseLockTo`, started at position `i`. -/
def releaseScan (index : Nat) : List (Option LockedFile) → Nat → ScanResult
  | [], _ => ScanResult.notFound
  | none :: _, _ => ScanResult.panicked
  | some l :: rest, i =>
    match parseWALName l.name with
    | Except.error e => ScanResult.failed e
    | Except.ok (_, lockIndex) =>
      if lockIndex ≥ index then ScanResult.found ((i : Int) - 1)
      else releaseScan index rest (i + 1)

/-- The part of `ReleaseLockTo` after the search: close `locks[0 .. smaller)` (nil entries
are skipped) and keep `locks[smaller:]`. Returns the WAL and the files closed. -/
def releaseBelow (w : WAL) (smaller : Int) : Res (WAL × List LockedFile) :=
  if smaller ≤ 0 then Res.ret (w, []) none
  else
    Res.ret ({ w with locks := w.locks.drop smaller.toNat },
      (w.locks.take smaller.toNat).filterMap id) none

/-- `func (w *WAL) ReleaseLockTo(index uint64) error`. -/
def ReleaseLockTo (w : WAL) (index : Nat) : Res (WAL × List LockedFile) :=
  if w.locks.length = 0 then Res.ret (w, []) none
  else
    match releaseScan index w.locks 0 with
    | ScanResult.panicked => Res.panic
    | ScanResult.failed e => Res.ret (w, []) (some e)
    | ScanResult.found smaller => releaseBelow w smaller
    | ScanResult.notFound => releaseBelow w ((w.locks.length : Int) - 1)

/-! ### ReadAll -/

/-- The local variables of the replay loop of `ReadAll` (`isMatch` is the variable
`match`), with `w.enti`, which the loop assigns. The nil slice of entries is the empty
list. -/
structure ReadVars where
  metadata : Bytes
  state : HardState
  ents : List Entry
  records : List Bytes
  isMatch : Bool
  enti : Nat
  deriving DecidableEq, Repr

/-- What `ReadAll` returns: `(metadata, state, ents, records, err)`. -/
structure ReadOut where
  metadata : Bytes
  state : HardState
  ents : List Entry
  records : List Bytes
  err : Option Error
  deriving DecidableEq, Repr

/-- One turn of a replay loop: go on with new variables and running CRC, or return. -/
inductive Step (σ ρ : Type) where
  | next (vars : σ) (crc : Nat)
  | stop (vars : σ) (out : ρ)
  deriving DecidableEq, Repr

/-- The body of the loop of `ReadAll`: the `switch rec.Type` on a decoded record, with the
decoder's running CRC before and after. -/
def readAllStep (c : Codec) (reg : Registry) (start : Snapshot) (v : ReadVars) (crc : Nat)
    (rec : Record) : Step ReadVars ReadOut :=
  if rec.type = entryType then
    let e := c.mustUnmarshalEntry rec.data
    if e.index > start.index then
      let up := e.index - start.index - 1
      if up > v.ents.length then
        Step.stop v ⟨none, v.state, [], v.records, some Error.ErrSliceOutOfRange⟩
      else
        Step.next { v with ents := v.ents.take up ++ [e], enti := e.index } crc
    else Step.next { v with enti := e.index } crc
  else if rec.type = stateType then
    Step.next { v with state := c.mustUnmarshalState rec.data } crc
  else if rec.type = metadataType then
    if v.metadata ≠ none ∧ ¬ bytesEqual v.metadata rec.data then
      Step.stop v ⟨none, v.state.reset, [], v.records, some Error.ErrMetadataConflict⟩
    else Step.next { v with metadata := rec.data } crc
  else if rec.type = crcType then
    if crc ≠ 0 ∧ rec.Validate crc ≠ none then
      Step.stop v ⟨none, v.state.reset, [], v.records, some Error.ErrCRCMismatch⟩
    else Step.next v rec.crc
  else if rec.type = snapshotType then
    let snap := c.mustUnmarshalSnapshot rec.data
    if snap.index = start.index then Step.next { v with isMatch := true } crc
    else Step.next v crc
  else
    match reg rec.type with
    | none =>
      Step.stop v ⟨none, v.state.reset, [], v.records,
        some (Error.unexpectedBlockType rec.type)⟩
    | some unmarshal => Step.next { v with records := v.records ++ [unmarshal rec.data] } crc

/-- How a replay loop is left: by a `return` inside the body, or because `decode`
reported `err`. -/
inductive LoopExit (σ ρ : Type) where
  | returned (vars : σ) (out : ρ)
  | ended (vars : σ) (crc : Nat) (err : Error)
  deriving DecidableEq, Repr

/-- The loop `for err = decoder.decode(rec); err == nil; err = decoder.decode(rec)` over the
frames left in the decoder, for an arbitrary loop body. A turn decodes one frame as
`Decoder.decode` does (see `replayLoop_decode`) and hands the record to the body with the
running CRC; the CRC the body gives back is the one after `decoder.updateCRC`. -/
def replayLoop {σ ρ : Type} (crcByte : Nat → Nat → Nat) (body : σ → Nat → Record → Step σ ρ)
    (term : Error) : List Record → Nat → σ → LoopExit σ ρ
  | [], crc, v => LoopExit.ended v crc term
  | r :: rest, crc, v =>
    match decodeRecord crcByte crc r with
    | Except.error e => LoopExit.ended v crc e
    | Except.ok crc1 =>
      match body v crc1 r with
      | Step.stop v1 out => LoopExit.returned v1 out
      | Step.next v1 crc2 => replayLoop crcByte body term rest crc2 v1

/-- The end of `ReadAll`, from `err = nil` on: report a missing snapshot, leave read mode
and, with a tail, install the encoder. -/
def readAllFinish (fs : FsEnv) (w : WAL) (v : ReadVars) (crc : Nat) : WAL × ReadOut :=
  let err : Option Error := if ¬ v.isMatch then some Error.ErrSnapshotNotFound else none
  let w1 : WAL :=
    { w with readClose := false, start := ⟨0, 0⟩, metadata := v.metadata, enti := v.enti }
  match w1.tail with
  | some _ =>
    match newFileEncoder fs crc with
    | Except.error e =>
      ({ w1 with encoder := none }, ⟨v.metadata, v.state, v.ents, v.records, some e⟩)
    | Except.ok enc =>
      ({ w1 with encoder := some enc, decoder := none },
        ⟨v.metadata, v.state, v.ents, v.records, none⟩)
  | none => ({ w1 with decoder := none }, ⟨v.metadata, v.state, v.ents, v.records, err⟩)

/-- `func (w *WAL) ReadAll()`. The loop runs over the frames and the running CRC of
`w.decoder`. When `ReadAll` fails, the decoder of the WAL value returned here still holds
all its frames (the source leaves it advanced); a WAL is never read twice below. -/
def ReadAll (crcByte : Nat → Nat → Nat) (c : Codec) (reg : Registry) (fs : FsEnv) (w : WAL) :
    WAL × ReadOut :=
  match w.decoder with
  | none => (w, ⟨none, ⟨0, 0, 0⟩, [], [], some Error.ErrDecoderNotFound⟩)
  | some decoder =>
    match replayLoop crcByte (readAllStep c reg w.start) decoder.term decoder.frames decoder.crc
        ⟨none, ⟨0, 0, 0⟩, [], [], false, w.enti⟩ with
    | LoopExit.returned v out => ({ w with enti := v.enti }, out)
    | LoopExit.ended v crc err =>
      match w.tail with
      | none =>
        if err ≠ Error.EOF ∧ err ≠ Error.ErrUnexpectedEOF then
          ({ w with enti := v.enti }, ⟨none, v.state.reset, [], v.records, some err⟩)
        else readAllFinish fs w v crc
      | some _ =>
        if err ≠ Error.EOF then
          ({ w with enti := v.enti }, ⟨none, v.state.reset, [], v.records, some err⟩)
        else
          match fs.fail FsOp.seekStart with
          | some e => ({ w with enti := v.enti }, ⟨none, v.state, [], v.records, some e⟩)
          | none =>
            match fs.fail FsOp.zeroToEnd with
            | some e => ({ w with enti := v.enti }, ⟨none, v.state, [], v.records, some e⟩)
            | none => readAllFinish fs w v crc

/-! ### Opening -/

/-- Modelled from the spec: `readWALNames`, the canonically named files of the
directory in `seq` order (the directory is given in that order); `ErrFileNotFound` when
there is none. -/
def readWALNames (dir : List LockedFile) : Except Error (List LockedFile) :=
  let names := dir.filter (fun f => f.name.isCanonical)
  if names.length = 0 then Except.error Error.ErrFileNotFound else Except.ok names

/-- First index in the name of a file (0 for a name that does not parse). -/
def firstIndex (f : LockedFile) : Nat :=
  match f.name with
  | WalName.canonical _ i => i
  | WalName.other _ => 0

/-- Sequence number in the name of a file (0 for a name that does not parse). -/
def seqOf (f : LockedFile) : Nat :=
  match f.name with
  | WalName.canonical s _ => s
  | WalName.other _ => 0

/-- Modelled from the spec: `searchIndex`, the position of the last file whose
first index is at most `index`, if there is one. -/
def searchIndex : List LockedFile → Nat → Option Nat
  | [], _ => none
  | f :: rest, index =>
    match searchIndex rest index with
    | some i => some (i + 1)
    | none => if firstIndex f ≤ index then some 0 else none

/-- Modelled from the spec: `isValidSeq`, the sequence numbers are contiguous. -/
def isValidSeq : List LockedFile → Bool
  | [] => true
  | [_] => true
  | f :: g :: rest => decide (seqOf g = seqOf f + 1) && isValidSeq (g :: rest)

/-- `selectWALFiles`: the names of the directory and the position to start from. -/
def selectWALFiles (dir : List LockedFile) (snap : Snapshot) :
    Except Error (List LockedFile × Nat) :=
  match readWALNames dir with
  | Except.error e => Except.error e
  | Except.ok names =>
    match searchIndex names snap.index with
    | none => Except.error Error.ErrFileNotFound
    | some nameIndex =>
      if ¬ isValidSeq (names.drop nameIndex) then Except.error Error.ErrFileNotFound
      else Except.ok (names, nameIndex)

/-- `openWALFiles`: the readers (the files themselves) and the locks, which are nil when
the files are opened read only. -/
def openWALFiles (fs : FsEnv) (names : List LockedFile) (nameIndex : Nat) (write : Bool) :
    Except Error (List LockedFile × List (Option LockedFile)) :=
  let sel := names.drop nameIndex
  if sel.length = 0 then Except.ok ([], [])
  else if write then
    match fs.fail FsOp.tryLockFile with
    | some e => Except.error e
    | none => Except.ok (sel, sel.map some)
  else
    match fs.fail FsOp.openFile with
    | some e => Except.error e
    | none => Except.ok (sel, sel.map (fun _ => none))

/-- `openAtIndex(lg, dirpath, snap, write)`. -/
def openAtIndex (fs : FsEnv) (dir : List LockedFile) (snap : Snapshot) (write : Bool) :
    Except Error WAL :=
  match selectWALFiles dir snap with
  | Except.error e => Except.error e
  | Except.ok (names, nameIndex) =>
    match openWALFiles fs names nameIndex write with
    | Except.error e => Except.error e
    | Except.ok (rs, ls) =>
      let w : WAL :=
        { metadata := none, state := ⟨0, 0, 0⟩, start := snap, decoder := some (newDecoder rs),
          readClose := true, unsafeNoSync := false, enti := 0, encoder := none, locks := ls }
      if write then
        match w.tail with
        | none => Except.ok { w with readClose := false }
        | some t =>
          match parseWALName t.name with
          | Except.error e => Except.error e
          | Except.ok _ => Except.ok { w with readClose := false }
      else Except.ok w

/-- `Open(lg, dirpath, snap)`: open for writing. -/
def Open (fs : FsEnv) (dir : List LockedFile) (snap : Snapshot) : Except Error WAL :=
  match openAtIndex fs dir snap true with
  | Except.error e => Except.error e
  | Except.ok w =>
    match fs.fail FsOp.openDir with
    | some e => Except.error e
    | none => Except.ok w

/-- `OpenForRead(lg, dirpath, snap)`. -/
def OpenForRead (fs : FsEnv) (dir : List LockedFile) (snap : Snapshot) : Except Error WAL :=
  openAtIndex fs dir snap false

/-! ### ValidSnapshotEntries and Verify -/

/-- The local variables of the loop of `ValidSnapshotEntries`. -/
structure SnapVars where
  snaps : List Snapshot
  state : HardState
  deriving DecidableEq, Repr

/-- The body of the loop of `ValidSnapshotEntries`; record types without a case are
skipped. -/
def validSnapshotStep (c : Codec) (v : SnapVars) (crc : Nat) (rec : Record) :
    Step SnapVars (List Snapshot × Option Error) :=
  if rec.type = snapshotType then
    Step.next { v with snaps := v.snaps ++ [c.mustUnmarshalSnapshot rec.data] } crc
  else if rec.type = stateType then
    Step.next { v with state := c.mustUnmarshalState rec.data } crc
  else if rec.type = crcType then
    if crc ≠ 0 ∧ rec.Validate crc ≠ none then Step.stop v ([], some Error.ErrCRCMismatch)
    else Step.next v rec.crc
  else Step.next v crc

/-- The loop `for _, s := range snaps` that filters in place: at position `i` the element
is read from the buffer and, when it is not newer than `committed`, written at `n`.
`k` counts the positions still to visit. -/
def filterLoop (committed : Nat) : Nat → Nat → List Snapshot → Nat → List Snapshot × Nat
  | 0, _, buf, n => (buf, n)
  | k + 1, i, buf, n =>
    match buf.get? i with
    | none => (buf, n)
    | some s =>
      if s.index ≤ committed then filterLoop committed k (i + 1) (buf.set n s) (n + 1)
      else filterLoop committed k (i + 1) buf n

/-- The filter at the end of `ValidSnapshotEntries`, ending with `snaps = snaps[:n:n]`. -/
def filterCommitted (committed : Nat) (snaps : List Snapshot) : List Snapshot :=
  let r := filterLoop committed snaps.length 0 snaps 0
  r.1.take r.2

/-- `ValidSnapshotEntries(lg, walDir)`. -/
def ValidSnapshotEntries (crcByte : Nat → Nat → Nat) (c : Codec) (fs : FsEnv)
    (dir : List LockedFile) : List Snapshot × Option Error :=
  match readWALNames dir with
  | Except.error e => ([], some e)
  | Except.ok names =>
    match openWALFiles fs names 0 false with
    | Except.error e => ([], some e)
    | Except.ok (rs, _) =>
      let decoder := newDecoder rs
      match replayLoop crcByte (validSnapshotStep c) decoder.term decoder.frames decoder.crc
          ⟨[], ⟨0, 0, 0⟩⟩ with
      | LoopExit.returned _ out => out
      | LoopExit.ended v _ err =>
        if err ≠ Error.EOF ∧ err ≠ Error.ErrUnexpectedEOF then ([], some err)
        else (filterCommitted v.state.committed v.snaps, none)

/-- The local variables of the loop of `Verify` (`isMatch` is the variable `match`). -/
structure VerifyVars where
  metadata : Bytes
  isMatch : Bool
  deriving DecidableEq, Repr

/-- The body of the loop of `Verify`. -/
def verifyStep (c : Codec) (snap : Snapshot) (v : VerifyVars) (crc : Nat) (rec : Record) :
    Step VerifyVars (Option Error) :=
  if rec.type = metadataType then
    if v.metadata ≠ none ∧ ¬ bytesEqual v.metadata rec.data then
      Step.stop v (some Error.ErrMetadataConflict)
    else Step.next { v with metadata := rec.data } crc
  else if rec.type = crcType then
    if crc ≠ 0 ∧ rec.Validate crc ≠ none then Step.stop v (some Error.ErrCRCMismatch)
    else Step.next v rec.crc
  else if rec.type = snapshotType then
    let loadedSnap := c.mustUnmarshalSnapshot rec.data
    if loadedSnap.index = snap.index then Step.next { v with isMatch := true } crc
    else Step.next v crc
  else if rec.type = entryType then Step.next v crc
  else if rec.type = stateType then Step.next v crc
  else Step.stop v (some (Error.unexpectedBlockType rec.type))

/-- `Verify(lg, walDir, snap)`: the error it returns, `none` for nil. -/
def Verify (crcByte : Nat → Nat → Nat) (c : Codec) (fs : FsEnv) (dir : List LockedFile)
    (snap : Snapshot) : Option Error :=
  match selectWALFiles dir snap with
  | Except.error e => some e
  | Except.ok (names, nameIndex) =>
    match openWALFiles fs names nameIndex false with
    | Except.error e => some e
    | Except.ok (rs, _) =>
      let decoder := newDecoder rs
      match replayLoop crcByte (verifyStep c snap) decoder.term decoder.frames decoder.crc
          ⟨none, false⟩ with
      | LoopExit.returned _ out => out
      | LoopExit.ended v _ err =>
        if err ≠ Error.EOF ∧ err ≠ Error.ErrUnexpectedEOF then some err
        else if ¬ v.isMatch then some Error.ErrSnapshotNotFound
        else none

/-! ### Appending -/

/-- Sequencing of Go statements of the form `if err := f(); err != nil { return err }`:
a panic or an error ends the method, otherwise the rest runs on the new state. -/
def Res.andThen {α : Type} (r : Res α) (k : α → Res α) : Res α :=
  match r with
  | Res.panic => Res.panic
  | Res.ret a (some e) => Res.ret a (some e)
  | Res.ret a none => k a

/-- A call into the operating system that only succeeds or fails. -/
def fsCall (fs : FsEnv) (op : FsOp) (w : WAL) : Res WAL := Res.ret w (fs.fail op)

/-- A call on the file `w.tail()`: a nil tail is dereferenced. -/
def tailCall (fs : FsEnv) (op : FsOp) (w : WAL) : Res WAL :=
  match w.tail with
  | none => Res.panic
  | some _ => fsCall fs op w

/-- The frames go to the end of the file the encoder writes to. Every encoder is made by
`newFileEncoder(w.tail().File, ...)` (in `Create` on the file that becomes the tail in the
next statement) and is replaced whenever the tail changes, so this file is the tail. -/
def appendTail (locks : List (Option LockedFile)) (frames : List Record) :
    List (Option LockedFile) :=
  match locks.getLast? with
  | some (some f) => locks.dropLast ++ [some { f with recs := f.recs ++ frames }]
  | _ => locks

/-- The call `w.encoder.encode(rec)`: the frame is in the buffer of the encoder, not yet in
the file. -/
def WAL.encode (crcByte : Nat → Nat → Nat) (fs : FsEnv) (w : WAL) (rec : Record) : Res WAL :=
  match w.encoder with
  | none => Res.panic
  | some e =>
    match e.encode crcByte fs rec with
    | Except.error err => Res.ret w (some err)
    | Except.ok e1 => Res.ret { w with encoder := some e1 } none

/-- The WAL after a successful `w.encoder.flush()`: the buffered frames are in the file and
the buffer is empty. -/
def WAL.flushed (w : WAL) : WAL :=
  match w.encoder with
  | none => w
  | some e => { w with encoder := some { e with buf := [] }, locks := appendTail w.locks e.buf }

/-- `func (w *WAL) saveCrc(prevCrc uint32) error`. -/
def WAL.saveCrc (crcByte : Nat → Nat → Nat) (fs : FsEnv) (w : WAL) (prevCrc : Nat) : Res WAL :=
  w.encode crcByte fs { type := crcType, crc := prevCrc, data := none }

/-- `func (w *WAL) saveEntry(e *Entry) error`. -/
def WAL.saveEntry (crcByte : Nat → Nat → Nat) (c : Codec) (fs : FsEnv) (w : WAL) (e : Entry) :
    Res WAL :=
  (w.encode crcByte fs { type := entryType, crc := 0, data := c.marshalEntry e }).andThen
    fun w1 => Res.ret { w1 with enti := e.index } none

/-- `func (w *WAL) saveState(s *HardState) error`. -/
def WAL.saveState (crcByte : Nat → Nat → Nat) (c : Codec) (fs : FsEnv) (w : WAL)
    (s : HardState) : Res WAL :=
  if s.committed = 0 ∨ s.committed = w.state.committed then Res.ret w none
  else
    WAL.encode crcByte fs { w with state := s }
      { type := stateType, crc := 0, data := c.marshalState s }

/-- `func (w *WAL) sync() error`. With `unsafeNoSync` set it returns before the encoder is
flushed. -/
def WAL.sync (fs : FsEnv) (w : WAL) : Res WAL :=
  if w.unsafeNoSync then Res.ret w none
  else
    match (if w.encoder.isSome then fs.fail FsOp.flush else none) with
    | some e => Res.ret w (some e)
    | none => tailCall fs FsOp.fdatasync w.flushed

/-- `func (w *WAL) SaveSnapshot(e Snapshot) error`. -/
def SaveSnapshot (crcByte : Nat → Nat → Nat) (c : Codec) (fs : FsEnv) (w : WAL)
    (e : Snapshot) : Res WAL :=
  (w.encode crcByte fs { type := snapshotType, crc := 0, data := c.marshalSnapshot e }).andThen
    fun w1 =>
      let w2 : WAL := if w1.enti < e.index then { w1 with enti := e.index } else w1
      w2.sync fs

/-- The assignment `w.locks[len(w.locks)-1] = newTail` of `cut`, where `newTail` is the
tail re-opened under its final name. -/
def renameTail (locks : List (Option LockedFile)) (fpath : WalName) : List (Option LockedFile) :=
  match locks.getLast? with
  | some (some f) => locks.dropLast ++ [some { f with name := fpath }]
  | _ => locks

/-- The second half of `cut`, after the new tail has its encoder: write the header, sync,
rename, lock the file under its final name, and make a fresh encoder. -/
def cutHeader (crcByte : Nat → Nat → Nat) (c : Codec) (fs : FsEnv) (fpath : WalName)
    (prevCrc : Nat) (w : WAL) : Res WAL :=
  (w.saveCrc crcByte fs prevCrc).andThen fun w1 =>
  (w1.encode crcByte fs { type := metadataType, crc := 0, data := w1.metadata }).andThen fun w2 =>
  (w2.saveState crcByte c fs w2.state).andThen fun w3 =>
  (w3.sync fs).andThen fun w4 =>
  (tailCall fs FsOp.seekCurrent w4).andThen fun w5 =>
  (fsCall fs FsOp.rename w5).andThen fun w6 =>
  (fsCall fs FsOp.fsyncDir w6).andThen fun w7 =>
  (fsCall fs FsOp.lockFile w7).andThen fun w8 =>
  (fsCall fs FsOp.seekStart w8).andThen fun w9 =>
    let w10 : WAL := { w9 with locks := renameTail w9.locks fpath }
    match w10.encoder with
    | none => Res.panic
    | some enc =>
      match newFileEncoder fs enc.crc with
      | Except.error e => Res.ret { w10 with encoder := none } (some e)
      | Except.ok enc1 => Res.ret { w10 with encoder := some enc1 } none

/-- `func (w *WAL) cut() error`. -/
def cut (crcByte : Nat → Nat → Nat) (c : Codec) (fs : FsEnv) (w : WAL) : Res WAL :=
  (tailCall fs FsOp.seekCurrent w).andThen fun w1 =>
  (tailCall fs FsOp.truncate w1).andThen fun w2 =>
  (w2.sync fs).andThen fun w3 =>
    match w3.seq with
    | none => Res.panic
    | some seq =>
      let fpath := walName ((seq + 1) % u64) ((w3.enti + 1) % u64)
      match fs.fail FsOp.pipelineOpen with
      | some e => Res.ret w3 (some e)
      | none =>
        let newTail : LockedFile :=
          { name := WalName.other "tmp", recs := [], ending := Error.EOF }
        let w4 : WAL := { w3 with locks := w3.locks ++ [some newTail] }
        match w4.encoder with
        | none => Res.panic
        | some enc =>
          let prevCrc := enc.crc
          match newFileEncoder fs prevCrc with
          | Except.error e => Res.ret { w4 with encoder := none } (some e)
          | Except.ok enc1 =>
            cutHeader crcByte c fs fpath prevCrc { w4 with encoder := some enc1 }

/-- The loop `for i := range ents` of `Save`. -/
def saveEntries (crcByte : Nat → Nat → Nat) (c : Codec) (fs : FsEnv) :
    WAL → List Entry → Res WAL
  | w, [] => Res.ret w none
  | w, e :: rest =>
    (w.saveEntry crcByte c fs e).andThen fun w1 => saveEntries crcByte c fs w1 rest

/-- `func (w *WAL) Save(st HardState, ents []Entry) error`. -/
def Save (crcByte : Nat → Nat → Nat) (c : Codec) (fs : FsEnv) (w : WAL) (st : HardState)
    (ents : List Entry) : Res WAL :=
  if ents.length = 0 ∧ st.committed = 0 then Res.ret w none
  else
    (saveEntries crcByte c fs w ents).andThen fun w1 =>
    (w1.saveState crcByte c fs st).andThen fun w2 =>
    (tailCall fs FsOp.seekCurrent w2).andThen fun w3 =>
      if fs.curOff < fs.segmentSizeBytes then w3.sync fs
      else cut crcByte c fs w3

/-- `Create(lg, dirpath, metadata)`. An error gives back no WAL. The retry of the rename
after a link error (`renameWALUnlock`) is not part of the model: the environment
never answers a rename with a link error. -/
def Create (crcByte : Nat → Nat → Nat) (c : Codec) (fs : FsEnv) (metadata : Bytes) :
    Res (Option WAL) :=
  if fs.dirExists then Res.ret none (some Error.ErrExist)
  else
    match (if fs.tmpExists then fs.fail FsOp.removeAll else none) with
    | some e => Res.ret none (some e)
    | none =>
      let w0 : WAL :=
        { metadata := metadata, state := ⟨0, 0, 0⟩, start := ⟨0, 0⟩, decoder := none,
          readClose := false, unsafeNoSync := false, enti := 0, encoder := none, locks := [] }
      let written : Res WAL :=
        (fsCall fs FsOp.createDirAll w0).andThen fun w1 =>
        (fsCall fs FsOp.lockFile w1).andThen fun w2 =>
        (fsCall fs FsOp.seekEnd w2).andThen fun w3 =>
        (fsCall fs FsOp.preallocate w3).andThen fun w4 =>
          match newFileEncoder fs 0 with
          | Except.error e => Res.ret w4 (some e)
          | Except.ok enc =>
            let f : LockedFile := { name := walName 0 0, recs := [], ending := Error.EOF }
            let w5 : WAL := { w4 with encoder := some enc, locks := w4.locks ++ [some f] }
            (w5.saveCrc crcByte fs 0).andThen fun w6 =>
            (w6.encode crcByte fs
              { type := metadataType, crc := 0, data := metadata }).andThen fun w7 =>
            (SaveSnapshot crcByte c fs w7 ⟨0, 0⟩).andThen fun w8 =>
            (fsCall fs FsOp.removeAll w8).andThen fun w9 =>
            (fsCall fs FsOp.rename w9).andThen fun w10 =>
            (fsCall fs FsOp.openDir w10).andThen fun w11 =>
            (fsCall fs FsOp.fsyncDir w11).andThen fun w12 =>
            fsCall fs FsOp.closeDir w12
      match written with
      | Res.panic => Res.panic
      | Res.ret _ (some e) => Res.ret none (some e)
      | Res.ret w none => Res.ret (some w) none

/-! ### ReadWAL (storage.go) -/

/-- `func (w *WAL) SetUnsafeNoFsync()`. -/
def WAL.SetUnsafeNoFsync (w : WAL) : WAL := { w with unsafeNoSync := true }

/-- `func (w *WAL) Close() error`. The tail is synced when there is one, a lock that does
not close is only logged, and the error of closing the directory is returned. -/
def WAL.Close (fs : FsEnv) (w : WAL) : Res WAL :=
  (match w.tail with
    | none => Res.ret w none
    | some _ => w.sync fs).andThen fun w1 => fsCall fs FsOp.closeDir w1

/-- The calls an execution of `ReadWAL` makes, in order, each with what it returned;
`fatal` is a call of `lg.Fatal`. -/
inductive Event where
  | opened
  | openFailed (e : Error)
  | readAll (err : Option Error)
  | closed
  | repair (ok : Bool)
  | fatal
  deriving DecidableEq, Repr

/-- How an execution of `ReadWAL` ends: it returns `(w, wmetadata, st, ents)`, `lg.Fatal`
ends the process, the Go runtime panics, or the loop is still running when the fuel of the
model is used up. -/
inductive Outcome where
  | returned (w : WAL) (wmetadata : Bytes) (st : HardState) (ents : List Entry)
  | fatal
  | panicked
  | outOfFuel
  deriving DecidableEq, Repr

/-- The loop `for { ... }` of `ReadWAL`, run for at most `fuel` turns. `turn` counts the
turns, `fs turn` is what the operating system answers during that turn, `waldir` is the
directory on disk and `repaired` the local variable of that name. `Repair` stands for
`log.Repair(lg, waldir)`, whose source is not part of this development: it returns whether
it succeeded and the directory it leaves behind. -/
def readWALLoop (crcByte : Nat → Nat → Nat) (c : Codec) (reg : Registry) (fs : Nat → FsEnv)
    (Repair : List LockedFile → Bool × List LockedFile) (snap : Snapshot)
    (unsafeNoFsync : Bool) : Nat → Nat → List LockedFile → Bool → Outcome × List Event
  | 0, _, _, _ => (Outcome.outOfFuel, [])
  | fuel + 1, turn, waldir, repaired =>
    match Open (fs turn) waldir snap with
    | Except.error e => (Outcome.fatal, [Event.openFailed e, Event.fatal])
    | Except.ok w0 =>
      let w : WAL := if unsafeNoFsync then w0.SetUnsafeNoFsync else w0
      match ReadAll crcByte c reg (fs turn) w with
      | (w1, ⟨wmetadata, st, ents, _, none⟩) =>
        (Outcome.returned w1 wmetadata st ents, [Event.opened, Event.readAll none])
      | (w1, ⟨_, _, _, _, some err⟩) =>
        match w1.Close (fs turn) with
        | Res.panic => (Outcome.panicked, [Event.opened, Event.readAll (some err)])
        | Res.ret _ _ =>
          if repaired ∨ err ≠ Error.ErrUnexpectedEOF then
            (Outcome.fatal,
              [Event.opened, Event.readAll (some err), Event.closed, Event.fatal])
          else
            match Repair waldir with
            | (false, _) =>
              (Outcome.fatal, [Event.opened, Event.readAll (some err), Event.closed,
                Event.repair false, Event.fatal])
            | (true, waldir1) =>
              let r := readWALLoop crcByte c reg fs Repair snap unsafeNoFsync fuel (turn + 1)
                waldir1 true
              (r.1, [Event.opened, Event.readAll (some err), Event.closed,
                Event.repair true] ++ r.2)

/-- `ReadWAL(lg, waldir, snap, unsafeNoFsync)` of storage.go, with the calls it makes. -/
def ReadWAL (crcByte : Nat → Nat → Nat) (c : Codec) (reg : Registry) (fs : Nat → FsEnv)
    (Repair : List LockedFile → Bool × List LockedFile) (waldir : List LockedFile)
    (snap : Snapshot) (unsafeNoFsync : Bool) (fuel : Nat) : Outcome × List Event :=
  readWALLoop crcByte c reg fs Repair snap unsafeNoFsync fuel 0 waldir false

/-! ### Sample values -/

/-- A segment file named `seq = index = i` without records. -/
def heldFile (i : Nat) : LockedFile := ⟨WalName.canonical i i, [], Error.EOF⟩

/-- A WAL in append mode holding locks on the given files. -/
def heldWAL (fs : List LockedFile) : WAL :=
  { metadata := none, state := ⟨0, 0, 0⟩, start := ⟨0, 0⟩, decoder := none, readClose := false,
    unsafeNoSync := false, enti := 0, encoder := some ⟨0, []⟩, locks := fs.map some }

/-- A per-byte CRC update for evaluating examples (any function serves: the model does not
depend on the polynomial). -/
def sampleCrcByte (crc b : Nat) : Nat := (crc * 31 + b + 1) % 4294967296

/-- A payload codec for evaluating examples; unmarshalling undoes marshalling. -/
def sampleCodec : Codec :=
  { marshalEntry := fun e =>
      match e.data with
      | none => some [e.term, e.index, 0]
      | some d => some (e.term :: e.index :: 1 :: d),
    mustUnmarshalEntry := fun b =>
      match b with
      | some [t, i, 0] => ⟨t, i, none⟩
      | some (t :: i :: 1 :: d) => ⟨t, i, some d⟩
      | _ => ⟨0, 0, none⟩,
    marshalState := fun s => some [s.term, s.vote, s.committed],
    mustUnmarshalState := fun b =>
      match b with
      | some [t, v, k] => ⟨t, v, k⟩
      | _ => ⟨0, 0, 0⟩,
    marshalSnapshot := fun s => some [s.index, s.term],
    mustUnmarshalSnapshot := fun b =>
      match b with
      | some [i, t] => ⟨i, t⟩
      | _ => ⟨0, 0⟩ }

/-- A registry without custom record types. -/
def emptyRegistry : Registry := fun _ => none

/-- The directory after `Create` with metadata "M" and `SaveSnapshot` at indices 5 and 12
(one segment holding crc, metadata and the snapshot markers 0, 5, 12). -/
def snapshotDir : List LockedFile :=
  match Create sampleCrcByte sampleCodec FsEnv.quiet (some [77]) with
  | Res.ret (some w0) none =>
    match (SaveSnapshot sampleCrcByte sampleCodec FsEnv.quiet w0 ⟨5, 1⟩).andThen
        (fun w1 => SaveSnapshot sampleCrcByte sampleCodec FsEnv.quiet w1 ⟨12, 1⟩) with
    | Res.ret w2 none => w2.locks.filterMap id
    | _ => []
  | _ => []

/-- The first return value of `ReadAll` after opening `dir` at `snap`, for writing
(`Open`) or for reading (`OpenForRead`), in an environment where no system call fails. -/
def openAndReadAll (dir : List LockedFile) (snap : Snapshot) (write : Bool) : Option ReadOut :=
  match (if write then Open FsEnv.quiet dir snap else OpenForRead FsEnv.quiet dir snap) with
  | Except.ok w => some (ReadAll sampleCrcByte sampleCodec emptyRegistry FsEnv.quiet w).2
  | Except.error _ => none

/-- The directory after `Create` with metadata "M" and one
`Save(HardState{term:1, vote:1, committed:3}, entries 1,2,3)`. -/
def entriesDir : List LockedFile :=
  match Create sampleCrcByte sampleCodec FsEnv.quiet (some [77]) with
  | Res.ret (some w0) none =>
    match Save sampleCrcByte sampleCodec FsEnv.quiet w0 ⟨1, 1, 3⟩
        [⟨1, 1, some [10]⟩, ⟨1, 2, some [20]⟩, ⟨1, 3, none⟩] with
    | Res.ret w1 none => w1.locks.filterMap id
    | _ => []
  | _ => []

/-- The directory `entriesDir` after a torn write: the reader meets a partial frame after
the last intact record. -/
def tornDir : List LockedFile :=
  entriesDir.map fun f => { f with ending := Error.ErrUnexpectedEOF }

/-- The WAL that `openAtIndex` gives for `dir` at `snap` when no system call fails (an
empty WAL when the files cannot be selected). -/
def openedWAL (dir : List LockedFile) (snap : Snapshot) (write : Bool) : WAL :=
  match openAtIndex FsEnv.quiet dir snap write with
  | Except.ok w => w
  | Except.error _ => heldWAL []

/-- The directory after `Create` with metadata `a` and a second metadata record carrying
`b` written into the tail (encoded, then flushed by `sync`). -/
def conflictDir (a b : Bytes) : List LockedFile :=
  match Create sampleCrcByte sampleCodec FsEnv.quiet a with
  | Res.ret (some w0) none =>
    match (w0.encode sampleCrcByte FsEnv.quiet
        { type := metadataType, crc := 0, data := b }).andThen
        (fun w1 => w1.sync FsEnv.quiet) with
    | Res.ret w2 none => w2.locks.filterMap id
    | _ => []
  | _ => []

/-- The directory after `Create`, `Save(HardState{1,1,3}, entries 1,2,3)` and `SaveSnapshot`
at the indices 2, 5, 2 and 3. -/
def markersDir : List LockedFile :=
  match Create sampleCrcByte sampleCodec FsEnv.quiet (some [77]) with
  | Res.ret (some w0) none =>
    match (Save sampleCrcByte sampleCodec FsEnv.quiet w0 ⟨1, 1, 3⟩
        [⟨1, 1, some [10]⟩, ⟨1, 2, some [20]⟩, ⟨1, 3, none⟩]).andThen (fun w1 =>
      (SaveSnapshot sampleCrcByte sampleCodec FsEnv.quiet w1 ⟨2, 1⟩).andThen (fun w2 =>
      (SaveSnapshot sampleCrcByte sampleCodec FsEnv.quiet w2 ⟨5, 1⟩).andThen (fun w3 =>
      (SaveSnapshot sampleCrcByte sampleCodec FsEnv.quiet w3 ⟨2, 1⟩).andThen (fun w4 =>
      SaveSnapshot sampleCrcByte sampleCodec FsEnv.quiet w4 ⟨3, 1⟩)))) with
    | Res.ret w5 none => w5.locks.filterMap id
    | _ => []
  | _ => []

/-- The WAL that `Create` returns for metadata "M" when no system call fails. -/
def createdWAL : WAL :=
  match Create sampleCrcByte sampleCodec FsEnv.quiet (some [77]) with
  | Res.ret (some w) none => w
  | _ => heldWAL []

/-- The WAL `createdWAL` after `Save(HardState{term:1, vote:1, committed:3}, entries 1,2,3)`. -/
def savedWAL : WAL :=
  match Save sampleCrcByte sampleCodec FsEnv.quiet createdWAL ⟨1, 1, 3⟩
      [⟨1, 1, some [10]⟩, ⟨1, 2, some [20]⟩, ⟨1, 3, none⟩] with
  | Res.ret w none => w
  | _ => heldWAL []

/-- The WAL `savedWAL` after a `cut`. -/
def cutSavedWAL : WAL :=
  match cut sampleCrcByte sampleCodec FsEnv.quiet savedWAL with
  | Res.ret w none => w
  | _ => heldWAL []

/-- The directory after `Create` with metadata "M" and one `Save` of a single entry with
index 5 (the entries 1 to 4 were never written). -/
def gapDir : List LockedFile :=
  match Create sampleCrcByte sampleCodec FsEnv.quiet (some [77]) with
  | Res.ret (some w0) none =>
    match Save sampleCrcByte sampleCodec FsEnv.quiet w0 ⟨0, 0, 0⟩ [⟨1, 5, none⟩] with
    | Res.ret w1 none => w1.locks.filterMap id
    | _ => []
  | _ => []

/-- The directory after `Create` with metadata "M", a `Save` of the entries 1, 2, 3 of term 1
and a `Save` of an entry 2 of term 2 (a rewind). -/
def rewindDir : List LockedFile :=
  match Create sampleCrcByte sampleCodec FsEnv.quiet (some [77]) with
  | Res.ret (some w0) none =>
    match (Save sampleCrcByte sampleCodec FsEnv.quiet w0 ⟨1, 1, 0⟩
        [⟨1, 1, none⟩, ⟨1, 2, none⟩, ⟨1, 3, none⟩]).andThen (fun w1 =>
      Save sampleCrcByte sampleCodec FsEnv.quiet w1 ⟨2, 1, 0⟩ [⟨2, 2, none⟩]) with
    | Res.ret w2 none => w2.locks.filterMap id
    | _ => []
  | _ => []

/-- A stand-in for `Repair` on sample directories: the partial frame at the end of every
file is cut off. -/
def sampleRepair (dir : List LockedFile) : Bool × List LockedFile :=
  (true, dir.map fun f => { f with ending := Error.EOF })

/-- The run of `ReadWAL` on the torn directory `tornDir` when `Repair` cuts the partial
frame off. -/
def repairedRun : Outcome × List Event :=
  ReadWAL sampleCrcByte sampleCodec emptyRegistry (fun _ => FsEnv.quiet) sampleRepair tornDir
    ⟨0, 0⟩ false 2

/-- The run of `ReadWAL` on the torn directory `tornDir` when `Repair` reports success and
leaves the directory as it was. -/
def unrepairedRun : Outcome × List Event :=
  ReadWAL sampleCrcByte sampleCodec emptyRegistry (fun _ => FsEnv.quiet) (fun dir => (true, dir))
    tornDir ⟨0, 0⟩ false 2

/-! ### Words of the specification -/

/-- The stream has a valid CRC chain from the running CRC `crc` on: every record other than
a `crc` record stores the running CRC updated with its payload; a `crc` record met with a
non-zero running CRC stores that CRC, and seeds the running CRC with what it stores. -/
def chainValid (crcByte : Nat → Nat → Nat) : Nat → List Record → Bool
  | _, [] => true
  | crc, r :: rest =>
    if r.type = crcType then
      (decide (crc = 0) || decide (r.crc = crc)) && chainValid crcByte r.crc rest
    else
      decide (r.crc = crcUpdate crcByte crc r.data) &&
        chainValid crcByte (crcUpdate crcByte crc r.data) rest

/-- The snapshot markers of a stream, in stream order, duplicates kept. -/
def snapshotMarkers (c : Codec) (frames : List Record) : List Snapshot :=
  (frames.filter (fun r => decide (r.type = snapshotType))).map
    (fun r => c.mustUnmarshalSnapshot r.data)

/-- The committed value of the last state record of a stream, 0 when there is none. -/
def lastCommitted (c : Codec) (frames : List Record) : Nat :=
  match (frames.filter (fun r => decide (r.type = stateType))).getLast? with
  | some r => (c.mustUnmarshalState r.data).committed
  | none => 0

/-- The frames an encoder with running CRC `crc` writes for the records `recs`, in order. -/
def frameRecords (crcByte : Nat → Nat → Nat) : Nat → List Record → List Record
  | _, [] => []
  | crc, r :: rest =>
    { r with crc := if r.type = crcType then r.crc else crcUpdate crcByte crc r.data } ::
      frameRecords crcByte (crcUpdate crcByte crc r.data) rest

/-- The running CRC of an encoder after it has written the records `recs`. -/
def crcAfter (crcByte : Nat → Nat → Nat) (crc : Nat) (recs : List Record) : Nat :=
  recs.foldl (fun k r => crcUpdate crcByte k r.data) crc

/-- The record `saveEntry` hands to the encoder. -/
def entryRecord (c : Codec) (e : Entry) : Record :=
  { type := entryType, crc := 0, data := c.marshalEntry e }

/-- The record `saveState` hands to the encoder. -/
def stateRecord (c : Codec) (s : HardState) : Record :=
  { type := stateType, crc := 0, data := c.marshalState s }

/-- The records one `Save(st, ents)` hands to the encoder of a WAL whose cached hard state
has the committed index `cached`: the entries in order, then the state if its committed
index is neither zero nor the cached one. -/
def saveRecords (c : Codec) (cached : Nat) (st : HardState) (ents : List Entry) : List Record :=
  ents.map (entryRecord c) ++
    (if st.committed ≠ 0 ∧ st.committed ≠ cached then [stateRecord c st] else [])

/-- The value of `w.enti` after the entries `ents` were saved. -/
def lastIndex (enti : Nat) (ents : List Entry) : Nat :=
  match ents.getLast? with
  | some e => e.index
  | none => enti

/-- The records of the files of a directory, in order. -/
def streamOf : List LockedFile → List Record
  | [] => []
  | f :: rest => f.recs ++ streamOf rest

/-- A sequence of `Save` calls, each with its own answers of the operating system; the
sequence ends at the first call that fails. -/
def saveAll (crcByte : Nat → Nat → Nat) (c : Codec) :
    WAL → List (FsEnv × HardState × List Entry) → Res WAL
  | w, [] => Res.ret w none
  | w, s :: rest =>
    (Save crcByte c s.1 w s.2.1 s.2.2).andThen fun w1 => saveAll crcByte c w1 rest

/-- The concatenation of the entry batches of a sequence of `Save` calls. -/
def savedEntries : List (FsEnv × HardState × List Entry) → List Entry
  | [] => []
  | s :: rest => s.2.2 ++ savedEntries rest

/-- A later write at an index overrides the earlier ones: the entry takes the position of
its index and what was after that position is dropped. -/
def overrideAppend (log : List Entry) (e : Entry) : List Entry :=
  log.take (e.index - 1) ++ [e]

/-- The log that a sequence of written entries stands for, later writes overriding
earlier ones. -/
def replayedLog (es : List Entry) : List Entry := es.foldl overrideAppend []

/-- The entries are written without a gap after the log `log`: every index is at least 1
and at most one more than the length of the log at the time it is written. -/
def gapFree : List Entry → List Entry → Bool
  | _, [] => true
  | log, e :: rest =>
    decide (1 ≤ e.index) && decide (e.index ≤ log.length + 1) &&
      gapFree (overrideAppend log e) rest

/-- The codec is faithful: unmarshalling undoes marshalling. -/
def Codec.faithful (c : Codec) : Prop :=
  (∀ e, c.mustUnmarshalEntry (c.marshalEntry e) = e) ∧
  (∀ s, c.mustUnmarshalState (c.marshalState s) = s) ∧
  (∀ s, c.mustUnmarshalSnapshot (c.marshalSnapshot s) = s)

/-- Names of the segments written by `Create` and `cut`: the file at position `i` has
sequence number `k + i`; the first index is 0 in segment 0 and at least 1 in the others. -/
def segNames (k : Nat) (files : List LockedFile) : Prop :=
  ∀ i f, files.get? i = some f →
    ∃ idx, f.name = WalName.canonical (k + i) idx ∧ (k + i = 0 → idx = 0) ∧
      (0 < k + i → 1 ≤ idx)

/-- The state of a WAL in append mode that was made by `Create` with metadata `M` and at most
`nsaves` calls of `Save` writing the entries `es`: its files replay, from a fresh decoder
opened at snapshot 0, to `M`, the cached hard state and the log of `es`, and the running
CRC of the decoder is then the one of the encoder. The WAL flushes (`unsafeNoSync` is not
set) and the buffer of its encoder is empty. -/
def WriterInv (crcByte : Nat → Nat → Nat) (c : Codec) (reg : Registry) (M : Bytes)
    (es : List Entry) (nsaves : Nat) (w : WAL) : Prop :=
  w.metadata = M ∧ w.enti + 1 < u64 ∧ w.unsafeNoSync = false ∧
  ∃ (files : List LockedFile) (last : LockedFile) (enc : Encoder) (n : Nat),
    w.locks = (files ++ [last]).map some ∧ w.encoder = some enc ∧ enc.buf = [] ∧
    files.length ≤ nsaves ∧
    (∀ f ∈ files ++ [last], f.ending = Error.EOF) ∧
    segNames 0 (files ++ [last]) ∧
    replayLoop crcByte (readAllStep c reg ⟨0, 0⟩) Error.EOF (streamOf (files ++ [last])) 0
        ⟨none, ⟨0, 0, 0⟩, [], [], false, 0⟩ =
      LoopExit.ended ⟨M, w.state, replayedLog es, [], true, n⟩ enc.crc Error.EOF

/-- The entry list is gap-free and anchored at the index `start`: the entry at position `i`
has the index `start + i + 1`. -/
def anchored (start : Nat) (ents : List Entry) : Prop :=
  ∀ i e, ents.get? i = some e → e.index = start + i + 1

/-- The stream is made only of metadata, entry, state, crc and snapshot records. -/
def knownTypes (frames : List Record) : Bool :=
  frames.all fun r =>
    decide (r.type = metadataType ∨ r.type = entryType ∨ r.type = stateType ∨
      r.type = crcType ∨ r.type = snapshotType)

/-- The metadata records of a stream. -/
def metadataRecords (frames : List Record) : List Record :=
  frames.filter fun r => decide (r.type = metadataType)

/-- The metadata of the stream is consistent: all metadata records carry equal bytes. -/
def metadataConsistent (frames : List Record) : Bool :=
  (metadataRecords frames).all fun r =>
    (metadataRecords frames).all fun r1 => bytesEqual r.data r1.data

/-- The stream contains a snapshot record whose index is `index`. -/
def hasSnapshot (c : Codec) (frames : List Record) (index : Nat) : Bool :=
  frames.any fun r =>
    decide (r.type = snapshotType) && decide ((c.mustUnmarshalSnapshot r.data).index = index)

/-- The metadata records of the frames agree with the bytes `m` of the variable `metadata`
(when it is set) and with each other. -/
def metaAgrees (m : Bytes) (frames : List Record) : Prop :=
  (∀ r ∈ frames, r.type = metadataType → m = none ∨ bytesEqual m r.data = true) ∧
  (∀ r ∈ frames, ∀ r1 ∈ frames, r.type = metadataType → r1.type = metadataType →
    bytesEqual r.data r1.data = true)

/-- The number of calls of `Repair` in a run of `ReadWAL`. -/
def repairCalls (tr : List Event) : Nat :=
  tr.countP fun e => match e with
    | Event.repair _ => true
    | _ => false

/-- The number of turns of the loop of `ReadWAL`: every turn starts with a call of `Open`. -/
def loopRuns (tr : List Event) : Nat :=
  tr.countP fun e => match e with
    | Event.opened => true
    | Event.openFailed _ => true
    | _ => false

/-- The ways one turn of the loop of `ReadWAL` ends when a repair was made before. -/
def lastTurn (r : Outcome × List Event) : Prop :=
  (∃ e, r = (Outcome.fatal, [Event.openFailed e, Event.fatal])) ∨
  (∃ w m st ents, r = (Outcome.returned w m st ents, [Event.opened, Event.readAll none])) ∨
  (∃ e, r = (Outcome.fatal, [Event.opened, Event.readAll (some e), Event.closed, Event.fatal]))

/-- A call on a WAL in append mode, with what the operating system answers during it. -/
inductive Call where
  | save (fs : FsEnv) (st : HardState) (ents : List Entry)
  | saveSnapshot (fs : FsEnv) (e : Snapshot)

/-- A sequence of `Save` and `SaveSnapshot` calls; it ends at the first call that fails. -/
def runCalls (crcByte : Nat → Nat → Nat) (c : Codec) : WAL → List Call → Res WAL
  | w, [] => Res.ret w none
  | w, Call.save fs st ents :: rest =>
    (Save crcByte c fs w st ents).andThen fun w1 => runCalls crcByte c w1 rest
  | w, Call.saveSnapshot fs e :: rest =>
    (SaveSnapshot crcByte c fs w e).andThen fun w1 => runCalls crcByte c w1 rest

/-- The indices of the entries a segment holds, in the order they were written. -/
def entryIndices (c : Codec) (f : LockedFile) : List Nat :=
  (f.recs.filter fun r => decide (r.type = entryType)).map
    fun r => (c.mustUnmarshalEntry r.data).index

/-- The order of two consecutive segments `s`, `t`: the first index of `t` is at least the
first index of `s`, and above the index of every entry `s` holds. -/
def segmentOrder (c : Codec) (s t : LockedFile) : Prop :=
  firstIndex s ≤ firstIndex t ∧ ∀ x ∈ entryIndices c s, x + 1 ≤ firstIndex t

/-- The indices of the entries do not go below `prev` nor below one another, and stay
below the largest unsigned 64 bit integer. -/
def ascendingFrom : Nat → List Entry → Bool
  | _, [] => true
  | prev, e :: rest =>
    decide (prev ≤ e.index) && decide (e.index + 1 < u64) && ascendingFrom e.index rest

/-- No call rewinds: starting from the last index `enti` the WAL has recorded, no entry is
saved at an index below the last index recorded before it (by an entry or a snapshot),
and all indices stay below the largest unsigned 64 bit integer. -/
def noRewind : Nat → List Call → Bool
  | _, [] => true
  | enti, Call.save _ _ ents :: rest =>
    ascendingFrom enti ents && noRewind (lastIndex enti ents) rest
  | enti, Call.saveSnapshot _ e :: rest =>
    decide (e.index + 1 < u64) && noRewind (if enti < e.index then e.index else enti) rest

/-- The state of a WAL in append mode whose segments are in order: the files have the names
of segments, consecutive files are in order, and the tail starts at or below the index
after `w.enti` and holds no entry above `w.enti`. The WAL flushes (`unsafeNoSync` is not
set) and the buffer of its encoder is empty. -/
def OrderInv (c : Codec) (w : WAL) : Prop :=
  w.enti + 1 < u64 ∧ w.unsafeNoSync = false ∧
  ∃ (files : List LockedFile) (last : LockedFile) (enc : Encoder),
    w.locks = (files ++ [last]).map some ∧ w.encoder = some enc ∧ enc.buf = [] ∧
    (∀ f ∈ files ++ [last], f.name.isCanonical = true) ∧
    List.Chain' (segmentOrder c) (files ++ [last]) ∧
    firstIndex last ≤ w.enti + 1 ∧ ∀ x ∈ entryIndices c last, x ≤ w.enti

/-- An environment in which no call fails and the tail has outgrown the segment size, so
that every `Save` ends with a `cut`. -/
def cutEnv : FsEnv := { FsEnv.quiet with curOff := 100, segmentSizeBytes := 10 }

/-- Calls with a rewind: the entries 1, 2, 3 of term 1, then the entry 1 of term 2. -/
def rewindCalls : List Call :=
  [Call.save cutEnv ⟨1, 1, 0⟩ [⟨1, 1, none⟩, ⟨1, 2, none⟩, ⟨1, 3, none⟩],
   Call.save cutEnv ⟨2, 1, 0⟩ [⟨2, 1, none⟩]]

/-- Calls in which one `Save` writes the entry 5 before the entry 2. -/
def unorderedCalls : List Call :=
  [Call.save cutEnv ⟨1, 1, 0⟩ [⟨1, 5, none⟩, ⟨1, 2, none⟩]]

/-- Calls without a rewind: the entries 1, 2, 3, a snapshot at 3, the entries 4, 5. -/
def ascendingCalls : List Call :=
  [Call.save cutEnv ⟨1, 1, 0⟩ [⟨1, 1, none⟩, ⟨1, 2, none⟩, ⟨1, 3, none⟩],
   Call.saveSnapshot FsEnv.quiet ⟨3, 1⟩,
   Call.save cutEnv ⟨1, 1, 0⟩ [⟨1, 4, none⟩, ⟨1, 5, none⟩]]

/-- The WAL `createdWAL` after the calls `calls` (an empty WAL when a call fails). -/
def calledWAL (calls : List Call) : WAL :=
  match runCalls sampleCrcByte sampleCodec createdWAL calls with
  | Res.ret w none => w
  | _ => heldWAL []

/-- The WAL `createdWAL` after `SetUnsafeNoFsync()`. -/
def noSyncWAL : WAL := createdWAL.SetUnsafeNoFsync

/-- The WAL `noSyncWAL` after `Save(HardState{term:1, vote:1, committed:3}, entries 1,2,3)`
in the environment `fs` (an empty WAL when the call fails). -/
def noSyncSavedWAL (fs : FsEnv) : WAL :=
  match Save sampleCrcByte sampleCodec fs noSyncWAL ⟨1, 1, 3⟩
      [⟨1, 1, some [10]⟩, ⟨1, 2, some [20]⟩, ⟨1, 3, none⟩] with
  | Res.ret w none => w
  | _ => heldWAL []

/-- The directory `gapDir` after a torn write: four intact records, the last one an entry
of index 5, then a partial frame. -/
def tornGapDir : List LockedFile :=
  gapDir.map fun f => { f with ending := Error.ErrUnexpectedEOF }

/-- The directory with the metadata "A" then "B" after a torn write: four intact records,
then a partial frame. -/
def tornConflictDir : List LockedFile :=
  (conflictDir (some [65]) (some [66])).map fun f => { f with ending := Error.ErrUnexpectedEOF }

/-! ## Theorems -/

/-! ### ReleaseLockTo -/

theorem canonical_of_isCanonical (g : LockedFile) (h : g.name.isCanonical = true) :
    ∃ s n, g.name = WalName.canonical s n := by
  cases hg : g.name with
  | canonical s n => exact ⟨s, n, rfl⟩
  | other t => rw [hg] at h; simp [WalName.isCanonical] at h

theorem releaseScan_found (index : Nat) :
    ∀ (fs : List LockedFile) (i k : Nat) (f : LockedFile),
      (∀ g ∈ fs, g.name.isCanonical = true) →
      fs.get? k = some f → index ≤ firstIndex f →
      (∀ g ∈ fs.take k, firstIndex g < index) →
      releaseScan index (fs.map some) i = ScanResult.found (((i + k : Nat) : Int) - 1) := by
  intro fs
  induction fs with
  | nil => intro i k f _ hk; simp at hk
  | cons g rest ih =>
    intro i k f hn hk hge hlt
    obtain ⟨s, n, hg⟩ := canonical_of_isCanonical g (hn g (List.mem_cons_self _ _))
    cases k with
    | zero =>
      simp at hk
      subst hk
      have : index ≤ n := by simpa [firstIndex, hg] using hge
      simp [releaseScan, parseWALName, hg, this]
    | succ k =>
      have h0 : firstIndex g < index := hlt g (by simp)
      have hn0 : ¬ index ≤ n := by
        have : n < index := by simpa [firstIndex, hg] using h0
        omega
      have hrec := ih (i + 1) k f (fun x hx => hn x (List.mem_cons_of_mem _ hx))
        (by simpa using hk) hge
        (fun x hx => hlt x (by simp [List.take_succ_cons, hx]))
      simp only [List.map_cons, releaseScan, parseWALName, hg]
      simp only [ge_iff_le, hn0, if_false]
      rw [hrec]
      congr 2
      omega

theorem releaseScan_notFound (index : Nat) :
    ∀ (fs : List LockedFile) (i : Nat),
      (∀ g ∈ fs, g.name.isCanonical = true) →
      (∀ g ∈ fs, firstIndex g < index) →
      releaseScan index (fs.map some) i = ScanResult.notFound := by
  intro fs
  induction fs with
  | nil => intro i _ _; rfl
  | cons g rest ih =>
    intro i hn hlt
    obtain ⟨s, n, hg⟩ := canonical_of_isCanonical g (hn g (List.mem_cons_self _ _))
    have hn0 : ¬ index ≤ n := by
      have : n < index := by simpa [firstIndex, hg] using hlt g (List.mem_cons_self _ _)
      omega
    simp only [List.map_cons, releaseScan, parseWALName, hg]
    simp only [ge_iff_le, hn0, if_false]
    exact ih (i + 1) (fun x hx => hn x (List.mem_cons_of_mem _ hx))
      (fun x hx => hlt x (List.mem_cons_of_mem _ hx))

theorem filterMap_id_take_map_some (fs : List LockedFile) (n : Nat) :
    ((fs.map some).take n).filterMap id = fs.take n := by
  rw [← List.map_take]
  induction fs.take n with
  | nil => rfl
  | cons a l ih => simp [List.filterMap_cons, ih]

theorem releaseBelow_nat (w : WAL) (fs : List LockedFile) (n : Nat)
    (hl : w.locks = fs.map some) :
    releaseBelow w (((n + 1 : Nat) : Int) - 1) =
      Res.ret ({ w with locks := w.locks.drop n }, fs.take n) none := by
  have e : (((n + 1 : Nat) : Int) - 1) = (n : Int) := by push_cast; ring
  rw [e]
  unfold releaseBelow
  by_cases h : n = 0
  · subst h; simp
  · have : ¬ ((n : Int) ≤ 0) := by omega
    simp only [this, if_false, Int.toNat_ofNat]
    rw [hl, filterMap_id_take_map_some]

theorem releaseLockTo_found (w : WAL) (fs : List LockedFile) (index k : Nat) (f : LockedFile)
    (hl : w.locks = fs.map some)
    (hn : ∀ g ∈ fs, g.name.isCanonical = true)
    (hk : fs.get? k = some f) (hge : index ≤ firstIndex f)
    (hlt : ∀ g ∈ fs.take k, firstIndex g < index) :
    ReleaseLockTo w index =
      Res.ret ({ w with locks := w.locks.drop (k - 1) }, fs.take (k - 1)) none := by
  have hne : ¬ (w.locks.length = 0) := by
    rw [hl, List.length_map]
    intro h0
    have : fs = [] := List.length_eq_zero.mp h0
    subst this
    simp at hk
  unfold ReleaseLockTo
  simp only [hne, if_false]
  rw [hl, releaseScan_found index fs 0 k f hn hk hge hlt]
  simp only [Nat.zero_add]
  rw [← hl]
  cases k with
  | zero =>
    simp [releaseBelow]
  | succ k =>
    simpa using releaseBelow_nat w fs k hl

theorem releaseLockTo_notFound (w : WAL) (fs : List LockedFile) (index : Nat)
    (hl : w.locks = fs.map some)
    (hn : ∀ g ∈ fs, g.name.isCanonical = true)
    (hlt : ∀ g ∈ fs, firstIndex g < index) :
    ReleaseLockTo w index =
      Res.ret ({ w with locks := w.locks.drop (fs.length - 1) },
        fs.take (fs.length - 1)) none := by
  unfold ReleaseLockTo
  by_cases h0 : w.locks.length = 0
  · have : fs = [] := by
      rw [hl, List.length_map] at h0
      exact List.length_eq_zero.mp h0
    subst this
    simp [h0]
  · simp only [h0, if_false]
    rw [hl, releaseScan_notFound index fs 0 hn hlt, ← hl]
    have hlen : w.locks.length = fs.length := by rw [hl, List.length_map]
    obtain ⟨m, hm⟩ : ∃ m, fs.length = m + 1 := ⟨fs.length - 1, by omega⟩
    simp only [hlen, hm, Nat.add_sub_cancel]
    exact releaseBelow_nat w fs m hl

/-- C1: on a WAL holding the files `fs` under canonical names, if `k` is the smallest
position whose first index is at least `index`, `ReleaseLockTo(index)` leaves exactly
`locks[k-1 ..]` and closes exactly the files before position `k-1` (none when `k` is 0
or 1); if no position has a first index of at least `index`, it leaves exactly the tail
and closes every file before it. The order of the first indices plays no role. -/
theorem C1_release_lock_to (w : WAL) (fs : List LockedFile) (index : Nat)
    (hl : w.locks = fs.map some)
    (hn : ∀ g ∈ fs, g.name.isCanonical = true) :
    (∀ k f, fs.get? k = some f → index ≤ firstIndex f →
        (∀ g ∈ fs.take k, firstIndex g < index) →
        ReleaseLockTo w index =
          Res.ret ({ w with locks := w.locks.drop (k - 1) }, fs.take (k - 1)) none) ∧
    ((∀ g ∈ fs, firstIndex g < index) →
        ReleaseLockTo w index =
          Res.ret ({ w with locks := w.locks.drop (fs.length - 1) },
            fs.take (fs.length - 1)) none) :=
  ⟨fun k f hk hge hlt => releaseLockTo_found w fs index k f hl hn hk hge hlt,
   fun hlt => releaseLockTo_notFound w fs index hl hn hlt⟩

/-- C1 at the two examples of the specification and at an index above every first index: with
first indices 0,10,20,30,40 index 25 closes 0,10 and keeps 20,30,40; with 1..6 index 4
closes 1,2 and keeps 3..6; with 1,2,3 index 9 keeps only the tail 3. -/
theorem C1_release_lock_to_witness :
    ReleaseLockTo (heldWAL ([0, 10, 20, 30, 40].map heldFile)) 25 =
        Res.ret (heldWAL ([20, 30, 40].map heldFile), [0, 10].map heldFile) none ∧
    ReleaseLockTo (heldWAL ([1, 2, 3, 4, 5, 6].map heldFile)) 4 =
        Res.ret (heldWAL ([3, 4, 5, 6].map heldFile), [1, 2].map heldFile) none ∧
    ReleaseLockTo (heldWAL ([1, 2, 3].map heldFile)) 9 =
        Res.ret (heldWAL ([3].map heldFile), [1, 2].map heldFile) none :=
  ⟨(C1_release_lock_to (heldWAL ([0, 10, 20, 30, 40].map heldFile))
      ([0, 10, 20, 30, 40].map heldFile) 25
      rfl (by decide)).1 3 (heldFile 30) rfl (by decide) (by decide),
   (C1_release_lock_to (heldWAL ([1, 2, 3, 4, 5, 6].map heldFile))
      ([1, 2, 3, 4, 5, 6].map heldFile) 4
      rfl (by decide)).1 3 (heldFile 4) rfl (by decide) (by decide),
   (C1_release_lock_to (heldWAL ([1, 2, 3].map heldFile)) ([1, 2, 3].map heldFile) 9
      rfl (by decide)).2 (by decide)⟩

theorem get?_take_of_lt {α : Type} :
    ∀ (l : List α) (n i : Nat), i < n → (l.take n).get? i = l.get? i := by
  intro l
  induction l with
  | nil => intro n i _; simp
  | cons a l ih =>
    intro n i h
    cases n with
    | zero => omega
    | succ n =>
      cases i with
      | zero => rfl
      | succ i => simpa using ih n i (by omega)

theorem get?_drop_add {α : Type} :
    ∀ (l : List α) (p i : Nat), (l.drop p).get? i = l.get? (p + i) := by
  intro l
  induction l with
  | nil => intro p i; simp
  | cons a l ih =>
    intro p i
    cases p with
    | zero => simp
    | succ p =>
      rw [List.drop_succ_cons, ih p i, show p + 1 + i = (p + i) + 1 by omega]
      rfl

theorem mem_take_get? {α : Type} (l : List α) (n : Nat) (a : α) (h : a ∈ l.take n) :
    ∃ i, i < n ∧ l.get? i = some a := by
  obtain ⟨i, hi⟩ := List.mem_iff_get?.mp h
  have hlt : i < n := by
    by_contra hge
    have : (l.take n).length ≤ i := by
      rw [List.length_take]; omega
    rw [List.get?_eq_none.mpr this] at hi
    cases hi
  refine ⟨i, hlt, ?_⟩
  rw [← hi, get?_take_of_lt l n i hlt]

theorem get?_mem_drop {α : Type} (l : List α) (p q : Nat) (a : α) (hq : l.get? q = some a)
    (hpq : p ≤ q) : a ∈ l.drop p := by
  apply List.mem_iff_get?.mpr
  refine ⟨q - p, ?_⟩
  rw [get?_drop_add]
  rw [show p + (q - p) = q by omega]
  exact hq

/-- C2: on a WAL holding a non-empty list of files under canonical names,
`ReleaseLockTo(k)` returns without error, closes a strict initial part `locks[.. n)` of the
list and keeps `locks[n ..]`; every closed file has a first index below `k`, and the last
file whose first index is at most `k` sits at a position `p` with `n ≤ p`, so that it and
every file after it are still held. -/
theorem C2_release_keeps_covering (w : WAL) (fs : List LockedFile) (k : Nat)
    (hl : w.locks = fs.map some) (hne : fs ≠ [])
    (hn : ∀ g ∈ fs, g.name.isCanonical = true) :
    ∃ n, ReleaseLockTo w k = Res.ret ({ w with locks := w.locks.drop n }, fs.take n) none ∧
      n < fs.length ∧
      (∀ g ∈ fs.take n, firstIndex g < k) ∧
      (∀ p f, fs.get? p = some f → firstIndex f ≤ k →
          (∀ g ∈ fs.drop (p + 1), k < firstIndex g) → n ≤ p) := by
  have hpos : 0 < fs.length := List.length_pos.mpr hne
  by_cases hex : ∃ j, ∃ f, fs.get? j = some f ∧ k ≤ firstIndex f
  · classical
    have hj := Nat.find_spec hex
    obtain ⟨f, hjf, hge⟩ := hj
    have hmin : ∀ g ∈ fs.take (Nat.find hex), firstIndex g < k := by
      intro g hg
      obtain ⟨i, hi, hig⟩ := mem_take_get? fs _ g hg
      have := Nat.find_min hex hi
      by_contra hc
      exact this ⟨g, hig, by omega⟩
    have hjlt : Nat.find hex < fs.length := by
      by_contra hc
      rw [List.get?_eq_none.mpr (by omega)] at hjf
      cases hjf
    refine ⟨Nat.find hex - 1, releaseLockTo_found w fs k _ f hl hn hjf hge hmin, by omega, ?_, ?_⟩
    · intro g hg
      obtain ⟨i, hi, hig⟩ := mem_take_get? fs _ g hg
      apply hmin
      apply List.mem_iff_get?.mpr
      exact ⟨i, by rw [get?_take_of_lt _ _ _ (by omega)]; exact hig⟩
    · intro p g hp _ hafter
      by_contra hc
      have hlt : p < Nat.find hex - 1 := by omega
      obtain ⟨x, hx⟩ : ∃ x, fs.get? (Nat.find hex - 1) = some x := by
        have : Nat.find hex - 1 < fs.length := by omega
        exact ⟨fs.get ⟨_, this⟩, List.get?_eq_get this⟩
      have h1 : k < firstIndex x := hafter x (get?_mem_drop fs _ _ x hx (by omega))
      have h2 : firstIndex x < k := by
        apply hmin
        apply List.mem_iff_get?.mpr
        exact ⟨Nat.find hex - 1, by rw [get?_take_of_lt _ _ _ (by omega)]; exact hx⟩
      omega
  · have hall : ∀ g ∈ fs, firstIndex g < k := by
      intro g hg
      obtain ⟨i, hi⟩ := List.mem_iff_get?.mp hg
      by_contra hc
      exact hex ⟨i, g, hi, by omega⟩
    refine ⟨fs.length - 1, releaseLockTo_notFound w fs k hl hn hall, by omega, ?_, ?_⟩
    · intro g hg
      exact hall g (List.mem_of_mem_take hg)
    · intro p g hp _ hafter
      by_contra hc
      have hlt : p < fs.length - 1 := by omega
      obtain ⟨x, hx⟩ : ∃ x, fs.get? (fs.length - 1) = some x := by
        have : fs.length - 1 < fs.length := by omega
        exact ⟨fs.get ⟨_, this⟩, List.get?_eq_get this⟩
      have h1 : k < firstIndex x := hafter x (get?_mem_drop fs _ _ x hx (by omega))
      have h2 : firstIndex x < k := hall x (List.mem_iff_get?.mpr ⟨_, hx⟩)
      omega


/-- C2 at first indices 0,10,20,30,40 and index 20. -/
theorem C2_release_keeps_covering_witness :
    ∃ n, ReleaseLockTo (heldWAL ([0, 10, 20, 30, 40].map heldFile)) 20 =
        Res.ret ({ heldWAL ([0, 10, 20, 30, 40].map heldFile) with
          locks := (heldWAL ([0, 10, 20, 30, 40].map heldFile)).locks.drop n },
          ([0, 10, 20, 30, 40].map heldFile).take n) none ∧
      n < ([0, 10, 20, 30, 40].map heldFile).length ∧
      (∀ g ∈ ([0, 10, 20, 30, 40].map heldFile).take n, firstIndex g < 20) ∧
      (∀ p f, ([0, 10, 20, 30, 40].map heldFile).get? p = some f → firstIndex f ≤ 20 →
          (∀ g ∈ ([0, 10, 20, 30, 40].map heldFile).drop (p + 1), 20 < firstIndex g) → n ≤ p) :=
  C2_release_keeps_covering (heldWAL ([0, 10, 20, 30, 40].map heldFile))
    ([0, 10, 20, 30, 40].map heldFile) 20 rfl (by decide) (by decide)

/-! ### The replay loop -/

theorem decodeRecord_error (crcByte : Nat → Nat → Nat) (crc : Nat) (rec : Record) (e : Error)
    (h : decodeRecord crcByte crc rec = Except.error e) : e = Error.ErrCRCMismatch := by
  unfold decodeRecord at h
  split at h
  · cases h
  · simp only at h
    split at h
    · cases h
    · cases h; rfl

/-- One turn of the loop is `decoder.decode` followed by the body. -/
theorem replayLoop_decode {σ ρ : Type} (crcByte : Nat → Nat → Nat)
    (body : σ → Nat → Record → Step σ ρ) (d : Decoder) (v : σ) :
    replayLoop crcByte body d.term d.frames d.crc v =
      match d.decode crcByte with
      | (Except.error e, _) => LoopExit.ended v d.crc e
      | (Except.ok rec, d1) =>
        match body v d1.crc rec with
        | Step.stop v1 out => LoopExit.returned v1 out
        | Step.next v1 crc2 =>
          replayLoop crcByte body d1.term d1.frames (d1.updateCRC crc2).crc v1 := by
  obtain ⟨frames, term, crc⟩ := d
  cases frames with
  | nil => rfl
  | cons r rest =>
    simp only [replayLoop, Decoder.decode]
    cases decodeRecord crcByte crc r with
    | error e => rfl
    | ok c1 => rfl

theorem decodeRecord_crc (crcByte : Nat → Nat → Nat) (crc : Nat) (rec : Record)
    (h : rec.type = crcType) : decodeRecord crcByte crc rec = Except.ok crc := by
  simp [decodeRecord, h]

/-- A replay that runs through the frames `xs` goes on with what follows them. -/
theorem replayLoop_append {σ ρ : Type} (crcByte : Nat → Nat → Nat)
    (body : σ → Nat → Record → Step σ ρ) (term : Error) (ys : List Record) :
    ∀ (xs : List Record) (crc : Nat) (v : σ) (crc1 : Nat) (v1 : σ),
      replayLoop crcByte body Error.EOF xs crc v = LoopExit.ended v1 crc1 Error.EOF →
      replayLoop crcByte body term (xs ++ ys) crc v = replayLoop crcByte body term ys crc1 v1 := by
  intro xs
  induction xs with
  | nil =>
    intro crc v crc1 v1 h
    simp only [replayLoop] at h
    cases h
    rfl
  | cons x xs ih =>
    intro crc v crc1 v1 h
    simp only [replayLoop, List.cons_append] at h ⊢
    cases hd : decodeRecord crcByte crc x with
    | error e =>
      rw [hd] at h
      have := decodeRecord_error crcByte crc x e hd
      subst this
      simp at h
    | ok c1 =>
      rw [hd] at h
      simp only at h ⊢
      cases hb : body v c1 x with
      | stop v2 out => rw [hb] at h; simp at h
      | next v2 c2 =>
        rw [hb] at h
        simp only at h ⊢
        exact ih c2 v2 crc1 v1 h

/-- A replay that runs through all frames ends with the error that ends the stream. -/
theorem replayLoop_term {σ ρ : Type} (crcByte : Nat → Nat → Nat)
    (body : σ → Nat → Record → Step σ ρ) (term : Error) (xs : List Record) (crc : Nat) (v : σ)
    (crc1 : Nat) (v1 : σ)
    (h : replayLoop crcByte body Error.EOF xs crc v = LoopExit.ended v1 crc1 Error.EOF) :
    replayLoop crcByte body term xs crc v = LoopExit.ended v1 crc1 term := by
  have := replayLoop_append crcByte body term [] xs crc v crc1 v1 h
  simpa [replayLoop] using this

theorem readAllStep_crc (c : Codec) (reg : Registry) (start : Snapshot) (v : ReadVars)
    (crc : Nat) (rec : Record) (hrec : rec.type = crcType) :
    readAllStep c reg start v crc rec =
      if crc ≠ 0 ∧ rec.crc ≠ crc then
        Step.stop v ⟨none, ⟨0, 0, 0⟩, [], v.records, some Error.ErrCRCMismatch⟩
      else Step.next v rec.crc := by
  have d1 : ¬ (crcType = entryType) := by decide
  have d2 : ¬ (crcType = stateType) := by decide
  have d3 : ¬ (crcType = metadataType) := by decide
  simp only [readAllStep, hrec, d1, d2, d3, if_true, if_false, Record.Validate,
    HardState.reset]
  by_cases hz : crc = 0
  · simp [hz]
  · by_cases he : rec.crc = crc
    · simp [hz, he]
    · simp [hz, he]

theorem verifyStep_crc (c : Codec) (snap : Snapshot) (v : VerifyVars)
    (crc : Nat) (rec : Record) (hrec : rec.type = crcType) :
    verifyStep c snap v crc rec =
      if crc ≠ 0 ∧ rec.crc ≠ crc then Step.stop v (some Error.ErrCRCMismatch)
      else Step.next v rec.crc := by
  have d3 : ¬ (crcType = metadataType) := by decide
  simp only [verifyStep, hrec, d3, if_true, if_false, Record.Validate]
  by_cases hz : crc = 0
  · simp [hz]
  · by_cases he : rec.crc = crc
    · simp [hz, he]
    · simp [hz, he]

theorem validSnapshotStep_crc (c : Codec) (v : SnapVars)
    (crc : Nat) (rec : Record) (hrec : rec.type = crcType) :
    validSnapshotStep c v crc rec =
      if crc ≠ 0 ∧ rec.crc ≠ crc then Step.stop v ([], some Error.ErrCRCMismatch)
      else Step.next v rec.crc := by
  have d2 : ¬ (crcType = stateType) := by decide
  have d5 : ¬ (crcType = snapshotType) := by decide
  simp only [validSnapshotStep, hrec, d2, d5, if_true, if_false, Record.Validate]
  by_cases hz : crc = 0
  · simp [hz]
  · by_cases he : rec.crc = crc
    · simp [hz, he]
    · simp [hz, he]

/-- C9: when a replay loop (of `ReadAll`, `Verify` or `ValidSnapshotEntries`) takes a
`crc` record while the decoder has the running CRC `crc`, it returns `ErrCRCMismatch`
exactly when `crc` is not zero and differs from the stored CRC of the record (a running CRC
of zero is not compared); otherwise the loop goes on over the remaining frames with the
running CRC set to the stored CRC and the variables unchanged. The comparison uses the
running CRC from before the re-seeding. -/
theorem C9_crc_chain_check (crcByte : Nat → Nat → Nat) (c : Codec) (reg : Registry)
    (start snap : Snapshot) (term : Error) (rec : Record) (rest : List Record) (crc : Nat)
    (v : ReadVars) (vv : VerifyVars) (vs : SnapVars) (hrec : rec.type = crcType) :
    (replayLoop crcByte (readAllStep c reg start) term (rec :: rest) crc v =
        if crc ≠ 0 ∧ rec.crc ≠ crc then
          LoopExit.returned v ⟨none, ⟨0, 0, 0⟩, [], v.records, some Error.ErrCRCMismatch⟩
        else replayLoop crcByte (readAllStep c reg start) term rest rec.crc v) ∧
    (replayLoop crcByte (verifyStep c snap) term (rec :: rest) crc vv =
        if crc ≠ 0 ∧ rec.crc ≠ crc then LoopExit.returned vv (some Error.ErrCRCMismatch)
        else replayLoop crcByte (verifyStep c snap) term rest rec.crc vv) ∧
    (replayLoop crcByte (validSnapshotStep c) term (rec :: rest) crc vs =
        if crc ≠ 0 ∧ rec.crc ≠ crc then LoopExit.returned vs ([], some Error.ErrCRCMismatch)
        else replayLoop crcByte (validSnapshotStep c) term rest rec.crc vs) := by
  refine ⟨?_, ?_, ?_⟩
  · simp only [replayLoop, decodeRecord_crc crcByte crc rec hrec,
      readAllStep_crc c reg start v crc rec hrec]
    by_cases hc : crc ≠ 0 ∧ rec.crc ≠ crc
    · simp only [hc, and_self, ne_eq, not_false_eq_true, if_true]
    · simp only [hc, if_false]
  · simp only [replayLoop, decodeRecord_crc crcByte crc rec hrec,
      verifyStep_crc c snap vv crc rec hrec]
    by_cases hc : crc ≠ 0 ∧ rec.crc ≠ crc
    · simp only [hc, and_self, ne_eq, not_false_eq_true, if_true]
    · simp only [hc, if_false]
  · simp only [replayLoop, decodeRecord_crc crcByte crc rec hrec,
      validSnapshotStep_crc c vs crc rec hrec]
    by_cases hc : crc ≠ 0 ∧ rec.crc ≠ crc
    · simp only [hc, and_self, ne_eq, not_false_eq_true, if_true]
    · simp only [hc, if_false]


/-- C9 at running CRC 5: a `crc` record storing 7 is refused by the three loops, and a
`crc` record storing 5 is accepted by `ReadAll`, which then reaches the end of the stream
with running CRC 5. -/
theorem C9_crc_chain_check_witness :
    replayLoop sampleCrcByte (readAllStep sampleCodec emptyRegistry ⟨0, 0⟩) Error.EOF
        [⟨crcType, 7, none⟩] 5 ⟨none, ⟨0, 0, 0⟩, [], [], false, 0⟩ =
      LoopExit.returned ⟨none, ⟨0, 0, 0⟩, [], [], false, 0⟩
        ⟨none, ⟨0, 0, 0⟩, [], [], some Error.ErrCRCMismatch⟩ ∧
    replayLoop sampleCrcByte (verifyStep sampleCodec ⟨0, 0⟩) Error.EOF
        [⟨crcType, 7, none⟩] 5 ⟨none, false⟩ =
      LoopExit.returned ⟨none, false⟩ (some Error.ErrCRCMismatch) ∧
    replayLoop sampleCrcByte (validSnapshotStep sampleCodec) Error.EOF
        [⟨crcType, 7, none⟩] 5 ⟨[], ⟨0, 0, 0⟩⟩ =
      LoopExit.returned ⟨[], ⟨0, 0, 0⟩⟩ ([], some Error.ErrCRCMismatch) ∧
    replayLoop sampleCrcByte (readAllStep sampleCodec emptyRegistry ⟨0, 0⟩) Error.EOF
        [⟨crcType, 5, none⟩] 5 ⟨none, ⟨0, 0, 0⟩, [], [], false, 0⟩ =
      LoopExit.ended ⟨none, ⟨0, 0, 0⟩, [], [], false, 0⟩ 5 Error.EOF :=
  ⟨((C9_crc_chain_check sampleCrcByte sampleCodec emptyRegistry ⟨0, 0⟩ ⟨0, 0⟩ Error.EOF
      ⟨crcType, 7, none⟩ [] 5 ⟨none, ⟨0, 0, 0⟩, [], [], false, 0⟩ ⟨none, false⟩
      ⟨[], ⟨0, 0, 0⟩⟩ rfl).1).trans (if_pos (by decide)),
   ((C9_crc_chain_check sampleCrcByte sampleCodec emptyRegistry ⟨0, 0⟩ ⟨0, 0⟩ Error.EOF
      ⟨crcType, 7, none⟩ [] 5 ⟨none, ⟨0, 0, 0⟩, [], [], false, 0⟩ ⟨none, false⟩
      ⟨[], ⟨0, 0, 0⟩⟩ rfl).2.1).trans (if_pos (by decide)),
   ((C9_crc_chain_check sampleCrcByte sampleCodec emptyRegistry ⟨0, 0⟩ ⟨0, 0⟩ Error.EOF
      ⟨crcType, 7, none⟩ [] 5 ⟨none, ⟨0, 0, 0⟩, [], [], false, 0⟩ ⟨none, false⟩
      ⟨[], ⟨0, 0, 0⟩⟩ rfl).2.2).trans (if_pos (by decide)),
   ((C9_crc_chain_check sampleCrcByte sampleCodec emptyRegistry ⟨0, 0⟩ ⟨0, 0⟩ Error.EOF
      ⟨crcType, 5, none⟩ [] 5 ⟨none, ⟨0, 0, 0⟩, [], [], false, 0⟩ ⟨none, false⟩
      ⟨[], ⟨0, 0, 0⟩⟩ rfl).1).trans (if_neg (by decide))⟩

theorem readAllStep_isMatch (c : Codec) (reg : Registry) (start : Snapshot) (v v1 : ReadVars)
    (crc crc1 : Nat) (rec : Record)
    (hno : rec.type = snapshotType → (c.mustUnmarshalSnapshot rec.data).index ≠ start.index)
    (h : readAllStep c reg start v crc rec = Step.next v1 crc1) : v1.isMatch = v.isMatch := by
  simp only [readAllStep] at h
  split_ifs at h with h1 h2 h3 h4 h5 h6 h7 h8 h9
  all_goals first
    | (exact absurd (by assumption) (hno (by assumption)))
    | (cases h; rfl)
    | (split at h <;> first | (cases h; rfl) | cases h)

theorem replayLoop_isMatch (crcByte : Nat → Nat → Nat) (c : Codec) (reg : Registry)
    (start : Snapshot) (term : Error) :
    ∀ (frames : List Record) (crc : Nat) (v : ReadVars) (crc1 : Nat) (v1 : ReadVars) (e : Error),
      (∀ r ∈ frames, r.type = snapshotType →
        (c.mustUnmarshalSnapshot r.data).index ≠ start.index) →
      replayLoop crcByte (readAllStep c reg start) term frames crc v = LoopExit.ended v1 crc1 e →
      v1.isMatch = v.isMatch := by
  intro frames
  induction frames with
  | nil =>
    intro crc v crc1 v1 e _ h
    simp only [replayLoop] at h
    cases h
    rfl
  | cons x xs ih =>
    intro crc v crc1 v1 e hno h
    simp only [replayLoop] at h
    cases hd : decodeRecord crcByte crc x with
    | error e1 =>
      rw [hd] at h
      cases h
      rfl
    | ok c1 =>
      rw [hd] at h
      simp only at h
      cases hb : readAllStep c reg start v c1 x with
      | stop v2 out => rw [hb] at h; cases h
      | next v2 c2 =>
        rw [hb] at h
        simp only at h
        rw [ih c2 v2 crc1 v1 e (fun r hr => hno r (List.mem_cons_of_mem _ hr)) h]
        exact readAllStep_isMatch c reg start v v2 c1 c2 x (hno x (List.mem_cons_self _ _)) hb

theorem tail_with (w : WAL) (rc : Bool) (s : Snapshot) (m : Bytes) (n : Nat) :
    ({ w with readClose := rc, start := s, metadata := m, enti := n } : WAL).tail = w.tail := rfl

theorem readAllFinish_readOnly (fs : FsEnv) (w : WAL) (v : ReadVars) (crc : Nat)
    (ht : w.tail = none) :
    (readAllFinish fs w v crc).2 =
      ⟨v.metadata, v.state, v.ents, v.records,
        if ¬ v.isMatch then some Error.ErrSnapshotNotFound else none⟩ := by
  unfold readAllFinish
  simp only [tail_with, ht]

theorem readAllFinish_write (fs : FsEnv) (w : WAL) (v : ReadVars) (crc : Nat)
    (ht : w.tail ≠ none) (hf : fs.fail FsOp.newFileEncoder = none) :
    (readAllFinish fs w v crc).2 = ⟨v.metadata, v.state, v.ents, v.records, none⟩ := by
  unfold readAllFinish
  cases h : w.tail with
  | none => exact absurd h ht
  | some t => simp only [tail_with, h, newFileEncoder, hf]

/-- C7, as amended: let the decoder of the WAL hold the intact frames `frames` followed by
the ending `term`, and let no record end the replay before the end of the stream: the
frames replay to the variables `v`. If the stream is torn (`term = ErrUnexpectedEOF`),
then `ReadAll` on a WAL opened read only (no tail), with the start marker seen, succeeds
with the metadata, hard state and entries of `v`, while on a WAL opened for writing it
fails with `ErrUnexpectedEOF`, nil metadata, nil entries and the zero hard state. In both
modes, when the replay reaches a decoding error other than `EOF` and `ErrUnexpectedEOF`,
that error is returned as it is with nil metadata, nil entries and the zero hard state.
When a record ends the replay before the end of the stream, `ReadAll` returns in both
modes what the loop returned at that record, whatever the ending of the stream. -/
theorem C7_torn_tail (crcByte : Nat → Nat → Nat) (c : Codec) (reg : Registry) (fs : FsEnv)
    (w : WAL) (frames : List Record) (term : Error) (crc0 : Nat)
    (hd : w.decoder = some ⟨frames, term, crc0⟩) :
    (∀ v crc, replayLoop crcByte (readAllStep c reg w.start) Error.EOF frames crc0
          ⟨none, ⟨0, 0, 0⟩, [], [], false, w.enti⟩ = LoopExit.ended v crc Error.EOF →
        term = Error.ErrUnexpectedEOF →
        (w.tail = none → v.isMatch = true →
          (ReadAll crcByte c reg fs w).2 = ⟨v.metadata, v.state, v.ents, v.records, none⟩) ∧
        (w.tail ≠ none →
          (ReadAll crcByte c reg fs w).2 =
            ⟨none, ⟨0, 0, 0⟩, [], v.records, some Error.ErrUnexpectedEOF⟩)) ∧
    (∀ v crc err, replayLoop crcByte (readAllStep c reg w.start) term frames crc0
          ⟨none, ⟨0, 0, 0⟩, [], [], false, w.enti⟩ = LoopExit.ended v crc err →
        err ≠ Error.EOF → err ≠ Error.ErrUnexpectedEOF →
        (ReadAll crcByte c reg fs w).2 = ⟨none, ⟨0, 0, 0⟩, [], v.records, some err⟩) ∧
    (∀ v out, replayLoop crcByte (readAllStep c reg w.start) term frames crc0
          ⟨none, ⟨0, 0, 0⟩, [], [], false, w.enti⟩ = LoopExit.returned v out →
        (ReadAll crcByte c reg fs w).2 = out) := by
  refine ⟨?_, ?_, ?_⟩
  rotate_left 2
  · intro v out hloop
    unfold ReadAll
    simp only [hd, hloop]
  · intro v crc hrun hterm
    have hloop := replayLoop_term crcByte (readAllStep c reg w.start) term frames crc0 _ crc v hrun
    subst hterm
    refine ⟨?_, ?_⟩
    · intro ht hm
      unfold ReadAll
      simp only [hd, hloop, ht]
      rw [if_neg (by simp), readAllFinish_readOnly fs w v crc ht]
      simp [hm]
    · intro ht
      unfold ReadAll
      cases h : w.tail with
      | none => exact absurd h ht
      | some t =>
        simp only [hd, hloop]
        rw [if_pos (by decide)]
        rfl
  · intro v crc err hloop h1 h2
    unfold ReadAll
    simp only [hd, hloop]
    cases h : w.tail with
    | none =>
      simp only
      rw [if_pos ⟨h1, h2⟩]
      rfl
    | some t =>
      simp only
      rw [if_pos h1]
      rfl

/-- C3, what the code does: let the stream decode cleanly to its end and hold no snapshot
record whose index is the one the WAL was opened at. `ReadAll` on a WAL opened for reading
returns `ErrSnapshotNotFound`; on a WAL opened for writing it returns a nil error (when no
system call fails), because the result of `newFileEncoder` is assigned to the same `err`
after `ErrSnapshotNotFound` was put there. -/
theorem C3_snapshot_not_found_lost (crcByte : Nat → Nat → Nat) (c : Codec) (reg : Registry)
    (fs : FsEnv) (w : WAL) (frames : List Record) (crc0 : Nat) (v : ReadVars) (crc : Nat)
    (hd : w.decoder = some ⟨frames, Error.EOF, crc0⟩)
    (hrun : replayLoop crcByte (readAllStep c reg w.start) Error.EOF frames crc0
          ⟨none, ⟨0, 0, 0⟩, [], [], false, w.enti⟩ = LoopExit.ended v crc Error.EOF)
    (hno : ∀ r ∈ frames, r.type = snapshotType →
        (c.mustUnmarshalSnapshot r.data).index ≠ w.start.index) :
    (w.tail = none →
      (ReadAll crcByte c reg fs w).2 =
        ⟨v.metadata, v.state, v.ents, v.records, some Error.ErrSnapshotNotFound⟩) ∧
    (w.tail ≠ none → fs.fail FsOp.seekStart = none → fs.fail FsOp.zeroToEnd = none →
      fs.fail FsOp.newFileEncoder = none →
      (ReadAll crcByte c reg fs w).2 = ⟨v.metadata, v.state, v.ents, v.records, none⟩) := by
  have hm : v.isMatch = false :=
    replayLoop_isMatch crcByte c reg w.start Error.EOF frames crc0 _ crc v Error.EOF hno hrun
  refine ⟨?_, ?_⟩
  · intro ht
    unfold ReadAll
    simp only [hd, hrun, ht]
    rw [if_neg (by simp), readAllFinish_readOnly fs w v crc ht]
    simp [hm]
  · intro ht h1 h2 h3
    unfold ReadAll
    cases h : w.tail with
    | none => exact absurd h ht
    | some t =>
      simp only [hd, hrun]
      rw [if_neg (by simp)]
      simp only [h1, h2]
      exact readAllFinish_write fs w v crc (by rw [h]; simp) h3


/-- C3 at the failing input: snapshot markers at 0, 5 and 12, opened at index 7. Opened with
`OpenForRead`, `ReadAll` returns `ErrSnapshotNotFound`; opened with `Open`, it returns a
nil error. -/
theorem C3_snapshot_not_found_lost_witness :
    (ReadAll sampleCrcByte sampleCodec emptyRegistry FsEnv.quiet
        (openedWAL snapshotDir ⟨7, 0⟩ false)).2 =
      ⟨some [77], ⟨0, 0, 0⟩, [], [], some Error.ErrSnapshotNotFound⟩ ∧
    (ReadAll sampleCrcByte sampleCodec emptyRegistry FsEnv.quiet
        (openedWAL snapshotDir ⟨7, 0⟩ true)).2 =
      ⟨some [77], ⟨0, 0, 0⟩, [], [], none⟩ :=
  ⟨(C3_snapshot_not_found_lost sampleCrcByte sampleCodec emptyRegistry FsEnv.quiet
      (openedWAL snapshotDir ⟨7, 0⟩ false) (newDecoder snapshotDir).frames 0
      ⟨some [77], ⟨0, 0, 0⟩, [], [], false, 0⟩ 535544127
      (by decide) (by decide) (by decide)).1 (by decide),
   (C3_snapshot_not_found_lost sampleCrcByte sampleCodec emptyRegistry FsEnv.quiet
      (openedWAL snapshotDir ⟨7, 0⟩ true) (newDecoder snapshotDir).frames 0
      ⟨some [77], ⟨0, 0, 0⟩, [], [], false, 0⟩ 535544127
      (by decide) (by decide) (by decide)).2 (by decide) (by decide) (by decide) (by decide)⟩

/-- C7 on the directory written by `Save(HardState{1,1,3}, entries 1,2,3)` with a partial
frame after the last record: read only, `ReadAll` returns the metadata, the hard state and
the three entries; opened for writing, it fails with `ErrUnexpectedEOF`. -/
theorem C7_torn_tail_witness :
    (ReadAll sampleCrcByte sampleCodec emptyRegistry FsEnv.quiet
        (openedWAL tornDir ⟨0, 0⟩ false)).2 =
      ⟨some [77], ⟨1, 1, 3⟩, [⟨1, 1, some [10]⟩, ⟨1, 2, some [20]⟩, ⟨1, 3, none⟩], [],
        none⟩ ∧
    (ReadAll sampleCrcByte sampleCodec emptyRegistry FsEnv.quiet
        (openedWAL tornDir ⟨0, 0⟩ true)).2 =
      ⟨none, ⟨0, 0, 0⟩, [], [], some Error.ErrUnexpectedEOF⟩ :=
  ⟨((C7_torn_tail sampleCrcByte sampleCodec emptyRegistry FsEnv.quiet
      (openedWAL tornDir ⟨0, 0⟩ false) (newDecoder entriesDir).frames Error.ErrUnexpectedEOF 0
      (by decide)).1
      ⟨some [77], ⟨1, 1, 3⟩, [⟨1, 1, some [10]⟩, ⟨1, 2, some [20]⟩, ⟨1, 3, none⟩], [], true, 3⟩
      3033495152 (by decide) rfl).1 (by decide) rfl,
   ((C7_torn_tail sampleCrcByte sampleCodec emptyRegistry FsEnv.quiet
      (openedWAL tornDir ⟨0, 0⟩ true) (newDecoder entriesDir).frames Error.ErrUnexpectedEOF 0
      (by decide)).1
      ⟨some [77], ⟨1, 1, 3⟩, [⟨1, 1, some [10]⟩, ⟨1, 2, some [20]⟩, ⟨1, 3, none⟩], [], true, 3⟩
      3033495152 (by decide) rfl).2 (by decide)⟩

/-- C7 as stated fails: a stream that ends with `ErrUnexpectedEOF` after four intact
records, the start marker 0 among them, whose last record is an entry of index 5 (a gap),
makes `ReadAll` return `ErrSliceOutOfRange` read only and for writing; a torn stream with
the metadata "A" then "B" makes it return `ErrMetadataConflict` in both modes. -/
theorem C7_replay_error_counterexample :
    ((newDecoder tornGapDir).term = Error.ErrUnexpectedEOF ∧
      (newDecoder tornGapDir).frames.length = 4 ∧
      hasSnapshot sampleCodec (newDecoder tornGapDir).frames 0 = true ∧
      (ReadAll sampleCrcByte sampleCodec emptyRegistry FsEnv.quiet
          (openedWAL tornGapDir ⟨0, 0⟩ false)).2 =
        ⟨none, ⟨0, 0, 0⟩, [], [], some Error.ErrSliceOutOfRange⟩ ∧
      (ReadAll sampleCrcByte sampleCodec emptyRegistry FsEnv.quiet
          (openedWAL tornGapDir ⟨0, 0⟩ true)).2 =
        ⟨none, ⟨0, 0, 0⟩, [], [], some Error.ErrSliceOutOfRange⟩) ∧
    ((newDecoder tornConflictDir).term = Error.ErrUnexpectedEOF ∧
      (newDecoder tornConflictDir).frames.length = 4 ∧
      hasSnapshot sampleCodec (newDecoder tornConflictDir).frames 0 = true ∧
      (ReadAll sampleCrcByte sampleCodec emptyRegistry FsEnv.quiet
          (openedWAL tornConflictDir ⟨0, 0⟩ false)).2 =
        ⟨none, ⟨0, 0, 0⟩, [], [], some Error.ErrMetadataConflict⟩ ∧
      (ReadAll sampleCrcByte sampleCodec emptyRegistry FsEnv.quiet
          (openedWAL tornConflictDir ⟨0, 0⟩ true)).2 =
        ⟨none, ⟨0, 0, 0⟩, [], [], some Error.ErrMetadataConflict⟩) := by
  decide

/-- A property of the loop variables that every turn of the body keeps (on records
satisfying `Q`) holds when the loop is left at the end of the stream. -/
theorem replayLoop_invariant {σ ρ : Type} (crcByte : Nat → Nat → Nat)
    (body : σ → Nat → Record → Step σ ρ) (term : Error) (P : σ → Prop) (Q : Record → Prop)
    (hstep : ∀ v crc r v1 crc1, Q r → P v → body v crc r = Step.next v1 crc1 → P v1) :
    ∀ (xs : List Record) (crc : Nat) (v : σ) (crc1 : Nat) (v1 : σ) (e : Error),
      (∀ r ∈ xs, Q r) → P v →
      replayLoop crcByte body term xs crc v = LoopExit.ended v1 crc1 e → P v1 := by
  intro xs
  induction xs with
  | nil =>
    intro crc v crc1 v1 e _ hP h
    simp only [replayLoop] at h
    cases h
    exact hP
  | cons x xs ih =>
    intro crc v crc1 v1 e hQ hP h
    simp only [replayLoop] at h
    cases hd : decodeRecord crcByte crc x with
    | error e1 =>
      rw [hd] at h
      cases h
      exact hP
    | ok c1 =>
      rw [hd] at h
      simp only at h
      cases hb : body v c1 x with
      | stop v2 out => rw [hb] at h; cases h
      | next v2 c2 =>
        rw [hb] at h
        simp only at h
        exact ih c2 v2 crc1 v1 e (fun r hr => hQ r (List.mem_cons_of_mem _ hr))
          (hstep v c1 x v2 c2 (hQ x (List.mem_cons_self _ _)) hP hb) h

/-- A replay that runs through `xs ++ ys` runs through `xs` and then through `ys`. -/
theorem replayLoop_split {σ ρ : Type} (crcByte : Nat → Nat → Nat)
    (body : σ → Nat → Record → Step σ ρ) (ys : List Record) :
    ∀ (xs : List Record) (crc : Nat) (v : σ) (crc2 : Nat) (v2 : σ),
      replayLoop crcByte body Error.EOF (xs ++ ys) crc v = LoopExit.ended v2 crc2 Error.EOF →
      ∃ v1 crc1, replayLoop crcByte body Error.EOF xs crc v = LoopExit.ended v1 crc1 Error.EOF ∧
        replayLoop crcByte body Error.EOF ys crc1 v1 = LoopExit.ended v2 crc2 Error.EOF := by
  intro xs
  induction xs with
  | nil =>
    intro crc v crc2 v2 h
    exact ⟨v, crc, rfl, by simpa using h⟩
  | cons x xs ih =>
    intro crc v crc2 v2 h
    simp only [replayLoop, List.cons_append] at h ⊢
    cases hd : decodeRecord crcByte crc x with
    | error e =>
      rw [hd] at h
      have := decodeRecord_error crcByte crc x e hd
      subst this
      simp at h
    | ok c1 =>
      rw [hd] at h
      simp only at h ⊢
      cases hb : body v c1 x with
      | stop v3 out => rw [hb] at h; simp at h
      | next v3 c3 =>
        rw [hb] at h
        simp only at h ⊢
        exact ih c3 v3 crc2 v2 h

theorem readAllStep_metadata_other (c : Codec) (reg : Registry) (start : Snapshot)
    (v v1 : ReadVars) (crc crc1 : Nat) (rec : Record) (hne : rec.type ≠ metadataType)
    (h : readAllStep c reg start v crc rec = Step.next v1 crc1) : v1.metadata = v.metadata := by
  simp only [readAllStep] at h
  split_ifs at h
  all_goals first
    | (cases h; rfl)
    | (split at h <;> first | (cases h; rfl) | cases h)

theorem readAllStep_metadata (c : Codec) (reg : Registry) (start : Snapshot)
    (v v1 : ReadVars) (crc crc1 : Nat) (rec : Record) (hty : rec.type = metadataType)
    (h : readAllStep c reg start v crc rec = Step.next v1 crc1) :
    v1.metadata = rec.data ∧ (v.metadata = none ∨ bytesEqual v.metadata rec.data = true) := by
  have d1 : ¬ (metadataType = entryType) := by decide
  have d2 : ¬ (metadataType = stateType) := by decide
  simp only [readAllStep, hty, d1, d2, if_false, if_true] at h
  split_ifs at h with hc
  cases h
  refine ⟨rfl, ?_⟩
  by_cases hn : v.metadata = none
  · exact Or.inl hn
  · right
    by_contra hb
    exact hc ⟨hn, hb⟩

theorem bytesEqual_some_nonempty (A : List Nat) (hA : A ≠ []) (d : Bytes)
    (h : bytesEqual (some A) d = true) : d = some A := by
  cases d with
  | none =>
    simp [bytesEqual] at h
    exact absurd h hA
  | some b =>
    simp [bytesEqual] at h
    rw [h]

theorem readAllStep_metadata_kept (c : Codec) (reg : Registry) (start : Snapshot)
    (A : List Nat) (hA : A ≠ []) (v v1 : ReadVars) (crc crc1 : Nat) (rec : Record)
    (hv : v.metadata = some A)
    (h : readAllStep c reg start v crc rec = Step.next v1 crc1) : v1.metadata = some A := by
  by_cases hty : rec.type = metadataType
  · obtain ⟨h1, h2⟩ := readAllStep_metadata c reg start v v1 crc crc1 rec hty h
    rw [h1]
    rcases h2 with h2 | h2
    · rw [hv] at h2; cases h2
    · rw [hv] at h2
      exact bytesEqual_some_nonempty A hA _ h2
  · rw [readAllStep_metadata_other c reg start v v1 crc crc1 rec hty h, hv]

theorem readAll_of_returned (crcByte : Nat → Nat → Nat) (c : Codec) (reg : Registry)
    (fs : FsEnv) (w : WAL) (d : Decoder) (v : ReadVars) (out : ReadOut)
    (hd : w.decoder = some d)
    (h : replayLoop crcByte (readAllStep c reg w.start) d.term d.frames d.crc
        ⟨none, ⟨0, 0, 0⟩, [], [], false, w.enti⟩ = LoopExit.returned v out) :
    (ReadAll crcByte c reg fs w).2 = out := by
  unfold ReadAll
  simp only [hd, h]

theorem readAll_of_clean (crcByte : Nat → Nat → Nat) (c : Codec) (reg : Registry)
    (fs : FsEnv) (w : WAL) (frames : List Record) (crc0 : Nat) (v : ReadVars) (crc : Nat)
    (hd : w.decoder = some ⟨frames, Error.EOF, crc0⟩)
    (h : replayLoop crcByte (readAllStep c reg w.start) Error.EOF frames crc0
        ⟨none, ⟨0, 0, 0⟩, [], [], false, w.enti⟩ = LoopExit.ended v crc Error.EOF)
    (hfs : w.tail = none ∨ (fs.fail FsOp.seekStart = none ∧ fs.fail FsOp.zeroToEnd = none ∧
      fs.fail FsOp.newFileEncoder = none)) :
    (ReadAll crcByte c reg fs w).2.metadata = v.metadata ∧
    (ReadAll crcByte c reg fs w).2.state = v.state ∧
    (ReadAll crcByte c reg fs w).2.ents = v.ents ∧
    (ReadAll crcByte c reg fs w).2.records = v.records := by
  unfold ReadAll
  cases ht : w.tail with
  | none =>
    simp only [hd, h]
    rw [if_neg (by simp), readAllFinish_readOnly fs w v crc ht]
    exact ⟨rfl, rfl, rfl, rfl⟩
  | some t =>
    rcases hfs with hfs | ⟨h1, h2, h3⟩
    · rw [ht] at hfs; cases hfs
    · simp only [hd, h]
      rw [if_neg (by simp)]
      simp only [h1, h2]
      rw [readAllFinish_write fs w v crc (by rw [ht]; simp) h3]
      exact ⟨rfl, rfl, rfl, rfl⟩

theorem replayLoop_single {σ ρ : Type} (crcByte : Nat → Nat → Nat)
    (body : σ → Nat → Record → Step σ ρ) (r : Record) (crc : Nat) (v : σ) (crc1 : Nat) (v1 : σ)
    (h : replayLoop crcByte body Error.EOF [r] crc v = LoopExit.ended v1 crc1 Error.EOF) :
    ∃ c1, decodeRecord crcByte crc r = Except.ok c1 ∧ body v c1 r = Step.next v1 crc1 := by
  simp only [replayLoop] at h
  cases hdm : decodeRecord crcByte crc r with
  | error e =>
    rw [hdm] at h
    have := decodeRecord_error crcByte crc r e hdm
    subst this
    simp at h
  | ok c1 =>
    rw [hdm] at h
    simp only at h
    cases hs : body v c1 r with
    | stop v2 out => rw [hs] at h; cases h
    | next v2 c2 =>
      rw [hs] at h
      simp only at h
      cases h
      exact ⟨c1, rfl, hs⟩

/-- C8, amended: let the decoder hold the frames `frames`.
(1) If the first metadata record carries a non-empty byte string `A`, a later metadata record
`mB` carries bytes different from `A`, and the frames before `mB` replay without ending
the loop (and `mB` is intact), then `ReadAll` fails with `ErrMetadataConflict` and returns
nil metadata, nil entries and the zero hard state.
(2) If the stream decodes cleanly, has a metadata record, every metadata record carries
`A` (empty or not) and the frames replay without ending the loop, then `ReadAll` returns
`A` as the metadata. -/
theorem C8_metadata_conflict (crcByte : Nat → Nat → Nat) (c : Codec) (reg : Registry)
    (fs : FsEnv) (w : WAL) (frames : List Record) (term : Error) (crc0 : Nat)
    (hd : w.decoder = some ⟨frames, term, crc0⟩) :
    (∀ (A : List Nat) (p0 p1 post : List Record) (mA mB : Record) (v1 : ReadVars) (crc1 : Nat),
        frames = p0 ++ mA :: p1 ++ mB :: post →
        (∀ r ∈ p0, r.type ≠ metadataType) →
        mA.type = metadataType → mA.data = some A → A ≠ [] →
        mB.type = metadataType → bytesEqual (some A) mB.data = false →
        replayLoop crcByte (readAllStep c reg w.start) Error.EOF (p0 ++ mA :: p1) crc0
          ⟨none, ⟨0, 0, 0⟩, [], [], false, w.enti⟩ = LoopExit.ended v1 crc1 Error.EOF →
        mB.crc = crcUpdate crcByte crc1 mB.data →
        (ReadAll crcByte c reg fs w).2 =
          ⟨none, ⟨0, 0, 0⟩, [], v1.records, some Error.ErrMetadataConflict⟩) ∧
    (∀ (A : Bytes) (v : ReadVars) (crc : Nat),
        term = Error.EOF →
        (∃ r ∈ frames, r.type = metadataType) →
        (∀ r ∈ frames, r.type = metadataType → r.data = A) →
        replayLoop crcByte (readAllStep c reg w.start) Error.EOF frames crc0
          ⟨none, ⟨0, 0, 0⟩, [], [], false, w.enti⟩ = LoopExit.ended v crc Error.EOF →
        (w.tail = none ∨ (fs.fail FsOp.seekStart = none ∧ fs.fail FsOp.zeroToEnd = none ∧
          fs.fail FsOp.newFileEncoder = none)) →
        (ReadAll crcByte c reg fs w).2.metadata = A) := by
  refine ⟨?_, ?_⟩
  · intro A p0 p1 post mA mB v1 crc1 hfr hp0 hmA hAd hA hmB hB hrun hcrc
    -- the variable `metadata` is `some A` after the frames before `mB`
    have hrun' : replayLoop crcByte (readAllStep c reg w.start) Error.EOF
        (p0 ++ ([mA] ++ p1)) crc0 ⟨none, ⟨0, 0, 0⟩, [], [], false, w.enti⟩ =
        LoopExit.ended v1 crc1 Error.EOF := by simpa using hrun
    obtain ⟨va, ca, ha1, ha2⟩ := replayLoop_split crcByte _ _ p0 crc0 _ crc1 v1 hrun'
    have hva : va.metadata = none :=
      replayLoop_invariant crcByte (readAllStep c reg w.start) Error.EOF
        (fun v => v.metadata = none) (fun r => r.type ≠ metadataType)
        (fun v crc r v1 crc1 hq hp hs =>
          (readAllStep_metadata_other c reg w.start v v1 crc crc1 r hq hs).trans hp)
        p0 crc0 _ ca va Error.EOF hp0 rfl ha1
    obtain ⟨vb, cb, hb1, hb2⟩ := replayLoop_split crcByte _ _ [mA] ca va crc1 v1 ha2
    have hvb : vb.metadata = some A := by
      obtain ⟨c1, _, hs⟩ := replayLoop_single crcByte _ mA ca va cb vb hb1
      rw [(readAllStep_metadata c reg w.start va vb c1 cb mA hmA hs).1, hAd]
    have hv1 : v1.metadata = some A :=
      replayLoop_invariant crcByte (readAllStep c reg w.start) Error.EOF
        (fun v => v.metadata = some A) (fun _ => True)
        (fun v crc r v1 crc1 _ hp hs =>
          readAllStep_metadata_kept c reg w.start A hA v v1 crc crc1 r hp hs)
        p1 cb vb crc1 v1 Error.EOF (fun _ _ => trivial) hvb hb2
    -- the loop returns at `mB`
    have hloop : replayLoop crcByte (readAllStep c reg w.start) term frames crc0
        ⟨none, ⟨0, 0, 0⟩, [], [], false, w.enti⟩ =
        LoopExit.returned v1 ⟨none, ⟨0, 0, 0⟩, [], v1.records,
          some Error.ErrMetadataConflict⟩ := by
      rw [hfr, replayLoop_append crcByte _ term (mB :: post) (p0 ++ mA :: p1) crc0 _ crc1 v1 hrun]
      have d4 : ¬ (metadataType = crcType) := by decide
      have d1 : ¬ (metadataType = entryType) := by decide
      have d2 : ¬ (metadataType = stateType) := by decide
      simp only [replayLoop, decodeRecord, hmB, d4, if_false, hcrc, if_true, readAllStep, d1, d2,
        hv1, hB, HardState.reset]
      simp
    exact readAll_of_returned crcByte c reg fs w ⟨frames, term, crc0⟩ v1 _ hd hloop
  · intro A v crc hterm hex hall hrun hfs
    subst hterm
    obtain ⟨r0, hr0, hty⟩ := hex
    obtain ⟨xs, ys, hxy⟩ := List.append_of_mem hr0
    have hrun' : replayLoop crcByte (readAllStep c reg w.start) Error.EOF
        (xs ++ ([r0] ++ ys)) crc0 ⟨none, ⟨0, 0, 0⟩, [], [], false, w.enti⟩ =
        LoopExit.ended v crc Error.EOF := by
      rw [← hrun, hxy]; simp
    obtain ⟨va, ca, _, ha2⟩ := replayLoop_split crcByte _ _ xs crc0 _ crc v hrun'
    obtain ⟨vb, cb, hb1, hb2⟩ := replayLoop_split crcByte _ _ [r0] ca va crc v ha2
    have hvb : vb.metadata = A := by
      obtain ⟨c1, _, hs⟩ := replayLoop_single crcByte _ r0 ca va cb vb hb1
      rw [(readAllStep_metadata c reg w.start va vb c1 cb r0 hty hs).1]
      exact hall r0 hr0 hty
    have hv : v.metadata = A :=
      replayLoop_invariant crcByte (readAllStep c reg w.start) Error.EOF
        (fun v => v.metadata = A) (fun r => r.type = metadataType → r.data = A)
        (fun v crc r v1 crc1 hq hp hs => by
          by_cases ht : r.type = metadataType
          · exact ((readAllStep_metadata c reg w.start v v1 crc crc1 r ht hs).1).trans (hq ht)
          · exact (readAllStep_metadata_other c reg w.start v v1 crc crc1 r ht hs).trans hp)
        ys cb vb crc v Error.EOF
        (fun r hr => hall r (by rw [hxy]; simp [hr])) hvb hb2
    rw [(readAll_of_clean crcByte c reg fs w frames crc0 v crc hd hrun hfs).1, hv]


/-- C8 as stated fails for an empty `A`: after `Create` with nil metadata the first metadata
record carries nil; a later metadata record carrying "B" differs from it, yet `ReadAll`
(for writing and for reading) returns no error and gives "B" as the metadata, because the
comparison is guarded by `metadata != nil`. -/
theorem C8_nil_metadata_counterexample :
    conflictDir none (some [66]) =
      [⟨WalName.canonical 0 0,
        [⟨crcType, 0, none⟩, ⟨metadataType, 0, none⟩, ⟨snapshotType, 32, some [0, 0]⟩,
          ⟨metadataType, 1059, some [66]⟩], Error.EOF⟩] ∧
    bytesEqual none (some [66]) = false ∧
    openAndReadAll (conflictDir none (some [66])) ⟨0, 0⟩ true =
      some ⟨some [66], ⟨0, 0, 0⟩, [], [], none⟩ ∧
    openAndReadAll (conflictDir none (some [66])) ⟨0, 0⟩ false =
      some ⟨some [66], ⟨0, 0, 0⟩, [], [], none⟩ := by
  decide

/-- C8 at metadata "A" followed by metadata "B": `ReadAll` returns `ErrMetadataConflict`
with nil metadata, nil entries and the zero hard state. -/
theorem C8_metadata_conflict_witness :
    (ReadAll sampleCrcByte sampleCodec emptyRegistry FsEnv.quiet
        (openedWAL (conflictDir (some [65]) (some [66])) ⟨0, 0⟩ true)).2 =
      ⟨none, ⟨0, 0, 0⟩, [], [], some Error.ErrMetadataConflict⟩ :=
  (C8_metadata_conflict sampleCrcByte sampleCodec emptyRegistry FsEnv.quiet
      (openedWAL (conflictDir (some [65]) (some [66])) ⟨0, 0⟩ true)
      (newDecoder (conflictDir (some [65]) (some [66]))).frames Error.EOF 0 (by decide)).1
    [65] [⟨crcType, 0, none⟩] [⟨snapshotType, 63458, some [0, 0]⟩] []
    ⟨metadataType, 66, some [65]⟩ ⟨metadataType, 1967265, some [66]⟩
    ⟨some [65], ⟨0, 0, 0⟩, [], [], true, 0⟩ 63458
    (by decide) (by decide) (by decide) rfl (by decide) (by decide) (by decide) (by decide)
    (by decide)

/-! ### ValidSnapshotEntries -/

theorem take_set_succ {α : Type} (a : α) :
    ∀ (l : List α) (n : Nat), n < l.length → (l.set n a).take (n + 1) = l.take n ++ [a] := by
  intro l
  induction l with
  | nil => intro n h; simp at h
  | cons x xs ih =>
    intro n h
    cases n with
    | zero => simp
    | succ n =>
      simp only [List.set_cons_succ, List.take_succ_cons, List.cons_append]
      rw [ih n (by simpa using h)]

theorem drop_set_lt {α : Type} (a : α) :
    ∀ (l : List α) (n m : Nat), n < m → (l.set n a).drop m = l.drop m := by
  intro l
  induction l with
  | nil => intro n m _; simp
  | cons x xs ih =>
    intro n m h
    cases m with
    | zero => omega
    | succ m =>
      cases n with
      | zero => simp
      | succ n =>
        simp only [List.set_cons_succ, List.drop_succ_cons]
        exact ih n m (by omega)

theorem drop_eq_cons_of_get? {α : Type} :
    ∀ (l : List α) (i : Nat) (a : α), l.get? i = some a → l.drop i = a :: l.drop (i + 1) := by
  intro l
  induction l with
  | nil => intro i a h; simp at h
  | cons x xs ih =>
    intro i a h
    cases i with
    | zero => simp at h; simp [h]
    | succ i =>
      simp only [List.drop_succ_cons]
      exact ih i a (by simpa using h)

/-- The in-place loop leaves in `buf[:n]` the elements kept so far followed by the elements
of the unvisited part that are not newer than `committed`. -/
theorem filterLoop_spec (committed : Nat) :
    ∀ (k i : Nat) (buf : List Snapshot) (n : Nat), n ≤ i → i + k = buf.length →
      ((filterLoop committed k i buf n).1).take (filterLoop committed k i buf n).2 =
        buf.take n ++ (buf.drop i).filter (fun s => decide (s.index ≤ committed)) := by
  intro k
  induction k with
  | zero =>
    intro i buf n _ hik
    simp only [filterLoop]
    rw [List.drop_of_length_le (by omega)]
    simp
  | succ k ih =>
    intro i buf n hn hik
    have hi : i < buf.length := by omega
    have hg : buf.get? i = some (buf.get ⟨i, hi⟩) := List.get?_eq_get hi
    simp only [filterLoop, hg]
    rw [drop_eq_cons_of_get? buf i _ hg]
    by_cases hp : (buf.get ⟨i, hi⟩).index ≤ committed
    · simp only [hp, if_true]
      rw [ih (i + 1) (buf.set n (buf.get ⟨i, hi⟩)) (n + 1) (by omega)
        (by rw [List.length_set]; omega)]
      rw [take_set_succ _ buf n (by omega), drop_set_lt _ buf n (i + 1) (by omega)]
      rw [List.filter_cons_of_pos (by simpa using hp), List.append_assoc]
      rfl
    · simp only [hp, if_false]
      rw [ih (i + 1) buf n (by omega) (by omega)]
      rw [List.filter_cons_of_neg (by simpa using hp)]

theorem filterCommitted_eq (committed : Nat) (snaps : List Snapshot) :
    filterCommitted committed snaps = snaps.filter (fun s => decide (s.index ≤ committed)) := by
  unfold filterCommitted
  have := filterLoop_spec committed snaps.length 0 snaps 0 (Nat.le_refl 0) (by omega)
  simpa using this

/-- The hard state after the state records of `frames`, starting from `s`. -/
theorem lastState_committed (c : Codec) :
    ∀ (frames : List Record) (s : HardState),
      (frames.foldl (fun s r => if r.type = stateType then c.mustUnmarshalState r.data else s)
          s).committed =
        match (frames.filter (fun r => decide (r.type = stateType))).getLast? with
        | some r => (c.mustUnmarshalState r.data).committed
        | none => s.committed := by
  intro frames
  induction frames using List.reverseRecOn with
  | nil => intro s; rfl
  | append_singleton xs x ih =>
    intro s
    rw [List.foldl_append, List.filter_append]
    by_cases hx : x.type = stateType
    · simp [hx, List.filter_cons]
    · simp only [List.foldl_cons, List.foldl_nil, hx, if_false]
      rw [ih s]
      simp [List.filter_cons, hx]

theorem validSnapshotLoop_chain (crcByte : Nat → Nat → Nat) (c : Codec) (term : Error) :
    ∀ (frames : List Record) (crc : Nat) (v : SnapVars),
      chainValid crcByte crc frames = true →
      ∃ crc1, replayLoop crcByte (validSnapshotStep c) term frames crc v =
        LoopExit.ended
          ⟨v.snaps ++ snapshotMarkers c frames,
            frames.foldl
              (fun s r => if r.type = stateType then c.mustUnmarshalState r.data else s) v.state⟩
          crc1 term := by
  intro frames
  induction frames with
  | nil =>
    intro crc v _
    exact ⟨crc, by simp [replayLoop, snapshotMarkers]⟩
  | cons x xs ih =>
    intro crc v h
    simp only [chainValid] at h
    by_cases hc : x.type = crcType
    · have d2 : ¬ (crcType = stateType) := by decide
      have d5 : ¬ (crcType = snapshotType) := by decide
      simp only [hc, if_true, Bool.and_eq_true, Bool.or_eq_true, decide_eq_true_eq] at h
      obtain ⟨hok, hrest⟩ := h
      obtain ⟨crc1, hi⟩ := ih x.crc v hrest
      refine ⟨crc1, ?_⟩
      simp only [replayLoop, decodeRecord_crc crcByte crc x hc,
        validSnapshotStep_crc c v crc x hc]
      have : ¬ (crc ≠ 0 ∧ x.crc ≠ crc) := by
        rintro ⟨h1, h2⟩
        rcases hok with h | h
        · exact h1 h
        · exact h2 h
      simp only [this, if_false]
      rw [hi]
      simp [snapshotMarkers, List.filter_cons, hc, d2, d5]
    · simp only [hc, if_false, Bool.and_eq_true, decide_eq_true_eq] at h
      obtain ⟨hcrc, hrest⟩ := h
      have hdec : decodeRecord crcByte crc x = Except.ok (crcUpdate crcByte crc x.data) := by
        simp [decodeRecord, hc, hcrc]
      by_cases h5 : x.type = snapshotType
      · have d : ¬ (snapshotType = stateType) := by decide
        obtain ⟨crc1, hi⟩ := ih (crcUpdate crcByte crc x.data)
          ⟨v.snaps ++ [c.mustUnmarshalSnapshot x.data], v.state⟩ hrest
        refine ⟨crc1, ?_⟩
        simp only [replayLoop, hdec, validSnapshotStep, h5, if_true]
        rw [hi]
        simp [snapshotMarkers, List.filter_cons, h5, d]
      · by_cases h3 : x.type = stateType
        · obtain ⟨crc1, hi⟩ := ih (crcUpdate crcByte crc x.data)
            ⟨v.snaps, c.mustUnmarshalState x.data⟩ hrest
          refine ⟨crc1, ?_⟩
          have d : ¬ (stateType = snapshotType) := by decide
          simp only [replayLoop, hdec, validSnapshotStep, h3, d, if_true, if_false]
          rw [hi]
          simp [snapshotMarkers, List.filter_cons, h3, d]
        · obtain ⟨crc1, hi⟩ := ih (crcUpdate crcByte crc x.data) v hrest
          refine ⟨crc1, ?_⟩
          simp only [replayLoop, hdec, validSnapshotStep, h5, h3, hc, if_false]
          rw [hi]
          simp [snapshotMarkers, List.filter_cons, h5, h3]

theorem newDecoder_crc : ∀ (files : List LockedFile), (newDecoder files).crc = 0 := by
  intro files
  induction files with
  | nil => rfl
  | cons f rest ih =>
    simp only [newDecoder]
    split
    · exact ih
    · rfl

/-- C10: when the files of the directory decode to `EOF` or `ErrUnexpectedEOF` with a
valid CRC chain (and they can be opened), `ValidSnapshotEntries` returns, without error,
exactly the snapshot markers of the stream, in stream order and with duplicates, whose
index is at most the committed value of the last state record (0 without one). -/
theorem C10_valid_snapshot_entries (crcByte : Nat → Nat → Nat) (c : Codec) (fs : FsEnv)
    (dir names : List LockedFile)
    (hnames : readWALNames dir = Except.ok names)
    (hopen : fs.fail FsOp.openFile = none)
    (hterm : (newDecoder names).term = Error.EOF ∨
      (newDecoder names).term = Error.ErrUnexpectedEOF)
    (hchain : chainValid crcByte 0 (newDecoder names).frames = true) :
    ValidSnapshotEntries crcByte c fs dir =
      ((snapshotMarkers c (newDecoder names).frames).filter
          (fun s => decide (s.index ≤ lastCommitted c (newDecoder names).frames)), none) := by
  have hne : ¬ (names.length = 0) := by
    unfold readWALNames at hnames
    simp only at hnames
    split_ifs at hnames with h0
    cases hnames
    exact h0
  obtain ⟨crc1, hloop⟩ := validSnapshotLoop_chain crcByte c (newDecoder names).term
    (newDecoder names).frames 0 ⟨[], ⟨0, 0, 0⟩⟩ hchain
  unfold ValidSnapshotEntries
  simp only [hnames, openWALFiles, List.drop_zero, hne, if_false, hopen, Bool.false_eq_true,
    newDecoder_crc, hloop]
  have hnot : ¬ ((newDecoder names).term ≠ Error.EOF ∧
      (newDecoder names).term ≠ Error.ErrUnexpectedEOF) := by
    rintro ⟨h1, h2⟩
    rcases hterm with h | h
    · exact h1 h
    · exact h2 h
  simp only [hnot, if_false, List.nil_append, filterCommitted_eq]
  rw [lastState_committed c (newDecoder names).frames ⟨0, 0, 0⟩]
  rfl


/-- C10 on a directory with committed index 3 and snapshot markers 0, 2, 5, 2, 3 (in the
order written): the markers 0, 2, 2, 3 are returned. -/
theorem C10_valid_snapshot_entries_witness :
    ValidSnapshotEntries sampleCrcByte sampleCodec FsEnv.quiet markersDir =
      ([⟨0, 0⟩, ⟨2, 1⟩, ⟨2, 1⟩, ⟨3, 1⟩], none) :=
  (C10_valid_snapshot_entries sampleCrcByte sampleCodec FsEnv.quiet markersDir markersDir
    rfl rfl (by decide) (by decide)).trans (by decide)

/-! ### Appending -/

theorem andThen_ok {α : Type} (r : Res α) (k : α → Res α) (a : α)
    (h : r.andThen k = Res.ret a none) : ∃ b, r = Res.ret b none ∧ k b = Res.ret a none := by
  cases r with
  | panic => simp [Res.andThen] at h
  | ret b e =>
    cases e with
    | some e => simp [Res.andThen] at h
    | none => exact ⟨b, rfl, by simpa [Res.andThen] using h⟩

theorem fsCall_ok (fs : FsEnv) (op : FsOp) (w w1 : WAL)
    (h : fsCall fs op w = Res.ret w1 none) : w1 = w := by
  unfold fsCall at h
  injection h with h1 _
  exact h1.symm

theorem tailCall_ok (fs : FsEnv) (op : FsOp) (w w1 : WAL)
    (h : tailCall fs op w = Res.ret w1 none) : w1 = w := by
  unfold tailCall at h
  split at h
  · cases h
  · exact fsCall_ok fs op w w1 h

theorem tailCall_fs (fs : FsEnv) (op : FsOp) (w w1 : WAL)
    (h : tailCall fs op w = Res.ret w1 none) : fs.fail op = none ∧ ∃ f, w.tail = some f := by
  unfold tailCall at h
  cases ht : w.tail with
  | none => rw [ht] at h; cases h
  | some f =>
    rw [ht] at h
    simp only [fsCall] at h
    injection h with _ h2
    exact ⟨h2, f, rfl⟩

theorem locks_of_tail (w : WAL) (f : LockedFile) (h : w.tail = some f) :
    ∃ l, w.locks = l ++ [some f] := by
  unfold WAL.tail at h
  cases hg : w.locks.getLast? with
  | none => rw [hg] at h; cases h
  | some x =>
    rw [hg] at h
    simp only at h
    subst h
    exact ⟨w.locks.dropLast, (List.dropLast_append_getLast? _ hg).symm⟩

theorem appendTail_snoc (l : List (Option LockedFile)) (f : LockedFile) (rs : List Record) :
    appendTail (l ++ [some f]) rs = l ++ [some { f with recs := f.recs ++ rs }] := by
  unfold appendTail
  simp

theorem renameTail_snoc (l : List (Option LockedFile)) (f : LockedFile) (n : WalName) :
    renameTail (l ++ [some f]) n = l ++ [some { f with name := n }] := by
  unfold renameTail
  simp

theorem tail_snoc (w : WAL) (l : List (Option LockedFile)) (f : LockedFile)
    (hl : w.locks = l ++ [some f]) : w.tail = some f := by
  unfold WAL.tail
  rw [hl]
  simp

theorem wal_ext (a b : WAL) (h1 : a.metadata = b.metadata) (h2 : a.state = b.state)
    (h3 : a.start = b.start) (h4 : a.decoder = b.decoder) (h5 : a.readClose = b.readClose)
    (h6 : a.unsafeNoSync = b.unsafeNoSync) (h7 : a.enti = b.enti) (h8 : a.encoder = b.encoder)
    (h9 : a.locks = b.locks) : a = b := by
  cases a; cases b; simp_all

/-- The WAL after a flush, for a WAL with a tail and an encoder. -/
theorem flushed_snoc (w : WAL) (l : List (Option LockedFile)) (f : LockedFile) (enc : Encoder)
    (hl : w.locks = l ++ [some f]) (he : w.encoder = some enc) :
    w.flushed = { w with
      encoder := some ⟨enc.crc, []⟩,
      locks := l ++ [some { f with recs := f.recs ++ enc.buf }] } := by
  unfold WAL.flushed
  rw [he]
  simp only [hl, appendTail_snoc]

/-- A flush keeps the tail a file. -/
theorem tail_flushed (w : WAL) (t : LockedFile) (ht : w.tail = some t) :
    ∃ t1, w.flushed.tail = some t1 := by
  obtain ⟨l, hl⟩ := locks_of_tail w t ht
  cases he : w.encoder with
  | none =>
    refine ⟨t, ?_⟩
    unfold WAL.flushed
    rw [he]
    exact ht
  | some enc =>
    rw [flushed_snoc w l t enc hl he]
    exact ⟨_, tail_snoc _ l _ rfl⟩

/-- A flush with an empty buffer changes nothing. -/
theorem flushed_clean (w : WAL) (l : List (Option LockedFile)) (f : LockedFile) (enc : Encoder)
    (hl : w.locks = l ++ [some f]) (he : w.encoder = some enc) (hb : enc.buf = []) :
    w.flushed = w := by
  rw [flushed_snoc w l f enc hl he]
  obtain ⟨crc, buf⟩ := enc
  simp only at hb
  subst hb
  apply wal_ext <;> simp [he, hl]

/-- A successful `sync`: the buffer of the encoder is flushed unless `unsafeNoSync` is
set, in which case nothing happens. -/
theorem sync_ok (fs : FsEnv) (w w1 : WAL) (h : w.sync fs = Res.ret w1 none) :
    w1 = if w.unsafeNoSync = true then w else w.flushed := by
  unfold WAL.sync at h
  by_cases hn : w.unsafeNoSync = true
  · rw [if_pos hn] at h
    injection h with h1 _
    rw [if_pos hn]
    exact h1.symm
  · rw [if_neg hn] at h
    rw [if_neg hn]
    split at h
    · cases h
    · exact tailCall_ok fs _ _ w1 h

/-- What a successful `sync` needed from the operating system when it flushes. -/
theorem sync_fs (fs : FsEnv) (w w1 : WAL) (enc : Encoder) (hns : w.unsafeNoSync = false)
    (he : w.encoder = some enc) (h : w.sync fs = Res.ret w1 none) :
    fs.fail FsOp.flush = none ∧ fs.fail FsOp.fdatasync = none := by
  unfold WAL.sync at h
  rw [if_neg (by simp [hns])] at h
  simp only [he, Option.isSome_some, if_true] at h
  cases hf : fs.fail FsOp.flush with
  | some e => rw [hf] at h; cases h
  | none =>
    rw [hf] at h
    exact ⟨rfl, (tailCall_fs fs _ _ w1 h).1⟩

/-- A successful `w.encoder.encode(rec)`: the frame is at the end of the buffer and the
running CRC has taken in the payload; the files are as they were. -/
theorem encode_ok (crcByte : Nat → Nat → Nat) (fs : FsEnv) (w w1 : WAL) (rec : Record)
    (enc : Encoder) (he : w.encoder = some enc)
    (h : w.encode crcByte fs rec = Res.ret w1 none) :
    w1 = { w with
      encoder := some ⟨crcUpdate crcByte enc.crc rec.data,
        enc.buf ++ frameRecords crcByte enc.crc [rec]⟩ } := by
  unfold WAL.encode at h
  rw [he] at h
  simp only [Encoder.encode] at h
  cases hf : fs.fail FsOp.encode with
  | some e => rw [hf] at h; simp at h
  | none =>
    rw [hf] at h
    simp only at h
    cases h
    rfl

theorem newFileEncoder_ok (fs : FsEnv) (crc : Nat) (enc : Encoder)
    (h : newFileEncoder fs crc = Except.ok enc) : enc = ⟨crc, []⟩ := by
  unfold newFileEncoder at h
  split at h
  · cases h
  · cases h; rfl

theorem saveState_same (crcByte : Nat → Nat → Nat) (c : Codec) (fs : FsEnv) (w : WAL) :
    w.saveState crcByte c fs w.state = Res.ret w none := by
  unfold WAL.saveState
  rw [if_pos (Or.inr rfl)]

/-- The header written by a successful `cut`, given the new tail `f` and its fresh encoder:
the two header records reach the file when `sync` flushes; with `unsafeNoSync` set they are
still in the buffer when the encoder is replaced, and are lost. -/
theorem cutHeader_ok (crcByte : Nat → Nat → Nat) (c : Codec) (fs : FsEnv) (fpath : WalName)
    (prevCrc : Nat) (w w1 : WAL) (l : List (Option LockedFile)) (f : LockedFile)
    (hl : w.locks = l ++ [some f]) (he : w.encoder = some ⟨prevCrc, []⟩)
    (h : cutHeader crcByte c fs fpath prevCrc w = Res.ret w1 none) :
    w1 = { w with
      encoder := some ⟨crcUpdate crcByte prevCrc w.metadata, []⟩,
      locks := l ++ [some ⟨fpath,
        if w.unsafeNoSync = true then f.recs
        else f.recs ++ [⟨crcType, prevCrc, none⟩,
          ⟨metadataType, crcUpdate crcByte prevCrc w.metadata, w.metadata⟩], f.ending⟩] } := by
  unfold cutHeader at h
  obtain ⟨a1, h1, h⟩ := andThen_ok _ _ _ h
  have e1 := encode_ok crcByte fs w a1 _ ⟨prevCrc, []⟩ he h1
  subst e1
  obtain ⟨a2, h2, h⟩ := andThen_ok _ _ _ h
  have e2 := encode_ok crcByte fs _ a2 _ _ rfl h2
  subst e2
  obtain ⟨a3, h3, h⟩ := andThen_ok _ _ _ h
  rw [saveState_same] at h3
  injection h3 with h3 _
  subst h3
  obtain ⟨a4, h4, h⟩ := andThen_ok _ _ _ h
  have e4 := sync_ok fs _ a4 h4
  clear h1 h2 h4
  by_cases hns : w.unsafeNoSync = true
  · simp only [hns, if_true] at e4
    subst e4
    obtain ⟨a5, h5, h⟩ := andThen_ok _ _ _ h
    have e5 := tailCall_ok fs _ _ a5 h5
    subst e5
    obtain ⟨a6, h6, h⟩ := andThen_ok _ _ _ h
    have e6 := fsCall_ok fs _ _ a6 h6
    subst e6
    obtain ⟨a7, h7, h⟩ := andThen_ok _ _ _ h
    have e7 := fsCall_ok fs _ _ a7 h7
    subst e7
    obtain ⟨a8, h8, h⟩ := andThen_ok _ _ _ h
    have e8 := fsCall_ok fs _ _ a8 h8
    subst e8
    obtain ⟨a9, h9, h⟩ := andThen_ok _ _ _ h
    have e9 := fsCall_ok fs _ _ a9 h9
    subst e9
    simp only [hl, renameTail_snoc] at h
    cases hn : newFileEncoder fs (crcUpdate crcByte (crcUpdate crcByte prevCrc none) w.metadata) with
    | error e => rw [hn] at h; simp at h
    | ok enc1 =>
      rw [hn] at h
      have := newFileEncoder_ok fs _ enc1 hn
      subst this
      simp only at h
      injection h with h _
      rw [← h]
      apply wal_ext <;> simp [hns, crcUpdate]
  · simp only [hns, Bool.false_eq_true, if_false, WAL.flushed, hl, appendTail_snoc] at e4
    subst e4
    obtain ⟨a5, h5, h⟩ := andThen_ok _ _ _ h
    have e5 := tailCall_ok fs _ _ a5 h5
    subst e5
    obtain ⟨a6, h6, h⟩ := andThen_ok _ _ _ h
    have e6 := fsCall_ok fs _ _ a6 h6
    subst e6
    obtain ⟨a7, h7, h⟩ := andThen_ok _ _ _ h
    have e7 := fsCall_ok fs _ _ a7 h7
    subst e7
    obtain ⟨a8, h8, h⟩ := andThen_ok _ _ _ h
    have e8 := fsCall_ok fs _ _ a8 h8
    subst e8
    obtain ⟨a9, h9, h⟩ := andThen_ok _ _ _ h
    have e9 := fsCall_ok fs _ _ a9 h9
    subst e9
    simp only [renameTail_snoc] at h
    cases hn : newFileEncoder fs (crcUpdate crcByte (crcUpdate crcByte prevCrc none) w.metadata) with
    | error e => rw [hn] at h; simp at h
    | ok enc1 =>
      rw [hn] at h
      have := newFileEncoder_ok fs _ enc1 hn
      subst this
      simp only at h
      injection h with h _
      rw [← h]
      apply wal_ext <;> simp [hns, frameRecords, crcUpdate, metadataType, crcType]

theorem seq_snoc (w : WAL) (l : List (Option LockedFile)) (f : LockedFile)
    (hl : w.locks = l ++ [some f]) :
    w.seq = match parseWALName f.name with
      | Except.ok (seq, _) => some seq
      | Except.error _ => none := by
  unfold WAL.seq
  rw [tail_snoc w l f hl]

theorem tailCall_eq (fs : FsEnv) (op : FsOp) (w : WAL) (f : LockedFile)
    (ht : w.tail = some f) (hf : fs.fail op = none) : tailCall fs op w = Res.ret w none := by
  unfold tailCall
  rw [ht]
  simp only [fsCall, hf]

/-- What a successful `cut` leaves. The locks grow by one file named after the next
sequence number and `enti + 1`. Without `unsafeNoSync` the buffered frames are flushed to
the old tail and the new file holds the two header records; with `unsafeNoSync` nothing
is flushed: the old tail stays as it is, the new file holds no record, and the frames in
the buffers of the two replaced encoders are lost. -/
theorem cut_ok (crcByte : Nat → Nat → Nat) (c : Codec) (fs : FsEnv) (w w1 : WAL)
    (h : cut crcByte c fs w = Res.ret w1 none) :
    ∃ enc seq l f, w.encoder = some enc ∧ w.seq = some seq ∧ w.locks = l ++ [some f] ∧
      w1 = { w with
        encoder := some ⟨crcUpdate crcByte enc.crc w.metadata, []⟩,
        locks := l ++ [some { f with
            recs := if w.unsafeNoSync = true then f.recs else f.recs ++ enc.buf },
          some ⟨walName ((seq + 1) % u64) ((w.enti + 1) % u64),
            if w.unsafeNoSync = true then []
            else [⟨crcType, enc.crc, none⟩,
              ⟨metadataType, crcUpdate crcByte enc.crc w.metadata, w.metadata⟩],
            Error.EOF⟩] } := by
  unfold cut at h
  obtain ⟨a1, h1, k1⟩ := andThen_ok _ _ _ h
  obtain ⟨_, f, ht⟩ := tailCall_fs fs _ _ a1 h1
  obtain ⟨l, hl⟩ := locks_of_tail w f ht
  rw [tailCall_ok fs _ _ a1 h1] at k1
  obtain ⟨a2, h2, k2⟩ := andThen_ok _ _ _ k1
  rw [tailCall_ok fs _ _ a2 h2] at k2
  obtain ⟨a3, h3, k3⟩ := andThen_ok _ _ _ k2
  have e3 := sync_ok fs _ a3 h3
  clear h h1 k1 h2 k2 h3
  cases he : w.encoder with
  | none =>
    have hfl : w.flushed = w := by unfold WAL.flushed; rw [he]
    rw [hfl, ite_self] at e3
    subst e3
    simp only at k3
    cases hs : a3.seq with
    | none => rw [hs] at k3; simp at k3
    | some seq =>
      rw [hs] at k3
      simp only at k3
      cases hp : fs.fail FsOp.pipelineOpen with
      | some e => rw [hp] at k3; simp at k3
      | none =>
        rw [hp] at k3
        simp only [he] at k3
        cases k3
  | some enc =>
    by_cases hns : w.unsafeNoSync = true
    · rw [if_pos hns] at e3
      subst e3
      simp only at k3
      cases hs : a3.seq with
      | none => rw [hs] at k3; simp at k3
      | some seq =>
        rw [hs] at k3
        simp only at k3
        cases hp : fs.fail FsOp.pipelineOpen with
        | some e => rw [hp] at k3; simp at k3
        | none =>
          rw [hp] at k3
          simp only [he] at k3
          cases hn : newFileEncoder fs enc.crc with
          | error e => rw [hn] at k3; simp at k3
          | ok enc1 =>
            rw [hn] at k3
            have := newFileEncoder_ok fs _ enc1 hn
            subst this
            simp only at k3
            refine ⟨enc, seq, l, f, rfl, rfl, hl, ?_⟩
            have := cutHeader_ok crcByte c fs _ enc.crc _ w1 a3.locks
              ⟨WalName.other "tmp", [], Error.EOF⟩ rfl rfl k3
            rw [this]
            apply wal_ext <;> simp [hns, hl]
    · rw [if_neg hns, flushed_snoc w l f enc hl he] at e3
      subst e3
      simp only at k3
      have hseq := seq_snoc w l f hl
      rw [seq_snoc _ l { f with recs := f.recs ++ enc.buf } rfl] at k3
      simp only at k3
      rw [← hseq] at k3
      cases hs : w.seq with
      | none => rw [hs] at k3; simp at k3
      | some seq =>
        rw [hs] at k3
        simp only at k3
        cases hp : fs.fail FsOp.pipelineOpen with
        | some e => rw [hp] at k3; simp at k3
        | none =>
          rw [hp] at k3
          simp only at k3
          cases hn : newFileEncoder fs enc.crc with
          | error e => rw [hn] at k3; simp at k3
          | ok enc1 =>
            rw [hn] at k3
            have := newFileEncoder_ok fs _ enc1 hn
            subst this
            simp only at k3
            refine ⟨enc, seq, l, f, rfl, rfl, hl, ?_⟩
            have := cutHeader_ok crcByte c fs _ enc.crc _ w1
              (l ++ [some { f with recs := f.recs ++ enc.buf }])
              ⟨WalName.other "tmp", [], Error.EOF⟩ rfl rfl k3
            rw [this]
            apply wal_ext <;> simp [hns]

/-- A successful `cut` on a WAL that flushes and has nothing in its buffer: the locks grow
by one file named after the next sequence number and `enti + 1`, holding the two header
records. -/
theorem cut_ok_clean (crcByte : Nat → Nat → Nat) (c : Codec) (fs : FsEnv) (w w1 : WAL)
    (enc : Encoder) (hns : w.unsafeNoSync = false) (he : w.encoder = some enc)
    (hb : enc.buf = []) (h : cut crcByte c fs w = Res.ret w1 none) :
    ∃ seq, w.seq = some seq ∧
      w1 = { w with
        encoder := some ⟨crcUpdate crcByte enc.crc w.metadata, []⟩,
        locks := w.locks ++ [some ⟨walName ((seq + 1) % u64) ((w.enti + 1) % u64),
          [⟨crcType, enc.crc, none⟩,
            ⟨metadataType, crcUpdate crcByte enc.crc w.metadata, w.metadata⟩],
          Error.EOF⟩] } := by
  obtain ⟨enc1, seq, l, f, he1, hs, hl, hw⟩ := cut_ok crcByte c fs w w1 h
  rw [he] at he1
  injection he1 with he1
  subst he1
  refine ⟨seq, hs, ?_⟩
  rw [hw]
  apply wal_ext <;> simp [hns, hb, hl]

/-- On a WAL that flushes, a successful `cut` gives the same result when the buffer is
flushed beforehand. -/
theorem cut_flushed (crcByte : Nat → Nat → Nat) (c : Codec) (fs : FsEnv) (w w1 : WAL)
    (hns : w.unsafeNoSync = false) (h : cut crcByte c fs w = Res.ret w1 none) :
    cut crcByte c fs w.flushed = Res.ret w1 none := by
  cases he : w.encoder with
  | none =>
    have hfl : w.flushed = w := by unfold WAL.flushed; rw [he]
    rw [hfl]
    exact h
  | some enc =>
    unfold cut at h ⊢
    obtain ⟨a1, h1, k1⟩ := andThen_ok _ _ _ h
    obtain ⟨hf1, f, ht⟩ := tailCall_fs fs _ _ a1 h1
    obtain ⟨l, hl⟩ := locks_of_tail w f ht
    rw [tailCall_ok fs _ _ a1 h1] at k1
    obtain ⟨a2, h2, k2⟩ := andThen_ok _ _ _ k1
    obtain ⟨hf2, _⟩ := tailCall_fs fs _ _ a2 h2
    rw [tailCall_ok fs _ _ a2 h2] at k2
    obtain ⟨a3, h3, k3⟩ := andThen_ok _ _ _ k2
    obtain ⟨hf3, hf4⟩ := sync_fs fs w a3 enc hns he h3
    have e3 := sync_ok fs _ a3 h3
    rw [if_neg (by simp [hns])] at e3
    subst e3
    have hfl := flushed_snoc w l f enc hl he
    have htf : w.flushed.tail = some { f with recs := f.recs ++ enc.buf } := by
      rw [hfl]
      exact tail_snoc _ l _ rfl
    have hff : w.flushed.flushed = w.flushed := by
      rw [hfl]
      exact flushed_clean _ l _ ⟨enc.crc, []⟩ rfl rfl rfl
    have hsync : w.flushed.sync fs = Res.ret w.flushed none := by
      unfold WAL.sync
      have hns2 : w.flushed.unsafeNoSync = false := by rw [hfl]; exact hns
      have he2 : w.flushed.encoder.isSome = true := by rw [hfl]; rfl
      rw [if_neg (by simp [hns2])]
      simp only [he2, if_true, hf3, hff]
      exact tailCall_eq fs _ _ _ htf hf4
    rw [tailCall_eq fs _ _ _ htf hf1]
    simp only [Res.andThen]
    rw [tailCall_eq fs _ _ _ htf hf2]
    simp only [Res.andThen]
    rw [hsync]
    exact k3

theorem frameRecords_append (crcByte : Nat → Nat → Nat) :
    ∀ (xs ys : List Record) (crc : Nat),
      frameRecords crcByte crc (xs ++ ys) =
        frameRecords crcByte crc xs ++ frameRecords crcByte (crcAfter crcByte crc xs) ys := by
  intro xs
  induction xs with
  | nil => intro ys crc; rfl
  | cons x xs ih =>
    intro ys crc
    show _ :: frameRecords crcByte (crcUpdate crcByte crc x.data) (xs ++ ys) = _
    rw [ih ys]
    rfl

theorem crcAfter_append (crcByte : Nat → Nat → Nat) (xs ys : List Record) (crc : Nat) :
    crcAfter crcByte crc (xs ++ ys) = crcAfter crcByte (crcAfter crcByte crc xs) ys := by
  simp [crcAfter, List.foldl_append]

theorem lastIndex_cons (enti : Nat) (e : Entry) (rest : List Entry) :
    lastIndex enti (e :: rest) = lastIndex e.index rest := by
  cases rest with
  | nil => rfl
  | cons x xs =>
    have h : (x :: xs).getLast? = some ((x :: xs).getLast (by simp)) :=
      List.getLast?_eq_getLast _ _
    simp only [lastIndex, List.getLast?_cons_cons, h]

/-- The entries of a successful `Save` are in the buffer of the encoder, in order. -/
theorem saveEntries_ok (crcByte : Nat → Nat → Nat) (c : Codec) (fs : FsEnv) :
    ∀ (ents : List Entry) (w w1 : WAL) (enc : Encoder),
      w.encoder = some enc →
      saveEntries crcByte c fs w ents = Res.ret w1 none →
      w1 = { w with
        encoder := some ⟨crcAfter crcByte enc.crc (ents.map (entryRecord c)),
          enc.buf ++ frameRecords crcByte enc.crc (ents.map (entryRecord c))⟩,
        enti := lastIndex w.enti ents } := by
  intro ents
  induction ents with
  | nil =>
    intro w w1 enc he h
    simp only [saveEntries] at h
    injection h with h _
    subst h
    apply wal_ext <;> simp [he, crcAfter, frameRecords, lastIndex]
  | cons e rest ih =>
    intro w w1 enc he h
    simp only [saveEntries] at h
    obtain ⟨a1, h1, k1⟩ := andThen_ok _ _ _ h
    unfold WAL.saveEntry at h1
    obtain ⟨a0, h0, k0⟩ := andThen_ok _ _ _ h1
    have e0 := encode_ok crcByte fs w a0 _ enc he h0
    injection k0 with k0 _
    rw [e0] at k0
    rw [← k0] at k1
    have := ih _ w1 _ rfl k1
    rw [this]
    apply wal_ext <;>
      simp [lastIndex_cons, frameRecords, crcAfter, entryRecord]

theorem saveState_ok (crcByte : Nat → Nat → Nat) (c : Codec) (fs : FsEnv)
    (w w1 : WAL) (st : HardState) (enc : Encoder) (he : w.encoder = some enc)
    (h : w.saveState crcByte c fs st = Res.ret w1 none) :
    w1 = { w with
      state := if st.committed ≠ 0 ∧ st.committed ≠ w.state.committed then st else w.state,
      encoder := some ⟨crcAfter crcByte enc.crc
        (if st.committed ≠ 0 ∧ st.committed ≠ w.state.committed then [stateRecord c st]
          else []),
        enc.buf ++ frameRecords crcByte enc.crc
          (if st.committed ≠ 0 ∧ st.committed ≠ w.state.committed then [stateRecord c st]
            else [])⟩ } := by
  unfold WAL.saveState at h
  by_cases hc : st.committed = 0 ∨ st.committed = w.state.committed
  · rw [if_pos hc] at h
    injection h with h _
    subst h
    have hn : ¬ (st.committed ≠ 0 ∧ st.committed ≠ w.state.committed) := by
      rintro ⟨h1, h2⟩
      rcases hc with h | h
      · exact h1 h
      · exact h2 h
    apply wal_ext <;> simp [hn, he, crcAfter, frameRecords]
  · rw [if_neg hc] at h
    have hp : st.committed ≠ 0 ∧ st.committed ≠ w.state.committed := by
      constructor
      · intro h0; exact hc (Or.inl h0)
      · intro h0; exact hc (Or.inr h0)
    have := encode_ok crcByte fs { w with state := st } w1 _ enc he h
    rw [this]
    apply wal_ext <;> simp [hp, crcAfter, frameRecords, stateRecord]

/-- What a successful `Save` leaves before it ends, and how it ends. The records of the
call are in the buffer of the encoder; below the segment size `Save` ends with `sync`,
which flushes the buffer unless `unsafeNoSync` is set, otherwise it ends with `cut`. -/
theorem save_mid (crcByte : Nat → Nat → Nat) (c : Codec) (fs : FsEnv)
    (w w1 : WAL) (st : HardState) (ents : List Entry) (enc : Encoder)
    (he : w.encoder = some enc)
    (hne : ¬ (ents.length = 0 ∧ st.committed = 0))
    (h : Save crcByte c fs w st ents = Res.ret w1 none) :
    (fs.curOff < fs.segmentSizeBytes ∧
      w1 = (if w.unsafeNoSync = true then
        { w with
          state := if st.committed ≠ 0 ∧ st.committed ≠ w.state.committed then st else w.state,
          encoder := some ⟨crcAfter crcByte enc.crc (saveRecords c w.state.committed st ents),
            enc.buf ++ frameRecords crcByte enc.crc (saveRecords c w.state.committed st ents)⟩,
          enti := lastIndex w.enti ents }
        else WAL.flushed { w with
          state := if st.committed ≠ 0 ∧ st.committed ≠ w.state.committed then st else w.state,
          encoder := some ⟨crcAfter crcByte enc.crc (saveRecords c w.state.committed st ents),
            enc.buf ++ frameRecords crcByte enc.crc (saveRecords c w.state.committed st ents)⟩,
          enti := lastIndex w.enti ents })) ∨
    (¬ fs.curOff < fs.segmentSizeBytes ∧
      cut crcByte c fs { w with
        state := if st.committed ≠ 0 ∧ st.committed ≠ w.state.committed then st else w.state,
        encoder := some ⟨crcAfter crcByte enc.crc (saveRecords c w.state.committed st ents),
          enc.buf ++ frameRecords crcByte enc.crc (saveRecords c w.state.committed st ents)⟩,
        enti := lastIndex w.enti ents } = Res.ret w1 none) := by
  unfold Save at h
  rw [if_neg hne] at h
  obtain ⟨a1, h1, k1⟩ := andThen_ok _ _ _ h
  have e1 := saveEntries_ok crcByte c fs ents w a1 enc he h1
  obtain ⟨a2, h2, k2⟩ := andThen_ok _ _ _ k1
  rw [e1] at h2
  have e2 := saveState_ok crcByte c fs _ a2 st _ rfl h2
  obtain ⟨a3, h3, k3⟩ := andThen_ok _ _ _ k2
  have e3 := tailCall_ok fs _ _ a3 h3
  have hmid : a2 = { w with
      state := if st.committed ≠ 0 ∧ st.committed ≠ w.state.committed then st else w.state,
      encoder := some ⟨crcAfter crcByte enc.crc (saveRecords c w.state.committed st ents),
        enc.buf ++ frameRecords crcByte enc.crc (saveRecords c w.state.committed st ents)⟩,
      enti := lastIndex w.enti ents } := by
    rw [e2]
    apply wal_ext <;>
      simp [saveRecords, frameRecords_append, crcAfter_append, List.append_assoc]
  rw [e3, hmid] at k3
  by_cases hoff : fs.curOff < fs.segmentSizeBytes
  · left
    rw [if_pos hoff] at k3
    exact ⟨hoff, sync_ok fs _ w1 k3⟩
  · right
    rw [if_neg hoff] at k3
    exact ⟨hoff, k3⟩

/-- What a successful `Save` leaves before a possible `cut`, and how it ends, on a WAL
that flushes and has nothing in its buffer. -/
theorem save_ok (crcByte : Nat → Nat → Nat) (c : Codec) (fs : FsEnv)
    (w w1 : WAL) (st : HardState) (ents : List Entry) (l : List (Option LockedFile))
    (f : LockedFile) (enc : Encoder) (hl : w.locks = l ++ [some f]) (he : w.encoder = some enc)
    (hns : w.unsafeNoSync = false) (hb : enc.buf = [])
    (hne : ¬ (ents.length = 0 ∧ st.committed = 0))
    (h : Save crcByte c fs w st ents = Res.ret w1 none) :
    (fs.curOff < fs.segmentSizeBytes ∧
      w1 = { w with
        state := if st.committed ≠ 0 ∧ st.committed ≠ w.state.committed then st else w.state,
        encoder := some ⟨crcAfter crcByte enc.crc (saveRecords c w.state.committed st ents), []⟩,
        locks := l ++ [some { f with
          recs := f.recs ++
            frameRecords crcByte enc.crc (saveRecords c w.state.committed st ents) }],
        enti := lastIndex w.enti ents }) ∨
    (¬ fs.curOff < fs.segmentSizeBytes ∧
      cut crcByte c fs { w with
        state := if st.committed ≠ 0 ∧ st.committed ≠ w.state.committed then st else w.state,
        encoder := some ⟨crcAfter crcByte enc.crc (saveRecords c w.state.committed st ents), []⟩,
        locks := l ++ [some { f with
          recs := f.recs ++
            frameRecords crcByte enc.crc (saveRecords c w.state.committed st ents) }],
        enti := lastIndex w.enti ents } = Res.ret w1 none) := by
  have hfl : WAL.flushed { w with
      state := if st.committed ≠ 0 ∧ st.committed ≠ w.state.committed then st else w.state,
      encoder := some ⟨crcAfter crcByte enc.crc (saveRecords c w.state.committed st ents),
        enc.buf ++ frameRecords crcByte enc.crc (saveRecords c w.state.committed st ents)⟩,
      enti := lastIndex w.enti ents } =
      { w with
        state := if st.committed ≠ 0 ∧ st.committed ≠ w.state.committed then st else w.state,
        encoder := some ⟨crcAfter crcByte enc.crc (saveRecords c w.state.committed st ents), []⟩,
        locks := l ++ [some { f with
          recs := f.recs ++
            frameRecords crcByte enc.crc (saveRecords c w.state.committed st ents) }],
        enti := lastIndex w.enti ents } := by
    simp only [WAL.flushed, hl, appendTail_snoc, hb, List.nil_append]
  rcases save_mid crcByte c fs w w1 st ents enc he hne h with ⟨hoff, hw⟩ | ⟨hoff, hcut⟩
  · left
    rw [if_neg (by simp [hns]), hfl] at hw
    exact ⟨hoff, hw⟩
  · right
    have := cut_flushed crcByte c fs _ w1 (by exact hns) hcut
    rw [hfl] at this
    exact ⟨hoff, this⟩

/-- C5, what the code does: a successful `cut` writes no state record into the new tail,
whatever the cached hard state is, because `cut` passes the cached state itself to
`saveState`, which skips a state whose committed index equals the cached one. On a WAL
that flushes, the frames still in the buffer go to the old tail and the new tail holds
exactly the two header records `crc(prevCrc)` and `metadata(M)`, where `prevCrc` is the
running CRC of the previous encoder; with `unsafeNoSync` set nothing is flushed and the
new tail holds no record at all. -/
theorem C5_cut_header_lacks_state (crcByte : Nat → Nat → Nat) (c : Codec) (fs : FsEnv)
    (w w1 : WAL) (h : cut crcByte c fs w = Res.ret w1 none) :
    ∃ enc seq, w.encoder = some enc ∧ w.seq = some seq ∧ w1.state = w.state ∧
      w1.locks = (if w.unsafeNoSync = true then w.locks else appendTail w.locks enc.buf) ++
        [some ⟨walName ((seq + 1) % u64) ((w.enti + 1) % u64),
          if w.unsafeNoSync = true then []
          else [⟨crcType, enc.crc, none⟩,
            ⟨metadataType, crcUpdate crcByte enc.crc w.metadata, w.metadata⟩], Error.EOF⟩] ∧
      ∀ f, w1.tail = some f → ∀ r ∈ f.recs, r.type ≠ stateType := by
  obtain ⟨enc, seq, l, f, he, hs, hl, hw⟩ := cut_ok crcByte c fs w w1 h
  refine ⟨enc, seq, he, hs, ?_, ?_, ?_⟩
  · rw [hw]
  · rw [hw, hl, appendTail_snoc]
    by_cases hns : w.unsafeNoSync = true
    · simp [hns]
    · simp [hns]
  · intro g hg r hr
    rw [hw] at hg
    have hlk : l ++ [some { f with
          recs := if w.unsafeNoSync = true then f.recs else f.recs ++ enc.buf },
        some ⟨walName ((seq + 1) % u64) ((w.enti + 1) % u64),
          if w.unsafeNoSync = true then []
          else [⟨crcType, enc.crc, none⟩,
            ⟨metadataType, crcUpdate crcByte enc.crc w.metadata, w.metadata⟩], Error.EOF⟩] =
        (l ++ [some { f with
          recs := if w.unsafeNoSync = true then f.recs else f.recs ++ enc.buf }]) ++
        [some ⟨walName ((seq + 1) % u64) ((w.enti + 1) % u64),
          if w.unsafeNoSync = true then []
          else [⟨crcType, enc.crc, none⟩,
            ⟨metadataType, crcUpdate crcByte enc.crc w.metadata, w.metadata⟩], Error.EOF⟩] := by
      simp
    rw [tail_snoc _ _ _ hlk] at hg
    cases hg
    by_cases hns : w.unsafeNoSync = true
    · simp [hns] at hr
    · have hr2 : r = ⟨crcType, enc.crc, none⟩ ∨
          r = ⟨metadataType, crcUpdate crcByte enc.crc w.metadata, w.metadata⟩ := by
        simpa [hns] using hr
      rcases hr2 with h1 | h1
      · rw [h1]; exact (by decide : crcType ≠ stateType)
      · rw [h1]; exact (by decide : metadataType ≠ stateType)

/-- C5 at the failing input: the WAL with cached hard state `{term:1, vote:1, committed:3}`
written by `Save`, which flushes and has an empty buffer; after `cut` the new tail holds
the crc and the metadata record only. -/
theorem C5_cut_header_lacks_state_witness :
    savedWAL.state = ⟨1, 1, 3⟩ ∧ savedWAL.unsafeNoSync = false ∧
    savedWAL.encoder = some ⟨3033495152, []⟩ ∧
    cutSavedWAL.locks = savedWAL.locks ++
      [some ⟨WalName.canonical 1 4,
        [⟨crcType, 3033495152, none⟩, ⟨metadataType, 3844036574, some [77]⟩], Error.EOF⟩] ∧
    ∃ enc seq, savedWAL.encoder = some enc ∧ savedWAL.seq = some seq ∧
      cutSavedWAL.state = savedWAL.state ∧
      cutSavedWAL.locks =
        (if savedWAL.unsafeNoSync = true then savedWAL.locks
          else appendTail savedWAL.locks enc.buf) ++
        [some ⟨walName ((seq + 1) % u64) ((savedWAL.enti + 1) % u64),
          if savedWAL.unsafeNoSync = true then []
          else [⟨crcType, enc.crc, none⟩,
            ⟨metadataType, crcUpdate sampleCrcByte enc.crc savedWAL.metadata,
              savedWAL.metadata⟩],
          Error.EOF⟩] ∧
      ∀ f, cutSavedWAL.tail = some f → ∀ r ∈ f.recs, r.type ≠ stateType :=
  ⟨by decide, by decide, by decide, by decide,
   C5_cut_header_lacks_state sampleCrcByte sampleCodec FsEnv.quiet savedWAL cutSavedWAL
    (by decide)⟩

theorem frameRecords_payload (crcByte : Nat → Nat → Nat) :
    ∀ (rs : List Record) (crc : Nat),
      (frameRecords crcByte crc rs).map (fun r => (r.type, r.data)) =
        rs.map (fun r => (r.type, r.data)) := by
  intro rs
  induction rs with
  | nil => intro crc; rfl
  | cons r rs ih =>
    intro crc
    simp only [frameRecords, List.map_cons]
    rw [ih]

theorem streamOf_append : ∀ (a b : List LockedFile),
    streamOf (a ++ b) = streamOf a ++ streamOf b := by
  intro a
  induction a with
  | nil => intro b; rfl
  | cons f rest ih =>
    intro b
    show f.recs ++ streamOf (rest ++ b) = (f.recs ++ streamOf rest) ++ streamOf b
    rw [ih, List.append_assoc]

theorem streamOf_snoc (a : List LockedFile) (f : LockedFile) :
    streamOf (a ++ [f]) = streamOf a ++ f.recs := by
  rw [streamOf_append]
  simp [streamOf]

/-- C6, what the code does: on a WAL in append mode (a tail `f` and an encoder), a
successful `Save(st, ents)` hands to the encoder the entry records of `ents` in order,
followed by one state record carrying `st` if and only if `st.committed` is neither zero
nor the cached committed index; the cached hard state becomes `st` exactly in that case;
with no entries and `st.committed = 0` the WAL is unchanged. When `unsafeNoSync` is not
set (and the buffer was empty) these records are appended to the segment that was the
tail. When `unsafeNoSync` is set, `sync` returns before the encoder is flushed: no record
reaches any file; below the segment size the records stay in the buffer of the encoder,
and when `Save` ends with a `cut` the encoder is replaced and they are lost. -/
theorem C6_save_records (crcByte : Nat → Nat → Nat) (c : Codec) (fs : FsEnv)
    (w w1 : WAL) (st : HardState) (ents : List Entry) (l : List (Option LockedFile))
    (f : LockedFile) (enc : Encoder) (hl : w.locks = l ++ [some f]) (he : w.encoder = some enc)
    (h : Save crcByte c fs w st ents = Res.ret w1 none) :
    w1.state = (if st.committed ≠ 0 ∧ st.committed ≠ w.state.committed then st else w.state) ∧
    (ents = [] → st.committed = 0 → w1 = w) ∧
    (w.unsafeNoSync = false → enc.buf = [] →
      ∃ added, w1.locks.take w.locks.length = l ++ [some { f with recs := f.recs ++ added }] ∧
        added.map (fun r => (r.type, r.data)) =
          ents.map (fun e => (entryType, c.marshalEntry e)) ++
            (if st.committed ≠ 0 ∧ st.committed ≠ w.state.committed then
              [(stateType, c.marshalState st)] else [])) ∧
    (w.unsafeNoSync = true →
      streamOf (w1.locks.filterMap id) = streamOf (w.locks.filterMap id) ∧
      (¬ (ents.length = 0 ∧ st.committed = 0) → fs.curOff < fs.segmentSizeBytes →
        ∃ added, w1.encoder = some ⟨crcAfter crcByte enc.crc
            (saveRecords c w.state.committed st ents), enc.buf ++ added⟩ ∧
          added.map (fun r => (r.type, r.data)) =
            ents.map (fun e => (entryType, c.marshalEntry e)) ++
              (if st.committed ≠ 0 ∧ st.committed ≠ w.state.committed then
                [(stateType, c.marshalState st)] else [])) ∧
      (¬ (ents.length = 0 ∧ st.committed = 0) → ¬ fs.curOff < fs.segmentSizeBytes →
        ∃ crc, w1.encoder = some ⟨crc, []⟩)) := by
  have hpay : (frameRecords crcByte enc.crc (saveRecords c w.state.committed st ents)).map
      (fun r => (r.type, r.data)) =
      ents.map (fun e => (entryType, c.marshalEntry e)) ++
        (if st.committed ≠ 0 ∧ st.committed ≠ w.state.committed then
          [(stateType, c.marshalState st)] else []) := by
    rw [frameRecords_payload]
    unfold saveRecords
    split_ifs <;> simp [entryRecord, stateRecord, Function.comp_def]
  by_cases hne : ents.length = 0 ∧ st.committed = 0
  · have hw : w1 = w := by
      unfold Save at h
      rw [if_pos hne] at h
      injection h with h _
      exact h.symm
    obtain ⟨h0, h1⟩ := hne
    have he0 : ents = [] := List.length_eq_zero.mp h0
    subst hw
    refine ⟨by simp [h1], fun _ _ => rfl, fun _ _ => ⟨[], ?_, ?_⟩,
      fun _ => ⟨rfl, fun hn => absurd ⟨h0, h1⟩ hn, fun hn => absurd ⟨h0, h1⟩ hn⟩⟩
    · rw [List.take_length, hl]; simp
    · simp [he0, h1]
  · have hlen : w.locks.length = l.length + 1 := by rw [hl]; simp
    have hempty : ents = [] → st.committed = 0 → w1 = w := by
      intro h1 h2
      exact absurd ⟨by rw [h1]; rfl, h2⟩ hne
    refine ⟨?_, hempty, ?_, ?_⟩
    · rcases save_mid crcByte c fs w w1 st ents enc he hne h with ⟨_, hw⟩ | ⟨_, hcut⟩
      · rw [hw]
        by_cases hns : w.unsafeNoSync = true
        · rw [if_pos hns]
        · rw [if_neg hns]
          simp only [WAL.flushed]
      · obtain ⟨_, _, _, _, _, _, _, hw⟩ := cut_ok crcByte c fs _ w1 hcut
        rw [hw]
    · intro hns hb
      rcases save_ok crcByte c fs w w1 st ents l f enc hl he hns hb hne h with
        ⟨_, hw⟩ | ⟨_, hcut⟩
      · refine ⟨_, ?_, hpay⟩
        rw [hw, hlen]
        show (l ++ [_]).take (l.length + 1) = _
        rw [List.take_of_length_le (by simp)]
      · obtain ⟨seq, _, hw⟩ := cut_ok_clean crcByte c fs _ w1 _ (by exact hns) rfl rfl hcut
        refine ⟨_, ?_, hpay⟩
        rw [hw, hlen]
        show ((l ++ [_]) ++ [_]).take (l.length + 1) = _
        rw [List.take_append_of_le_length (by simp), List.take_of_length_le (by simp)]
    · intro hns
      rcases save_mid crcByte c fs w w1 st ents enc he hne h with ⟨hoff, hw⟩ | ⟨hoff, hcut⟩
      · rw [if_pos hns] at hw
        refine ⟨by rw [hw], fun _ _ => ⟨_, by rw [hw], hpay⟩, fun _ hn => absurd hoff hn⟩
      · obtain ⟨enc1, seq, l1, f1, he1, _, hl1, hw⟩ := cut_ok crcByte c fs _ w1 hcut
        have hl2 : l1 ++ [some f1] = l ++ [some f] := by rw [← hl1]; exact hl
        have hns1 : ({ w with
            state := if st.committed ≠ 0 ∧ st.committed ≠ w.state.committed then st
              else w.state,
            encoder := some ⟨crcAfter crcByte enc.crc (saveRecords c w.state.committed st ents),
              enc.buf ++ frameRecords crcByte enc.crc
                (saveRecords c w.state.committed st ents)⟩,
            enti := lastIndex w.enti ents } : WAL).unsafeNoSync = true := hns
        refine ⟨?_, fun _ hn => absurd hn hoff, fun _ _ => ⟨_, by rw [hw]⟩⟩
        rw [hw]
        simp only [hns, if_true]
        have hf1 : ({ f1 with recs := f1.recs } : LockedFile) = f1 := rfl
        rw [hf1, hl]
        have : l1 ++ [some f1, some ⟨walName ((seq + 1) % u64)
            ((lastIndex w.enti ents + 1) % u64), [], Error.EOF⟩] =
            (l1 ++ [some f1]) ++ [some ⟨walName ((seq + 1) % u64)
              ((lastIndex w.enti ents + 1) % u64), [], Error.EOF⟩] := by simp
        rw [this, hl2, List.filterMap_append, streamOf_append]
        simp [streamOf]

/-- C6 at the failing input, `Save(HardState{term:1, vote:1, committed:3}, entries 1,2,3)`
on the WAL just created and set to `unsafeNoSync`: below the segment size the call
succeeds, the files hold what they held before and the four records are in the buffer of
the encoder; when the call ends with a `cut`, the files hold no new record and the buffer
of the new encoder is empty. The same `Save` on the WAL just created, without
`unsafeNoSync`, appends the four records to the segment. -/
theorem C6_save_records_witness :
    Save sampleCrcByte sampleCodec FsEnv.quiet noSyncWAL ⟨1, 1, 3⟩
        [⟨1, 1, some [10]⟩, ⟨1, 2, some [20]⟩, ⟨1, 3, none⟩] =
      Res.ret (noSyncSavedWAL FsEnv.quiet) none ∧
    (noSyncSavedWAL FsEnv.quiet).locks = createdWAL.locks ∧
    (noSyncSavedWAL FsEnv.quiet).encoder = some ⟨3033495152,
      [⟨entryType, 535424631, some [1, 1, 1, 10]⟩, ⟨entryType, 600887115, some [1, 2, 1, 20]⟩,
        ⟨entryType, 3899322580, some [1, 3, 0]⟩, ⟨stateType, 3033495152, some [1, 1, 3]⟩]⟩ ∧
    streamOf ((noSyncSavedWAL FsEnv.quiet).locks.filterMap id) =
      streamOf (noSyncWAL.locks.filterMap id) ∧
    streamOf ((noSyncSavedWAL cutEnv).locks.filterMap id) =
      streamOf (noSyncWAL.locks.filterMap id) ∧
    (∃ crc, (noSyncSavedWAL cutEnv).encoder = some ⟨crc, []⟩) ∧
    (∃ added, savedWAL.locks.take createdWAL.locks.length =
        [] ++ [some { (⟨WalName.canonical 0 0,
            [⟨crcType, 0, none⟩, ⟨metadataType, 78, some [77]⟩,
              ⟨snapshotType, 74990, some [0, 0]⟩], Error.EOF⟩ : LockedFile) with
          recs := [⟨crcType, 0, none⟩, ⟨metadataType, 78, some [77]⟩,
              ⟨snapshotType, 74990, some [0, 0]⟩] ++ added }] ∧
      added.map (fun r => (r.type, r.data)) =
        [⟨1, 1, some [10]⟩, ⟨1, 2, some [20]⟩, ⟨1, 3, none⟩].map
            (fun e => (entryType, sampleCodec.marshalEntry e)) ++
          (if (3 : Nat) ≠ 0 ∧ 3 ≠ createdWAL.state.committed then
            [(stateType, sampleCodec.marshalState ⟨1, 1, 3⟩)] else [])) :=
  ⟨by decide, by decide, by decide,
   ((C6_save_records sampleCrcByte sampleCodec FsEnv.quiet noSyncWAL
      (noSyncSavedWAL FsEnv.quiet) ⟨1, 1, 3⟩
      [⟨1, 1, some [10]⟩, ⟨1, 2, some [20]⟩, ⟨1, 3, none⟩] []
      ⟨WalName.canonical 0 0, [⟨crcType, 0, none⟩, ⟨metadataType, 78, some [77]⟩,
        ⟨snapshotType, 74990, some [0, 0]⟩], Error.EOF⟩ ⟨74990, []⟩
      (by decide) (by decide) (by decide)).2.2.2 (by decide)).1,
   ((C6_save_records sampleCrcByte sampleCodec cutEnv noSyncWAL
      (noSyncSavedWAL cutEnv) ⟨1, 1, 3⟩
      [⟨1, 1, some [10]⟩, ⟨1, 2, some [20]⟩, ⟨1, 3, none⟩] []
      ⟨WalName.canonical 0 0, [⟨crcType, 0, none⟩, ⟨metadataType, 78, some [77]⟩,
        ⟨snapshotType, 74990, some [0, 0]⟩], Error.EOF⟩ ⟨74990, []⟩
      (by decide) (by decide) (by decide)).2.2.2 (by decide)).1,
   ((C6_save_records sampleCrcByte sampleCodec cutEnv noSyncWAL
      (noSyncSavedWAL cutEnv) ⟨1, 1, 3⟩
      [⟨1, 1, some [10]⟩, ⟨1, 2, some [20]⟩, ⟨1, 3, none⟩] []
      ⟨WalName.canonical 0 0, [⟨crcType, 0, none⟩, ⟨metadataType, 78, some [77]⟩,
        ⟨snapshotType, 74990, some [0, 0]⟩], Error.EOF⟩ ⟨74990, []⟩
      (by decide) (by decide) (by decide)).2.2.2 (by decide)).2.2 (by decide) (by decide),
   (C6_save_records sampleCrcByte sampleCodec FsEnv.quiet createdWAL savedWAL ⟨1, 1, 3⟩
      [⟨1, 1, some [10]⟩, ⟨1, 2, some [20]⟩, ⟨1, 3, none⟩] []
      ⟨WalName.canonical 0 0, [⟨crcType, 0, none⟩, ⟨metadataType, 78, some [77]⟩,
        ⟨snapshotType, 74990, some [0, 0]⟩], Error.EOF⟩ ⟨74990, []⟩
      (by decide) (by decide) (by decide)).2.2.1 (by decide) rfl⟩

/-! ### Round trip -/

/-- A successful `SaveSnapshot` on a WAL that flushes: what was in the buffer and the
snapshot record are in the tail. -/
theorem saveSnapshot_ok (crcByte : Nat → Nat → Nat) (c : Codec) (fs : FsEnv)
    (w w1 : WAL) (e : Snapshot) (l : List (Option LockedFile)) (f : LockedFile)
    (enc : Encoder) (hl : w.locks = l ++ [some f]) (he : w.encoder = some enc)
    (hns : w.unsafeNoSync = false)
    (h : SaveSnapshot crcByte c fs w e = Res.ret w1 none) :
    w1 = { w with
      encoder := some ⟨crcUpdate crcByte enc.crc (c.marshalSnapshot e), []⟩,
      locks := l ++ [some { f with recs := f.recs ++ (enc.buf ++
        [⟨snapshotType, crcUpdate crcByte enc.crc (c.marshalSnapshot e),
          c.marshalSnapshot e⟩]) }],
      enti := if w.enti < e.index then e.index else w.enti } := by
  unfold SaveSnapshot at h
  obtain ⟨a1, h1, k1⟩ := andThen_ok _ _ _ h
  have e1 := encode_ok crcByte fs w a1 _ enc he h1
  have e2 := sync_ok fs _ w1 k1
  rw [e2, e1]
  by_cases hlt : w.enti < e.index
  · simp only [hlt, if_true, hns, Bool.false_eq_true, if_false, WAL.flushed, hl,
      appendTail_snoc]
    apply wal_ext <;> simp [frameRecords, snapshotType, crcType]
  · simp only [hlt, if_false, hns, Bool.false_eq_true, WAL.flushed, hl, appendTail_snoc]
    apply wal_ext <;> simp [frameRecords, snapshotType, crcType]

/-- The WAL a successful `Create` returns. -/
theorem create_ok (crcByte : Nat → Nat → Nat) (c : Codec) (fs : FsEnv) (M : Bytes) (w0 : WAL)
    (h : Create crcByte c fs M = Res.ret (some w0) none) :
    w0 = (⟨M, ⟨0, 0, 0⟩, ⟨0, 0⟩, none, false, false, 0,
      some ⟨crcUpdate crcByte (crcUpdate crcByte 0 M) (c.marshalSnapshot ⟨0, 0⟩), []⟩,
      [some ⟨WalName.canonical 0 0,
        [⟨crcType, 0, none⟩, ⟨metadataType, crcUpdate crcByte 0 M, M⟩,
          ⟨snapshotType, crcUpdate crcByte (crcUpdate crcByte 0 M) (c.marshalSnapshot ⟨0, 0⟩),
            c.marshalSnapshot ⟨0, 0⟩⟩], Error.EOF⟩]⟩ : WAL) := by
  unfold Create at h
  by_cases hex : fs.dirExists = true
  · rw [if_pos hex] at h; cases h
  rw [if_neg hex] at h
  split at h
  · cases h
  · simp only at h
    split at h
    · cases h
    · cases h
    · rename_i w hw
      injection h with h _
      injection h with h
      subst h
      obtain ⟨a1, h1, k1⟩ := andThen_ok _ _ _ hw
      rw [fsCall_ok fs _ _ a1 h1] at k1
      obtain ⟨a2, h2, k2⟩ := andThen_ok _ _ _ k1
      rw [fsCall_ok fs _ _ a2 h2] at k2
      obtain ⟨a3, h3, k3⟩ := andThen_ok _ _ _ k2
      rw [fsCall_ok fs _ _ a3 h3] at k3
      obtain ⟨a4, h4, k4⟩ := andThen_ok _ _ _ k3
      rw [fsCall_ok fs _ _ a4 h4] at k4
      clear hw h1 k1 h2 k2 h3 k3 h4
      simp only at k4
      cases hn : newFileEncoder fs 0 with
      | error e => rw [hn] at k4; simp at k4
      | ok enc =>
        rw [hn] at k4
        have := newFileEncoder_ok fs _ enc hn
        subst this
        simp only [List.nil_append] at k4
        obtain ⟨b1, g1, j1⟩ := andThen_ok _ _ _ k4
        have e1 := encode_ok crcByte fs _ b1 _ ⟨0, []⟩ rfl g1
        rw [e1] at j1
        obtain ⟨b2, g2, j2⟩ := andThen_ok _ _ _ j1
        have e2 := encode_ok crcByte fs _ b2 _ _ rfl g2
        rw [e2] at j2
        obtain ⟨b3, g3, j3⟩ := andThen_ok _ _ _ j2
        have e3 := saveSnapshot_ok crcByte c fs _ b3 ⟨0, 0⟩ [] _ _ rfl rfl rfl g3
        rw [e3] at j3
        obtain ⟨b4, g4, j4⟩ := andThen_ok _ _ _ j3
        rw [fsCall_ok fs _ _ b4 g4] at j4
        obtain ⟨b5, g5, j5⟩ := andThen_ok _ _ _ j4
        rw [fsCall_ok fs _ _ b5 g5] at j5
        obtain ⟨b6, g6, j6⟩ := andThen_ok _ _ _ j5
        rw [fsCall_ok fs _ _ b6 g6] at j6
        obtain ⟨b7, g7, j7⟩ := andThen_ok _ _ _ j6
        rw [fsCall_ok fs _ _ b7 g7] at j7
        have e8 := fsCall_ok fs _ _ _ j7
        rw [e8]
        apply wal_ext <;>
          simp [frameRecords, crcUpdate, walName, metadataType, crcType, snapshotType]

theorem bytesEqual_self (a : Bytes) : bytesEqual a a = true := by
  simp [bytesEqual]

theorem decodeRecord_framed (crcByte : Nat → Nat → Nat) (crc : Nat) (t : Int) (d : Bytes)
    (ht : t ≠ crcType) :
    decodeRecord crcByte crc ⟨t, crcUpdate crcByte crc d, d⟩ =
      Except.ok (crcUpdate crcByte crc d) := by
  simp [decodeRecord, ht]

/-- Replaying the entry records that `Save` wrote for gap-free entries. -/
theorem replay_entries (crcByte : Nat → Nat → Nat) (c : Codec) (reg : Registry)
    (hc : c.faithful) (M : Bytes) (s : HardState) :
    ∀ (ents : List Entry) (lg : List Entry) (crc n : Nat), gapFree lg ents = true →
      ∃ n1, replayLoop crcByte (readAllStep c reg ⟨0, 0⟩) Error.EOF
          (frameRecords crcByte crc (ents.map (entryRecord c))) crc ⟨M, s, lg, [], true, n⟩ =
        LoopExit.ended ⟨M, s, ents.foldl overrideAppend lg, [], true, n1⟩
          (crcAfter crcByte crc (ents.map (entryRecord c))) Error.EOF := by
  intro ents
  induction ents with
  | nil =>
    intro lg crc n _
    exact ⟨n, rfl⟩
  | cons e rest ih =>
    intro lg crc n hg
    simp only [gapFree, Bool.and_eq_true, decide_eq_true_eq] at hg
    obtain ⟨⟨h1, h2⟩, h3⟩ := hg
    obtain ⟨n1, hi⟩ := ih (overrideAppend lg e) (crcUpdate crcByte crc (c.marshalEntry e))
      e.index h3
    refine ⟨n1, ?_⟩
    have d : ¬ (entryType = crcType) := by decide
    have hpos : e.index > 0 := by omega
    have hup : ¬ (e.index - 0 - 1 > lg.length) := by omega
    simp only [List.map_cons, frameRecords, entryRecord, d, if_false, replayLoop,
      decodeRecord_framed crcByte crc entryType _ d, readAllStep, if_true, hc.1 e, hpos, hup,
      List.foldl_cons, crcAfter]
    simpa [overrideAppend, entryRecord, crcAfter] using hi

/-- Replaying the state record that `Save` wrote. -/
theorem replay_state (crcByte : Nat → Nat → Nat) (c : Codec) (reg : Registry)
    (hc : c.faithful) (v : ReadVars) (st : HardState) (crc : Nat) :
    replayLoop crcByte (readAllStep c reg ⟨0, 0⟩) Error.EOF
        (frameRecords crcByte crc [stateRecord c st]) crc v =
      LoopExit.ended { v with state := st } (crcAfter crcByte crc [stateRecord c st])
        Error.EOF := by
  have d : ¬ (stateType = crcType) := by decide
  have d1 : ¬ (stateType = entryType) := by decide
  simp only [frameRecords, stateRecord, d, if_false, replayLoop,
    decodeRecord_framed crcByte crc stateType _ d, readAllStep, d1, if_true, hc.2.1 st,
    crcAfter, List.foldl_cons, List.foldl_nil]

/-- Replaying the records of one `Save`. -/
theorem replay_saveRecords (crcByte : Nat → Nat → Nat) (c : Codec) (reg : Registry)
    (hc : c.faithful) (M : Bytes) (s st : HardState) (ents lg : List Entry) (crc n : Nat)
    (hg : gapFree lg ents = true) :
    ∃ n1, replayLoop crcByte (readAllStep c reg ⟨0, 0⟩) Error.EOF
        (frameRecords crcByte crc (saveRecords c s.committed st ents)) crc
        ⟨M, s, lg, [], true, n⟩ =
      LoopExit.ended
        ⟨M, if st.committed ≠ 0 ∧ st.committed ≠ s.committed then st else s,
          ents.foldl overrideAppend lg, [], true, n1⟩
        (crcAfter crcByte crc (saveRecords c s.committed st ents)) Error.EOF := by
  obtain ⟨n1, h1⟩ := replay_entries crcByte c reg hc M s ents lg crc n hg
  refine ⟨n1, ?_⟩
  by_cases hcnd : st.committed ≠ 0 ∧ st.committed ≠ s.committed
  · have hs : saveRecords c s.committed st ents =
        ents.map (entryRecord c) ++ [stateRecord c st] := by
      unfold saveRecords; rw [if_pos hcnd]
    rw [hs, if_pos hcnd, frameRecords_append, crcAfter_append,
      replayLoop_append crcByte _ Error.EOF _ _ crc _ _ _ h1,
      replay_state crcByte c reg hc]
  · have hs : saveRecords c s.committed st ents = ents.map (entryRecord c) := by
      unfold saveRecords; rw [if_neg hcnd]; simp
    rw [hs, if_neg hcnd]
    exact h1

theorem replayLoop_cons_next {σ ρ : Type} (crcByte : Nat → Nat → Nat)
    (body : σ → Nat → Record → Step σ ρ) (term : Error) (r : Record) (rest : List Record)
    (crc c1 c2 : Nat) (v v1 : σ) (hd : decodeRecord crcByte crc r = Except.ok c1)
    (hb : body v c1 r = Step.next v1 c2) :
    replayLoop crcByte body term (r :: rest) crc v = replayLoop crcByte body term rest c2 v1 := by
  simp only [replayLoop, hd, hb]

/-- Replaying the header that `cut` wrote. -/
theorem replay_cutHeader (crcByte : Nat → Nat → Nat) (c : Codec) (reg : Registry)
    (M : Bytes) (s : HardState) (lg : List Entry) (crc n : Nat) :
    replayLoop crcByte (readAllStep c reg ⟨0, 0⟩) Error.EOF
        [⟨crcType, crc, none⟩, ⟨metadataType, crcUpdate crcByte crc M, M⟩] crc
        ⟨M, s, lg, [], true, n⟩ =
      LoopExit.ended ⟨M, s, lg, [], true, n⟩ (crcUpdate crcByte crc M) Error.EOF := by
  have d : ¬ (metadataType = crcType) := by decide
  have d1 : ¬ (metadataType = entryType) := by decide
  have d2 : ¬ (metadataType = stateType) := by decide
  have hcrc : readAllStep c reg ⟨0, 0⟩ ⟨M, s, lg, [], true, n⟩ crc ⟨crcType, crc, none⟩ =
      Step.next ⟨M, s, lg, [], true, n⟩ crc := by
    rw [readAllStep_crc c reg ⟨0, 0⟩ _ crc ⟨crcType, crc, none⟩ rfl]
    simp
  have hmd : readAllStep c reg ⟨0, 0⟩ ⟨M, s, lg, [], true, n⟩ (crcUpdate crcByte crc M)
      ⟨metadataType, crcUpdate crcByte crc M, M⟩ =
      Step.next ⟨M, s, lg, [], true, n⟩ (crcUpdate crcByte crc M) := by
    simp only [readAllStep, d1, d2, if_false, if_true, bytesEqual_self, not_true_eq_false,
      and_false]
  rw [replayLoop_cons_next crcByte _ Error.EOF _ _ crc crc crc _ _
      (decodeRecord_crc crcByte crc ⟨crcType, crc, none⟩ rfl) hcrc,
    replayLoop_cons_next crcByte _ Error.EOF _ _ crc _ _ _ _
      (decodeRecord_framed crcByte crc metadataType M d) hmd]
  rfl

theorem get?_snoc_cases {α : Type} (l : List α) (a x : α) (i : Nat)
    (h : (l ++ [a]).get? i = some x) :
    (i < l.length ∧ l.get? i = some x) ∨ (i = l.length ∧ x = a) := by
  by_cases hi : i < l.length
  · left
    refine ⟨hi, ?_⟩
    rw [← h]
    simp [List.getElem?_append_left hi]
  · right
    have hlt : i < (l ++ [a]).length := by
      by_contra hc
      rw [List.get?_eq_none.mpr (by omega)] at h
      cases h
    have hi2 : i = l.length := by
      simp at hlt
      omega
    subst hi2
    simp at h
    exact ⟨rfl, h.symm⟩

theorem get?_snoc_left {α : Type} (l : List α) (a : α) (i : Nat) (hi : i < l.length) :
    (l ++ [a]).get? i = l.get? i := by
  simp [List.getElem?_append_left hi]

theorem get?_snoc_last {α : Type} (l : List α) (a : α) :
    (l ++ [a]).get? l.length = some a := by
  simp

theorem segNames_snoc_recs (k : Nat) (files : List LockedFile) (last : LockedFile)
    (recs1 : List Record) (h : segNames k (files ++ [last])) :
    segNames k (files ++ [{ last with recs := recs1 }]) := by
  intro i f hf
  rcases get?_snoc_cases _ _ _ _ hf with ⟨hi, hg⟩ | ⟨hi, hx⟩
  · exact h i f (by rw [get?_snoc_left _ _ _ hi]; exact hg)
  · subst hi
    subst hx
    exact h files.length last (get?_snoc_last _ _)

theorem segNames_last (files : List LockedFile) (last : LockedFile)
    (h : segNames 0 (files ++ [last])) :
    ∃ idx, last.name = WalName.canonical files.length idx := by
  obtain ⟨idx, hn, _, _⟩ := h files.length last (get?_snoc_last _ _)
  exact ⟨idx, by simpa using hn⟩

theorem segNames_snoc_new (files : List LockedFile) (g : LockedFile) (idx : Nat)
    (h : segNames 0 files) (hg : g.name = WalName.canonical files.length idx)
    (hidx : 1 ≤ idx) (hne : 0 < files.length) : segNames 0 (files ++ [g]) := by
  intro i f hf
  rcases get?_snoc_cases _ _ _ _ hf with ⟨_, hg1⟩ | ⟨hi, hx⟩
  · exact h i f hg1
  · subst hi
    subst hx
    exact ⟨idx, by simpa using hg, by omega, fun _ => hidx⟩

theorem segNames_tail (k : Nat) (f : LockedFile) (rest : List LockedFile)
    (h : segNames k (f :: rest)) : segNames (k + 1) rest := by
  intro i g hg
  obtain ⟨idx, hn, h0, h1⟩ := h (i + 1) g (by simpa using hg)
  refine ⟨idx, ?_, ?_, ?_⟩
  · rw [hn]; congr 1; omega
  · intro hz; omega
  · intro _; exact h1 (by omega)

theorem lastIndex_bound (enti : Nat) (ents : List Entry) (b : Nat) (h0 : enti < b)
    (h : ∀ e ∈ ents, e.index < b) : lastIndex enti ents < b := by
  unfold lastIndex
  cases hg : ents.getLast? with
  | none => exact h0
  | some e => exact h e (List.mem_of_getLast?_eq_some hg)

theorem writerInv_mono (crcByte : Nat → Nat → Nat) (c : Codec) (reg : Registry) (M : Bytes)
    (es : List Entry) (k k1 : Nat) (w : WAL) (hk : k ≤ k1)
    (h : WriterInv crcByte c reg M es k w) : WriterInv crcByte c reg M es k1 w := by
  obtain ⟨hM, hen, hns, files, last, enc, n, hl, he, hbuf, hlen, hend, hnames, hrep⟩ := h
  exact ⟨hM, hen, hns, files, last, enc, n, hl, he, hbuf, by omega, hend, hnames, hrep⟩

theorem seq_of_inv (w : WAL) (files : List LockedFile) (last : LockedFile)
    (hl : w.locks = (files ++ [last]).map some) (h : segNames 0 (files ++ [last])) :
    w.seq = some files.length := by
  obtain ⟨idx, hn⟩ := segNames_last files last h
  unfold WAL.seq
  rw [tail_snoc w (files.map some) last (by rw [hl]; simp)]
  simp [parseWALName, hn]

/-- A successful `cut` keeps the invariant of the writer. -/
theorem cut_inv (crcByte : Nat → Nat → Nat) (c : Codec) (reg : Registry) (fs : FsEnv)
    (M : Bytes) (es : List Entry) (k : Nat) (w w1 : WAL) (hk : k + 2 < u64)
    (hinv : WriterInv crcByte c reg M es k w)
    (h : cut crcByte c fs w = Res.ret w1 none) : WriterInv crcByte c reg M es (k + 1) w1 := by
  obtain ⟨hM, hen, hns, files, last, enc, n, hl, he, hbuf, hlen, hend, hnames, hrep⟩ := hinv
  obtain ⟨seq, hs, hw⟩ := cut_ok_clean crcByte c fs w w1 enc hns he hbuf h
  rw [seq_of_inv w files last hl hnames] at hs
  injection hs with hs
  subst hs
  have hseq : (files.length + 1) % u64 = files.length + 1 := Nat.mod_eq_of_lt (by omega)
  have hidx : (w.enti + 1) % u64 = w.enti + 1 := Nat.mod_eq_of_lt hen
  rw [hw, hseq, hidx, hM]
  refine ⟨rfl, hen, hns, files ++ [last],
    (⟨walName (files.length + 1) (w.enti + 1),
      [⟨crcType, enc.crc, none⟩, ⟨metadataType, crcUpdate crcByte enc.crc M, M⟩], Error.EOF⟩ :
      LockedFile),
    (⟨crcUpdate crcByte enc.crc M, []⟩ : Encoder), n, ?_, rfl, rfl, ?_, ?_, ?_, ?_⟩
  · show w.locks ++ _ = _
    rw [hl]; simp
  · simp; omega
  · intro f hf
    rcases List.mem_append.mp hf with hf | hf
    · exact hend f hf
    · simp at hf; subst hf; rfl
  · exact segNames_snoc_new _ _ (w.enti + 1) hnames (by simp [walName]) (by omega) (by simp)
  · rw [streamOf_snoc, replayLoop_append crcByte _ Error.EOF _ _ 0 _ _ _ hrep]
    exact replay_cutHeader crcByte c reg M w.state (replayedLog es) enc.crc n

/-- A successful `Save` of gap-free entries keeps the invariant of the writer. -/
theorem save_inv (crcByte : Nat → Nat → Nat) (c : Codec) (reg : Registry) (hc : c.faithful)
    (fs : FsEnv) (M : Bytes) (es : List Entry) (k : Nat) (w w1 : WAL) (st : HardState)
    (ents : List Entry) (hk : k + 2 < u64)
    (hinv : WriterInv crcByte c reg M es k w)
    (hg : gapFree (replayedLog es) ents = true)
    (hb : ∀ e ∈ ents, e.index + 1 < u64)
    (h : Save crcByte c fs w st ents = Res.ret w1 none) :
    WriterInv crcByte c reg M (es ++ ents) (k + 1) w1 := by
  by_cases hne : ents.length = 0 ∧ st.committed = 0
  · have hw : w1 = w := by
      unfold Save at h
      rw [if_pos hne] at h
      injection h with h _
      exact h.symm
    have he0 : ents = [] := List.length_eq_zero.mp hne.1
    subst hw
    subst he0
    rw [List.append_nil]
    exact writerInv_mono crcByte c reg M es k (k + 1) w1 (by omega) hinv
  · obtain ⟨hM, hen, hns, files, last, enc, n, hl, he, hbuf, hlen, hend, hnames, hrep⟩ := hinv
    have hl1 : w.locks = files.map some ++ [some last] := by rw [hl]; simp
    obtain ⟨n1, hrs⟩ := replay_saveRecords crcByte c reg hc M w.state st ents (replayedLog es)
      enc.crc n hg
    have core : WriterInv crcByte c reg M (es ++ ents) k
        { w with
          state := if st.committed ≠ 0 ∧ st.committed ≠ w.state.committed then st
            else w.state,
          encoder := some ⟨crcAfter crcByte enc.crc (saveRecords c w.state.committed st ents),
            []⟩,
          locks := files.map some ++ [some { last with
            recs := last.recs ++
              frameRecords crcByte enc.crc (saveRecords c w.state.committed st ents) }],
          enti := lastIndex w.enti ents } := by
      refine ⟨hM, ?_, hns, files,
        { last with recs := last.recs ++
          frameRecords crcByte enc.crc (saveRecords c w.state.committed st ents) },
        (⟨crcAfter crcByte enc.crc (saveRecords c w.state.committed st ents), []⟩ : Encoder),
        n1, ?_, rfl, rfl, hlen, ?_, segNames_snoc_recs 0 files last _ hnames, ?_⟩
      · have := lastIndex_bound w.enti ents (u64 - 1) (by omega)
          (fun e he => by have := hb e he; omega)
        show lastIndex w.enti ents + 1 < u64
        omega
      · simp
      · intro f hf
        rcases List.mem_append.mp hf with hf | hf
        · exact hend f (List.mem_append_left _ hf)
        · simp at hf
          subst hf
          exact hend last (by simp)
      · rw [streamOf_snoc]
        show replayLoop crcByte _ Error.EOF (streamOf files ++ (last.recs ++ _)) 0 _ = _
        rw [← List.append_assoc, ← streamOf_snoc,
          replayLoop_append crcByte _ Error.EOF _ _ 0 _ _ _ hrep, hrs]
        simp [replayedLog, List.foldl_append]
    rcases save_ok crcByte c fs w w1 st ents _ last enc hl1 he hns hbuf hne h with
      ⟨_, hw⟩ | ⟨_, hcut⟩
    · rw [hw]
      exact writerInv_mono crcByte c reg M _ k (k + 1) _ (by omega) core
    · exact cut_inv crcByte c reg fs M _ k _ w1 hk core hcut

theorem u64_pos : 2 < u64 := by
  unfold u64
  norm_num

/-- The WAL that `Create` returns satisfies the invariant of the writer. -/
theorem create_inv (crcByte : Nat → Nat → Nat) (c : Codec) (reg : Registry) (hc : c.faithful)
    (fs : FsEnv) (M : Bytes) (w0 : WAL)
    (h : Create crcByte c fs M = Res.ret (some w0) none) :
    WriterInv crcByte c reg M [] 0 w0 := by
  rw [create_ok crcByte c fs M w0 h]
  have hu := u64_pos
  refine ⟨rfl, by show 0 + 1 < u64; omega, rfl, [], _, _, 0, rfl, rfl, rfl, Nat.le_refl 0,
    ?_, ?_, ?_⟩
  · intro f hf
    simp at hf
    subst hf
    rfl
  · intro i f hf
    cases i with
    | zero =>
      simp at hf
      subst hf
      exact ⟨0, rfl, fun _ => rfl, fun h0 => absurd h0 (by omega)⟩
    | succ i => simp at hf
  · have d5 : ¬ (snapshotType = crcType) := by decide
    have d1 : ¬ (metadataType = crcType) := by decide
    have hcrc : readAllStep c reg ⟨0, 0⟩ ⟨none, ⟨0, 0, 0⟩, [], [], false, 0⟩ 0
        ⟨crcType, 0, none⟩ = Step.next ⟨none, ⟨0, 0, 0⟩, [], [], false, 0⟩ 0 := by
      rw [readAllStep_crc c reg ⟨0, 0⟩ _ 0 ⟨crcType, 0, none⟩ rfl]
      simp
    have hmd : readAllStep c reg ⟨0, 0⟩ ⟨none, ⟨0, 0, 0⟩, [], [], false, 0⟩
        (crcUpdate crcByte 0 M) ⟨metadataType, crcUpdate crcByte 0 M, M⟩ =
        Step.next ⟨M, ⟨0, 0, 0⟩, [], [], false, 0⟩ (crcUpdate crcByte 0 M) := by
      have e1 : ¬ (metadataType = entryType) := by decide
      have e2 : ¬ (metadataType = stateType) := by decide
      simp only [readAllStep, e1, e2, if_false, if_true, ne_eq, not_true_eq_false, false_and]
    have hsn : readAllStep c reg ⟨0, 0⟩ ⟨M, ⟨0, 0, 0⟩, [], [], false, 0⟩
        (crcUpdate crcByte (crcUpdate crcByte 0 M) (c.marshalSnapshot ⟨0, 0⟩))
        ⟨snapshotType, crcUpdate crcByte (crcUpdate crcByte 0 M) (c.marshalSnapshot ⟨0, 0⟩),
          c.marshalSnapshot ⟨0, 0⟩⟩ =
        Step.next ⟨M, ⟨0, 0, 0⟩, [], [], true, 0⟩
          (crcUpdate crcByte (crcUpdate crcByte 0 M) (c.marshalSnapshot ⟨0, 0⟩)) := by
      have e1 : ¬ (snapshotType = entryType) := by decide
      have e2 : ¬ (snapshotType = stateType) := by decide
      have e3 : ¬ (snapshotType = metadataType) := by decide
      simp only [readAllStep, e1, e2, e3, d5, if_false, if_true, hc.2.2 ⟨0, 0⟩]
    show replayLoop crcByte _ Error.EOF _ 0 _ = _
    simp only [List.nil_append, streamOf, List.append_nil]
    rw [replayLoop_cons_next crcByte _ Error.EOF _ _ 0 0 0 _ _
        (decodeRecord_crc crcByte 0 ⟨crcType, 0, none⟩ rfl) hcrc,
      replayLoop_cons_next crcByte _ Error.EOF _ _ 0 _ _ _ _
        (decodeRecord_framed crcByte 0 metadataType M d1) hmd,
      replayLoop_cons_next crcByte _ Error.EOF _ _ _ _ _ _ _
        (decodeRecord_framed crcByte _ snapshotType _ d5) hsn]
    rfl

theorem gapFree_append : ∀ (a b lg : List Entry),
    gapFree lg (a ++ b) = (gapFree lg a && gapFree (a.foldl overrideAppend lg) b) := by
  intro a
  induction a with
  | nil => intro b lg; simp [gapFree]
  | cons e rest ih =>
    intro b lg
    show (decide (1 ≤ e.index) && decide (e.index ≤ lg.length + 1) &&
        gapFree (overrideAppend lg e) (rest ++ b)) = _
    rw [ih]
    simp only [gapFree, List.foldl_cons, Bool.and_assoc]

/-- A sequence of successful `Save` calls of gap-free entries keeps the invariant. -/
theorem saveAll_inv (crcByte : Nat → Nat → Nat) (c : Codec) (reg : Registry) (hc : c.faithful)
    (M : Bytes) :
    ∀ (saves : List (FsEnv × HardState × List Entry)) (es : List Entry) (k : Nat) (w w1 : WAL),
      k + saves.length + 2 < u64 →
      WriterInv crcByte c reg M es k w →
      gapFree (replayedLog es) (savedEntries saves) = true →
      (∀ e ∈ savedEntries saves, e.index + 1 < u64) →
      saveAll crcByte c w saves = Res.ret w1 none →
      WriterInv crcByte c reg M (es ++ savedEntries saves) (k + saves.length) w1 := by
  intro saves
  induction saves with
  | nil =>
    intro es k w w1 _ hinv _ _ h
    simp only [saveAll] at h
    injection h with h _
    subst h
    simpa [savedEntries] using hinv
  | cons s rest ih =>
    intro es k w w1 hk hinv hg hb h
    simp only [saveAll] at h
    obtain ⟨a, h1, k1⟩ := andThen_ok _ _ _ h
    simp only [savedEntries] at hg hb ⊢
    rw [gapFree_append, Bool.and_eq_true] at hg
    simp only [List.length_cons] at hk ⊢
    have hinv1 := save_inv crcByte c reg hc s.1 M es k w a s.2.1 s.2.2 (by omega) hinv hg.1
      (fun e he => hb e (List.mem_append_left _ he)) h1
    have hg2 : gapFree (replayedLog (es ++ s.2.2)) (savedEntries rest) = true := by
      have := hg.2
      simpa [replayedLog, List.foldl_append] using this
    have := ih (es ++ s.2.2) (k + 1) a w1 (by omega) hinv1 hg2
      (fun e he => hb e (List.mem_append_right _ he)) k1
    rw [List.append_assoc] at this
    have e : k + 1 + rest.length = k + (rest.length + 1) := by omega
    rw [e] at this
    exact this

theorem filterMap_id_map_some (l : List LockedFile) : (l.map some).filterMap id = l := by
  induction l with
  | nil => rfl
  | cons a l ih => simp [List.filterMap_cons, ih]

theorem segNames_canonical (k : Nat) (files : List LockedFile) (h : segNames k files) :
    ∀ f ∈ files, f.name.isCanonical = true := by
  intro f hf
  obtain ⟨i, hi⟩ := List.mem_iff_get?.mp hf
  obtain ⟨idx, hn, _, _⟩ := h i f hi
  rw [hn]
  rfl

theorem readWALNames_ok (dir : List LockedFile) (hne : dir ≠ [])
    (h : ∀ f ∈ dir, f.name.isCanonical = true) : readWALNames dir = Except.ok dir := by
  unfold readWALNames
  have hf : dir.filter (fun f => f.name.isCanonical) = dir :=
    List.filter_eq_self.mpr h
  simp only [hf]
  rw [if_neg]
  intro h0
  exact hne (List.length_eq_zero.mp h0)

theorem searchIndex_none : ∀ (files : List LockedFile) (k : Nat), 1 ≤ k →
    segNames k files → searchIndex files 0 = none := by
  intro files
  induction files with
  | nil => intro k _ _; rfl
  | cons f rest ih =>
    intro k hk h
    obtain ⟨idx, hn, _, h1⟩ := h 0 f rfl
    have hidx : 1 ≤ idx := h1 (by omega)
    simp only [searchIndex, ih (k + 1) (by omega) (segNames_tail k f rest h)]
    have : ¬ (firstIndex f ≤ 0) := by
      simp only [firstIndex, hn]
      omega
    rw [if_neg this]

theorem searchIndex_zero (f : LockedFile) (rest : List LockedFile)
    (h : segNames 0 (f :: rest)) : searchIndex (f :: rest) 0 = some 0 := by
  obtain ⟨idx, hn, h0, _⟩ := h 0 f rfl
  have hidx : idx = 0 := h0 rfl
  simp only [searchIndex, searchIndex_none rest 1 (Nat.le_refl 1) (segNames_tail 0 f rest h)]
  have : firstIndex f ≤ 0 := by
    simp only [firstIndex, hn, hidx]
    exact Nat.le_refl 0
  rw [if_pos this]

theorem isValidSeq_segNames : ∀ (files : List LockedFile) (k : Nat),
    segNames k files → isValidSeq files = true := by
  intro files
  induction files with
  | nil => intro k _; rfl
  | cons f rest ih =>
    intro k h
    cases rest with
    | nil => rfl
    | cons g rest2 =>
      obtain ⟨i0, hn0, _, _⟩ := h 0 f rfl
      obtain ⟨i1, hn1, _, _⟩ := h 1 g rfl
      simp only [isValidSeq, Bool.and_eq_true, decide_eq_true_eq]
      refine ⟨?_, ih (k + 1) (segNames_tail k f _ h)⟩
      simp only [seqOf, hn0, hn1]

theorem newDecoder_eof : ∀ (files : List LockedFile), (∀ f ∈ files, f.ending = Error.EOF) →
    newDecoder files = ⟨streamOf files, Error.EOF, 0⟩ := by
  intro files
  induction files with
  | nil => intro _; rfl
  | cons f rest ih =>
    intro h
    simp only [newDecoder, h f (List.mem_cons_self _ _), if_true, streamOf,
      ih (fun g hg => h g (List.mem_cons_of_mem _ hg))]

/-- `ReadAll` on a WAL opened for writing whose stream replays cleanly. -/
theorem readAll_write_clean (crcByte : Nat → Nat → Nat) (c : Codec) (reg : Registry)
    (fs : FsEnv) (w : WAL) (frames : List Record) (crc0 : Nat) (v : ReadVars) (crc : Nat)
    (hd : w.decoder = some ⟨frames, Error.EOF, crc0⟩)
    (h : replayLoop crcByte (readAllStep c reg w.start) Error.EOF frames crc0
        ⟨none, ⟨0, 0, 0⟩, [], [], false, w.enti⟩ = LoopExit.ended v crc Error.EOF)
    (ht : w.tail ≠ none) (h1 : fs.fail FsOp.seekStart = none)
    (h2 : fs.fail FsOp.zeroToEnd = none) (h3 : fs.fail FsOp.newFileEncoder = none) :
    (ReadAll crcByte c reg fs w).2 = ⟨v.metadata, v.state, v.ents, v.records, none⟩ := by
  unfold ReadAll
  cases hta : w.tail with
  | none => exact absurd hta ht
  | some t =>
    simp only [hd, h]
    rw [if_neg (by simp)]
    simp only [h1, h2]
    exact readAllFinish_write fs w v crc ht h3

/-- Opening the files of a writer at snapshot 0 and reading them gives back the metadata,
the cached hard state and the log. -/
theorem readAll_of_inv (crcByte : Nat → Nat → Nat) (c : Codec) (reg : Registry) (fsr : FsEnv)
    (M : Bytes) (es : List Entry) (k : Nat) (w : WAL)
    (hinv : WriterInv crcByte c reg M es k w)
    (h0 : fsr.fail FsOp.tryLockFile = none) (h1 : fsr.fail FsOp.openDir = none)
    (h2 : fsr.fail FsOp.seekStart = none) (h3 : fsr.fail FsOp.zeroToEnd = none)
    (h4 : fsr.fail FsOp.newFileEncoder = none) :
    ∃ r, Open fsr (w.locks.filterMap id) ⟨0, 0⟩ = Except.ok r ∧
      (ReadAll crcByte c reg fsr r).2 = ⟨M, w.state, replayedLog es, [], none⟩ := by
  obtain ⟨_, _, _, files, last, enc, n, hl, _, _, _, hend, hnames, hrep⟩ := hinv
  have hdir : w.locks.filterMap id = files ++ [last] := by
    rw [hl, filterMap_id_map_some]
  have hne : files ++ [last] ≠ [] := by simp
  obtain ⟨f0, rest, hfr⟩ : ∃ f0 rest, files ++ [last] = f0 :: rest := by
    cases hc : files ++ [last] with
    | nil => exact absurd hc hne
    | cons a b => exact ⟨a, b, rfl⟩
  have hsel : selectWALFiles (files ++ [last]) ⟨0, 0⟩ = Except.ok (files ++ [last], 0) := by
    unfold selectWALFiles
    rw [readWALNames_ok _ hne (segNames_canonical 0 _ hnames)]
    simp only
    have hs : searchIndex (files ++ [last]) 0 = some 0 := by
      rw [hfr]
      exact searchIndex_zero f0 rest (hfr ▸ hnames)
    rw [hs]
    simp only [List.drop_zero, isValidSeq_segNames _ 0 hnames, not_true_eq_false, if_false]
  have hopen : openWALFiles fsr (files ++ [last]) 0 true =
      Except.ok (files ++ [last], (files ++ [last]).map some) := by
    unfold openWALFiles
    simp only [List.drop_zero]
    rw [if_neg (by simp)]
    simp [h0]
  obtain ⟨idx, hlast⟩ := segNames_last files last hnames
  refine ⟨(⟨none, ⟨0, 0, 0⟩, ⟨0, 0⟩, some (newDecoder (files ++ [last])), false, false, 0,
    none, (files ++ [last]).map some⟩ : WAL), ?_, ?_⟩
  · unfold Open openAtIndex
    rw [hdir, hsel]
    simp only [hopen, if_true]
    rw [tail_snoc _ (files.map some) last (by simp)]
    simp only [parseWALName, hlast, h1]
  · have ht : (⟨none, ⟨0, 0, 0⟩, ⟨0, 0⟩, some (newDecoder (files ++ [last])), false, false, 0,
        none, (files ++ [last]).map some⟩ : WAL).tail ≠ none := by
      rw [tail_snoc _ (files.map some) last (by simp)]
      simp
    have := readAll_write_clean crcByte c reg fsr _ (streamOf (files ++ [last])) 0 _ enc.crc
      (by rw [newDecoder_eof _ hend]) hrep ht h2 h3 h4
    rw [this]

theorem replayedLog_snoc (xs : List Entry) (x : Entry) :
    replayedLog (xs ++ [x]) = overrideAppend (replayedLog xs) x := by
  simp [replayedLog, List.foldl_append]

/-- Entries written with the indices 1, 2, 3, ... replay to themselves. -/
theorem replayedLog_contiguous : ∀ (es : List Entry),
    (∀ i e, es.get? i = some e → e.index = i + 1) → replayedLog es = es := by
  intro es
  induction es using List.reverseRecOn with
  | nil => intro _; rfl
  | append_singleton xs x ih =>
    intro h
    have hx : x.index = xs.length + 1 := h xs.length x (get?_snoc_last xs x)
    have hxs : replayedLog xs = xs :=
      ih (fun i e hi => h i e (by
        have hlt : i < xs.length := by
          by_contra hc
          rw [List.get?_eq_none.mpr (by omega)] at hi
          cases hi
        rw [get?_snoc_left xs x i hlt]
        exact hi))
    rw [replayedLog_snoc, hxs]
    simp [overrideAppend, hx]

theorem sampleCodec_faithful : sampleCodec.faithful := by
  refine ⟨?_, ?_, ?_⟩
  · intro e
    obtain ⟨t, i, d⟩ := e
    cases d with
    | none => rfl
    | some d => rfl
  · intro s
    rfl
  · intro s
    rfl

/-- C4, amended: let a WAL be made by `Create(M)` and a sequence of successful `Save`
calls whose entries are written without a gap (every index is at least 1 and at most one
more than the length of the log at the time it is written; indices and the number of calls
stay below the 64 bit bound), and let the codec be faithful. Then `Open` at
`Snapshot{index:0}` succeeds on the files written and `ReadAll` returns, without error, the
metadata `M`, the cached hard state of the writer, and the log of the saved entries in
which a later write at an index replaces the earlier entry at that index and drops the
entries after it. When the entries carry the indices 1, 2, 3, ... that log is the
concatenation of the saved batches. -/
theorem C4_round_trip (crcByte : Nat → Nat → Nat) (c : Codec) (reg : Registry)
    (fs0 fsr : FsEnv) (M : Bytes) (saves : List (FsEnv × HardState × List Entry))
    (w0 w : WAL)
    (hc : c.faithful)
    (hcreate : Create crcByte c fs0 M = Res.ret (some w0) none)
    (hsaves : saveAll crcByte c w0 saves = Res.ret w none)
    (hgap : gapFree [] (savedEntries saves) = true)
    (hbound : ∀ e ∈ savedEntries saves, e.index + 1 < u64)
    (hcount : saves.length + 2 < u64)
    (hfs : fsr.fail FsOp.tryLockFile = none ∧ fsr.fail FsOp.openDir = none ∧
      fsr.fail FsOp.seekStart = none ∧ fsr.fail FsOp.zeroToEnd = none ∧
      fsr.fail FsOp.newFileEncoder = none) :
    (∃ r, Open fsr (w.locks.filterMap id) ⟨0, 0⟩ = Except.ok r ∧
      (ReadAll crcByte c reg fsr r).2 =
        ⟨M, w.state, replayedLog (savedEntries saves), [], none⟩) ∧
    ((∀ i e, (savedEntries saves).get? i = some e → e.index = i + 1) →
      replayedLog (savedEntries saves) = savedEntries saves) := by
  have hinv0 := create_inv crcByte c reg hc fs0 M w0 hcreate
  have hinv := saveAll_inv crcByte c reg hc M saves [] 0 w0 w (by omega) hinv0
    (by simpa [replayedLog] using hgap) hbound hsaves
  rw [List.nil_append] at hinv
  exact ⟨readAll_of_inv crcByte c reg fsr M _ _ w hinv hfs.1 hfs.2.1 hfs.2.2.1 hfs.2.2.2.1
    hfs.2.2.2.2, replayedLog_contiguous _⟩

/-- C4 as stated fails for a sequence of `Save` calls that leaves a gap: after `Create("M")`
and a successful `Save` of one entry with index 5 the files hold crc, metadata, snapshot and
the entry, but `ReadAll` after `Open` at index 0 returns `ErrSliceOutOfRange` with nil
metadata and nil entries instead of "M" and the entry. -/
theorem C4_gap_counterexample :
    gapDir.map (fun f => f.recs.map (fun r => (r.type, r.data))) =
      [[(crcType, none), (metadataType, some [77]),
        (snapshotType, sampleCodec.marshalSnapshot ⟨0, 0⟩),
        (entryType, sampleCodec.marshalEntry ⟨1, 5, none⟩)]] ∧
    openAndReadAll gapDir ⟨0, 0⟩ true =
      some ⟨none, ⟨0, 0, 0⟩, [], [], some Error.ErrSliceOutOfRange⟩ := by
  decide

/-- C4 at the scenario of the specification: `Save(HardState{term:1, vote:1, committed:3}, entries
1,2,3)` replays to metadata "M", committed index 3 and the entries 1,2,3 in order. -/
theorem C4_round_trip_witness :
    ((∃ r, Open FsEnv.quiet (savedWAL.locks.filterMap id) ⟨0, 0⟩ = Except.ok r ∧
      (ReadAll sampleCrcByte sampleCodec emptyRegistry FsEnv.quiet r).2 =
        ⟨some [77], savedWAL.state,
          replayedLog (savedEntries [(FsEnv.quiet, ⟨1, 1, 3⟩,
            [⟨1, 1, some [10]⟩, ⟨1, 2, some [20]⟩, ⟨1, 3, none⟩])]), [], none⟩) ∧
    ((∀ i e, (savedEntries [(FsEnv.quiet, (⟨1, 1, 3⟩ : HardState),
          ([⟨1, 1, some [10]⟩, ⟨1, 2, some [20]⟩, ⟨1, 3, none⟩] : List Entry))]).get? i = some e →
        e.index = i + 1) →
      replayedLog (savedEntries [(FsEnv.quiet, ⟨1, 1, 3⟩,
          [⟨1, 1, some [10]⟩, ⟨1, 2, some [20]⟩, ⟨1, 3, none⟩])]) =
        savedEntries [(FsEnv.quiet, ⟨1, 1, 3⟩,
          [⟨1, 1, some [10]⟩, ⟨1, 2, some [20]⟩, ⟨1, 3, none⟩])])) ∧
    savedWAL.state.committed = 3 ∧
    replayedLog (savedEntries [(FsEnv.quiet, ⟨1, 1, 3⟩,
        [⟨1, 1, some [10]⟩, ⟨1, 2, some [20]⟩, ⟨1, 3, none⟩])]) =
      [⟨1, 1, some [10]⟩, ⟨1, 2, some [20]⟩, ⟨1, 3, none⟩] :=
  ⟨C4_round_trip sampleCrcByte sampleCodec emptyRegistry FsEnv.quiet FsEnv.quiet (some [77])
      [(FsEnv.quiet, ⟨1, 1, 3⟩, [⟨1, 1, some [10]⟩, ⟨1, 2, some [20]⟩, ⟨1, 3, none⟩])]
      createdWAL savedWAL sampleCodec_faithful (by decide) (by decide) (by decide) (by decide)
      (by decide) (by decide),
   by decide, by decide⟩

/-! ### The replay step for entries -/

theorem readAllStep_entry (c : Codec) (reg : Registry) (start : Snapshot) (v : ReadVars)
    (crc : Nat) (rec : Record) (hty : rec.type = entryType) :
    readAllStep c reg start v crc rec =
      if (c.mustUnmarshalEntry rec.data).index > start.index then
        if (c.mustUnmarshalEntry rec.data).index - start.index - 1 > v.ents.length then
          Step.stop v ⟨none, v.state, [], v.records, some Error.ErrSliceOutOfRange⟩
        else
          Step.next { v with
            ents := v.ents.take ((c.mustUnmarshalEntry rec.data).index - start.index - 1) ++
              [c.mustUnmarshalEntry rec.data],
            enti := (c.mustUnmarshalEntry rec.data).index } crc
      else Step.next { v with enti := (c.mustUnmarshalEntry rec.data).index } crc := by
  simp only [readAllStep, hty, if_true]

theorem readAllStep_stop_ents (c : Codec) (reg : Registry) (start : Snapshot) (v v1 : ReadVars)
    (crc : Nat) (rec : Record) (out : ReadOut)
    (h : readAllStep c reg start v crc rec = Step.stop v1 out) : out.ents = [] := by
  simp only [readAllStep] at h
  split_ifs at h
  all_goals first
    | (cases h; rfl)
    | (split at h <;> first | (cases h; rfl) | cases h)

theorem replayLoop_returned_ents (crcByte : Nat → Nat → Nat) (c : Codec) (reg : Registry)
    (start : Snapshot) (term : Error) :
    ∀ (frames : List Record) (crc : Nat) (v v1 : ReadVars) (out : ReadOut),
      replayLoop crcByte (readAllStep c reg start) term frames crc v = LoopExit.returned v1 out →
      out.ents = [] := by
  intro frames
  induction frames with
  | nil => intro crc v v1 out h; simp only [replayLoop] at h; cases h
  | cons x xs ih =>
    intro crc v v1 out h
    simp only [replayLoop] at h
    cases hd : decodeRecord crcByte crc x with
    | error e => rw [hd] at h; cases h
    | ok c1 =>
      rw [hd] at h
      simp only at h
      cases hb : readAllStep c reg start v c1 x with
      | stop v2 o2 =>
        rw [hb] at h
        simp only at h
        cases h
        exact readAllStep_stop_ents c reg start v v1 c1 x out hb
      | next v2 c2 =>
        rw [hb] at h
        exact ih c2 v2 v1 out h

theorem anchored_nil (start : Nat) : anchored start [] := by
  intro i e h
  simp at h

theorem anchored_take_snoc (start : Nat) (ents : List Entry) (e : Entry)
    (h : anchored start ents) (hgt : e.index > start)
    (hle : e.index - start - 1 ≤ ents.length) :
    anchored start (ents.take (e.index - start - 1) ++ [e]) := by
  intro i x hx
  have hlen : (ents.take (e.index - start - 1)).length = e.index - start - 1 := by
    rw [List.length_take]; omega
  rcases get?_snoc_cases _ _ _ _ hx with ⟨hi, hg⟩ | ⟨hi, hxe⟩
  · rw [hlen] at hi
    rw [get?_take_of_lt _ _ _ hi] at hg
    exact h i x hg
  · rw [hlen] at hi
    subst hxe
    omega

theorem readAllStep_anchored (c : Codec) (reg : Registry) (start : Snapshot) (v v1 : ReadVars)
    (crc crc1 : Nat) (rec : Record) (hv : anchored start.index v.ents)
    (h : readAllStep c reg start v crc rec = Step.next v1 crc1) :
    anchored start.index v1.ents := by
  by_cases hty : rec.type = entryType
  · rw [readAllStep_entry c reg start v crc rec hty] at h
    split_ifs at h with h1 h2
    · cases h
      exact anchored_take_snoc start.index v.ents _ hv h1 (by omega)
    · cases h; exact hv
  · simp only [readAllStep, hty, if_false] at h
    split_ifs at h
    all_goals first
      | (cases h; exact hv)
      | (split at h <;> first | (cases h; exact hv) | cases h)

theorem readAllFinish_ents (fs : FsEnv) (w : WAL) (v : ReadVars) (crc : Nat) :
    (readAllFinish fs w v crc).2.ents = v.ents := by
  unfold readAllFinish
  simp only
  split
  · split <;> rfl
  · rfl

/-- C14: let the frames before the entry record `rec` replay to the variables `v`, and let
`rec` be intact, with `e` the entry it carries and `u = e.index - start.index - 1`.
If `e.index > start.index` and `u > len(ents)`, `ReadAll` fails with `ErrSliceOutOfRange`
(nil metadata, nil entries). If `e.index > start.index` and `u ≤ len(ents)`, the loop goes
on with the entry list `ents[:u] ++ [e]`, which has `u + 1` entries and agrees with `ents`
below position `u`: the entry replaces what was at its index and everything replayed
after that position is discarded. If `e.index ≤ start.index`, the loop goes on with the
entry list unchanged. In both cases `w.enti` becomes `e.index`. -/
theorem C14_entry_replay_step (crcByte : Nat → Nat → Nat) (c : Codec) (reg : Registry)
    (fs : FsEnv) (w : WAL) (term : Error) (crc0 : Nat) (pre post : List Record) (rec : Record)
    (v : ReadVars) (crc : Nat)
    (hty : rec.type = entryType)
    (hd : w.decoder = some ⟨pre ++ rec :: post, term, crc0⟩)
    (hpre : replayLoop crcByte (readAllStep c reg w.start) Error.EOF pre crc0
        ⟨none, ⟨0, 0, 0⟩, [], [], false, w.enti⟩ = LoopExit.ended v crc Error.EOF)
    (hcrc : rec.crc = crcUpdate crcByte crc rec.data) :
    (w.start.index < (c.mustUnmarshalEntry rec.data).index →
      (v.ents.length < (c.mustUnmarshalEntry rec.data).index - w.start.index - 1 →
        (ReadAll crcByte c reg fs w).2 =
          ⟨none, v.state, [], v.records, some Error.ErrSliceOutOfRange⟩) ∧
      ((c.mustUnmarshalEntry rec.data).index - w.start.index - 1 ≤ v.ents.length →
        replayLoop crcByte (readAllStep c reg w.start) term (pre ++ rec :: post) crc0
            ⟨none, ⟨0, 0, 0⟩, [], [], false, w.enti⟩ =
          replayLoop crcByte (readAllStep c reg w.start) term post
            (crcUpdate crcByte crc rec.data)
            { v with
              ents := v.ents.take ((c.mustUnmarshalEntry rec.data).index - w.start.index - 1) ++
                [c.mustUnmarshalEntry rec.data],
              enti := (c.mustUnmarshalEntry rec.data).index } ∧
        (v.ents.take ((c.mustUnmarshalEntry rec.data).index - w.start.index - 1) ++
            [c.mustUnmarshalEntry rec.data]).length =
          (c.mustUnmarshalEntry rec.data).index - w.start.index ∧
        ∀ i, i < (c.mustUnmarshalEntry rec.data).index - w.start.index - 1 →
          (v.ents.take ((c.mustUnmarshalEntry rec.data).index - w.start.index - 1) ++
            [c.mustUnmarshalEntry rec.data]).get? i = v.ents.get? i)) ∧
    ((c.mustUnmarshalEntry rec.data).index ≤ w.start.index →
      replayLoop crcByte (readAllStep c reg w.start) term (pre ++ rec :: post) crc0
          ⟨none, ⟨0, 0, 0⟩, [], [], false, w.enti⟩ =
        replayLoop crcByte (readAllStep c reg w.start) term post
          (crcUpdate crcByte crc rec.data)
          { v with enti := (c.mustUnmarshalEntry rec.data).index }) := by
  have d : ¬ (entryType = crcType) := by decide
  have hdec : decodeRecord crcByte crc rec = Except.ok (crcUpdate crcByte crc rec.data) := by
    simp [decodeRecord, hty, d, hcrc]
  have happ := replayLoop_append crcByte (readAllStep c reg w.start) term (rec :: post) pre crc0
    _ crc v hpre
  have hstep := readAllStep_entry c reg w.start v (crcUpdate crcByte crc rec.data) rec hty
  refine ⟨fun hgt => ⟨fun hgap => ?_, fun hle => ⟨?_, ?_, ?_⟩⟩, fun hle => ?_⟩
  · rw [if_pos hgt, if_pos hgap] at hstep
    have hloop : replayLoop crcByte (readAllStep c reg w.start) term (pre ++ rec :: post) crc0
        ⟨none, ⟨0, 0, 0⟩, [], [], false, w.enti⟩ =
        LoopExit.returned v ⟨none, v.state, [], v.records, some Error.ErrSliceOutOfRange⟩ := by
      rw [happ]
      simp only [replayLoop, hdec, hstep]
    exact readAll_of_returned crcByte c reg fs w ⟨pre ++ rec :: post, term, crc0⟩ v _ hd hloop
  · rw [if_pos hgt, if_neg (by omega)] at hstep
    rw [happ]
    exact replayLoop_cons_next crcByte _ term rec post crc _ _ v _ hdec hstep
  · rw [List.length_append, List.length_take]
    simp only [List.length_singleton]
    omega
  · intro i hi
    have hlen : (v.ents.take ((c.mustUnmarshalEntry rec.data).index - w.start.index - 1)).length =
        (c.mustUnmarshalEntry rec.data).index - w.start.index - 1 := by
      rw [List.length_take]; omega
    rw [get?_snoc_left _ _ i (by omega), get?_take_of_lt _ _ _ hi]
  · rw [if_neg (by omega)] at hstep
    rw [happ]
    exact replayLoop_cons_next crcByte _ term rec post crc _ _ v _ hdec hstep

/-- C15: whatever the record stream, the start snapshot and the error returned, the entry
list that `ReadAll` returns is gap-free and anchored at the start snapshot: the entry at
position `i` has the index `start.index + i + 1`. -/
theorem C15_entries_anchored (crcByte : Nat → Nat → Nat) (c : Codec) (reg : Registry)
    (fs : FsEnv) (w : WAL) :
    ∀ i e, (ReadAll crcByte c reg fs w).2.ents.get? i = some e →
      e.index = w.start.index + i + 1 := by
  have key : anchored w.start.index (ReadAll crcByte c reg fs w).2.ents := by
    unfold ReadAll
    cases hd : w.decoder with
    | none => exact anchored_nil _
    | some d =>
      simp only
      cases hl : replayLoop crcByte (readAllStep c reg w.start) d.term d.frames d.crc
          ⟨none, ⟨0, 0, 0⟩, [], [], false, w.enti⟩ with
      | returned v out =>
        simp only
        rw [replayLoop_returned_ents crcByte c reg w.start d.term d.frames d.crc _ v out hl]
        exact anchored_nil _
      | ended v crc err =>
        have hv : anchored w.start.index v.ents :=
          replayLoop_invariant crcByte (readAllStep c reg w.start) d.term
            (fun v => anchored w.start.index v.ents) (fun _ => True)
            (fun v crc r v1 crc1 _ hp hs =>
              readAllStep_anchored c reg w.start v v1 crc crc1 r hp hs)
            d.frames d.crc _ crc v err (fun _ _ => trivial) (anchored_nil _) hl
        simp only
        cases w.tail with
        | none =>
          simp only
          split_ifs
          · exact anchored_nil _
          · rw [readAllFinish_ents]; exact hv
        | some t =>
          simp only
          split_ifs
          · exact anchored_nil _
          · split
            · exact anchored_nil _
            · split
              · exact anchored_nil _
              · rw [readAllFinish_ents]; exact hv
  exact key

/-- C14 at two streams: after the entries 1, 2, 3 of term 1 an entry 2 of term 2 leaves the
list `[1 (term 1), 2 (term 2)]`; after no entry at all an entry 5 makes `ReadAll` fail with
`ErrSliceOutOfRange`. -/
theorem C14_entry_replay_step_witness :
    replayLoop sampleCrcByte (readAllStep sampleCodec emptyRegistry ⟨0, 0⟩) Error.EOF
        ((newDecoder rewindDir).frames.take 6 ++
          ⟨entryType, 4150689903, some [2, 2, 0]⟩ :: []) 0
        ⟨none, ⟨0, 0, 0⟩, [], [], false, 0⟩ =
      LoopExit.ended ⟨some [77], ⟨0, 0, 0⟩, [⟨1, 1, none⟩, ⟨2, 2, none⟩], [], true, 2⟩
        4150689903 Error.EOF ∧
    (ReadAll sampleCrcByte sampleCodec emptyRegistry FsEnv.quiet
        (openedWAL gapDir ⟨0, 0⟩ true)).2 =
      ⟨none, ⟨0, 0, 0⟩, [], [], some Error.ErrSliceOutOfRange⟩ :=
  ⟨((((C14_entry_replay_step sampleCrcByte sampleCodec emptyRegistry FsEnv.quiet
      (openedWAL rewindDir ⟨0, 0⟩ true) Error.EOF 0 ((newDecoder rewindDir).frames.take 6) []
      ⟨entryType, 4150689903, some [2, 2, 0]⟩
      ⟨some [77], ⟨0, 0, 0⟩, [⟨1, 1, none⟩, ⟨1, 2, none⟩, ⟨1, 3, none⟩], [], true, 3⟩
      303328754 rfl (by decide) (by decide) (by decide)).1 (by decide)).2 (by decide)).1).trans
      (by decide),
   ((C14_entry_replay_step sampleCrcByte sampleCodec emptyRegistry FsEnv.quiet
      (openedWAL gapDir ⟨0, 0⟩ true) Error.EOF 0 ((newDecoder gapDir).frames.take 3) []
      ⟨entryType, 2234029199, some [1, 5, 0]⟩
      ⟨some [77], ⟨0, 0, 0⟩, [], [], true, 0⟩
      74990 rfl (by decide) (by decide) (by decide)).1 (by decide)).1 (by decide)⟩

/-- C15 on the sample directory with the entries 1, 2, 3, opened at the snapshot of index 2:
`ReadAll` returns the entry 3 at position 0, and 3 = 2 + 0 + 1. -/
theorem C15_entries_anchored_witness :
    (ReadAll sampleCrcByte sampleCodec emptyRegistry FsEnv.quiet
        (openedWAL markersDir ⟨2, 1⟩ false)).2.ents.get? 0 = some ⟨1, 3, none⟩ ∧
    (⟨1, 3, none⟩ : Entry).index = (openedWAL markersDir ⟨2, 1⟩ false).start.index + 0 + 1 :=
  ⟨by decide,
    C15_entries_anchored sampleCrcByte sampleCodec emptyRegistry FsEnv.quiet
      (openedWAL markersDir ⟨2, 1⟩ false) 0 ⟨1, 3, none⟩ (by decide)⟩

/-! ### Verify -/

theorem verifyStep_metadata (c : Codec) (snap : Snapshot) (v : VerifyVars) (crc : Nat)
    (rec : Record) (hty : rec.type = metadataType) :
    verifyStep c snap v crc rec =
      if v.metadata ≠ none ∧ ¬ bytesEqual v.metadata rec.data then
        Step.stop v (some Error.ErrMetadataConflict)
      else Step.next { v with metadata := rec.data } crc := by
  simp only [verifyStep, hty, if_true]

theorem verifyStep_snapshot (c : Codec) (snap : Snapshot) (v : VerifyVars) (crc : Nat)
    (rec : Record) (hty : rec.type = snapshotType) :
    verifyStep c snap v crc rec =
      Step.next ⟨v.metadata, v.isMatch ||
        decide ((c.mustUnmarshalSnapshot rec.data).index = snap.index)⟩ crc := by
  have d1 : ¬ (snapshotType = metadataType) := by decide
  have d2 : ¬ (snapshotType = crcType) := by decide
  simp only [verifyStep, hty, d1, d2, if_false, if_true]
  by_cases h : (c.mustUnmarshalSnapshot rec.data).index = snap.index
  · simp [h]
  · simp [h]

theorem verifyStep_skip (c : Codec) (snap : Snapshot) (v : VerifyVars) (crc : Nat)
    (rec : Record) (hty : rec.type = entryType ∨ rec.type = stateType) :
    verifyStep c snap v crc rec = Step.next v crc := by
  rcases hty with h | h
  · have d1 : ¬ (entryType = metadataType) := by decide
    have d2 : ¬ (entryType = crcType) := by decide
    have d3 : ¬ (entryType = snapshotType) := by decide
    simp only [verifyStep, h, d1, d2, d3, if_false, if_true]
  · have d1 : ¬ (stateType = metadataType) := by decide
    have d2 : ¬ (stateType = crcType) := by decide
    have d3 : ¬ (stateType = snapshotType) := by decide
    have d4 : ¬ (stateType = entryType) := by decide
    simp only [verifyStep, h, d1, d2, d3, d4, if_false, if_true]

/-- `Verify` once the files are selected and opened: the loop over the decoder and what is
returned after it. -/
theorem verify_eq (crcByte : Nat → Nat → Nat) (c : Codec) (fs : FsEnv) (dir : List LockedFile)
    (snap : Snapshot) (names : List LockedFile) (nameIndex : Nat)
    (hsel : selectWALFiles dir snap = Except.ok (names, nameIndex))
    (hopen : fs.fail FsOp.openFile = none) :
    Verify crcByte c fs dir snap =
      match replayLoop crcByte (verifyStep c snap) (newDecoder (names.drop nameIndex)).term
          (newDecoder (names.drop nameIndex)).frames 0 ⟨none, false⟩ with
      | LoopExit.returned _ out => out
      | LoopExit.ended v _ err =>
        if err ≠ Error.EOF ∧ err ≠ Error.ErrUnexpectedEOF then some err
        else if ¬ v.isMatch then some Error.ErrSnapshotNotFound
        else none := by
  have ho : openWALFiles fs names nameIndex false =
      Except.ok (names.drop nameIndex, (names.drop nameIndex).map (fun _ => none)) := by
    unfold openWALFiles
    by_cases h0 : (names.drop nameIndex).length = 0
    · have : names.drop nameIndex = [] := List.length_eq_zero.mp h0
      simp [this]
    · rw [if_neg h0]
      simp only [Bool.false_eq_true, if_false, hopen]
  unfold Verify
  simp only [hsel, ho, newDecoder_crc]
  try rfl

theorem knownTypes_cons (x : Record) (xs : List Record) (h : knownTypes (x :: xs) = true) :
    (x.type = metadataType ∨ x.type = entryType ∨ x.type = stateType ∨ x.type = crcType ∨
      x.type = snapshotType) ∧ knownTypes xs = true := by
  simp only [knownTypes, List.all_cons, Bool.and_eq_true, decide_eq_true_eq] at h
  exact ⟨h.1, by simpa [knownTypes] using h.2⟩

theorem metaAgrees_of_consistent (frames : List Record) (h : metadataConsistent frames = true) :
    metaAgrees none frames := by
  refine ⟨fun _ _ _ => Or.inl rfl, ?_⟩
  intro r hr r1 hr1 ht ht1
  simp only [metadataConsistent, metadataRecords, List.all_eq_true, List.mem_filter,
    decide_eq_true_eq] at h
  exact h r ⟨hr, ht⟩ r1 ⟨hr1, ht1⟩

theorem metaAgrees_tail (m : Bytes) (x : Record) (xs : List Record)
    (h : metaAgrees m (x :: xs)) : metaAgrees m xs :=
  ⟨fun r hr => h.1 r (List.mem_cons_of_mem _ hr),
   fun r hr r1 hr1 => h.2 r (List.mem_cons_of_mem _ hr) r1 (List.mem_cons_of_mem _ hr1)⟩

theorem metaAgrees_step (m : Bytes) (x : Record) (xs : List Record)
    (h : metaAgrees m (x :: xs)) (hx : x.type = metadataType) : metaAgrees x.data xs :=
  ⟨fun r hr ht => Or.inr (h.2 x (List.mem_cons_self _ _) r (List.mem_cons_of_mem _ hr) hx ht),
   fun r hr r1 hr1 => h.2 r (List.mem_cons_of_mem _ hr) r1 (List.mem_cons_of_mem _ hr1)⟩

/-- The loop of `Verify` over a stream of known record types with consistent metadata: with
a valid CRC chain it reaches the end and has seen the snapshot exactly if the stream holds
it; with a broken chain it leaves with `ErrCRCMismatch`. -/
theorem verifyLoop_chain (crcByte : Nat → Nat → Nat) (c : Codec) (snap : Snapshot)
    (term : Error) :
    ∀ (frames : List Record) (crc : Nat) (v : VerifyVars),
      knownTypes frames = true → metaAgrees v.metadata frames →
      (chainValid crcByte crc frames = true →
        ∃ md crc1, replayLoop crcByte (verifyStep c snap) term frames crc v =
          LoopExit.ended ⟨md, v.isMatch || hasSnapshot c frames snap.index⟩ crc1 term) ∧
      (chainValid crcByte crc frames = false →
        (∃ v1, replayLoop crcByte (verifyStep c snap) term frames crc v =
          LoopExit.returned v1 (some Error.ErrCRCMismatch)) ∨
        (∃ v1 crc1, replayLoop crcByte (verifyStep c snap) term frames crc v =
          LoopExit.ended v1 crc1 Error.ErrCRCMismatch)) := by
  intro frames
  induction frames with
  | nil =>
    intro crc v _ _
    refine ⟨fun _ => ⟨v.metadata, crc, ?_⟩, fun h => ?_⟩
    · simp [replayLoop, hasSnapshot]
    · simp [chainValid] at h
  | cons x xs ih =>
    intro crc v hk hm
    obtain ⟨hx, hks⟩ := knownTypes_cons x xs hk
    by_cases hc : x.type = crcType
    · -- a crc record
      have hns : ¬ (x.type = snapshotType) := by rw [hc]; decide
      have hstep := verifyStep_crc c snap v crc x hc
      have hdec := decodeRecord_crc crcByte crc x hc
      have hcv : chainValid crcByte crc (x :: xs) =
          ((decide (crc = 0) || decide (x.crc = crc)) && chainValid crcByte x.crc xs) := by
        simp only [chainValid, hc, if_true]
      by_cases hok : crc ≠ 0 ∧ x.crc ≠ crc
      · -- the chain breaks here
        rw [if_pos hok] at hstep
        have hfalse : chainValid crcByte crc (x :: xs) = false := by
          rw [hcv]
          simp [hok.1, hok.2]
        refine ⟨fun h => ?_, fun _ => Or.inl ⟨v, ?_⟩⟩
        · rw [hfalse] at h; cases h
        · simp only [replayLoop, hdec, hstep]
      · rw [if_neg hok] at hstep
        have hhead : (decide (crc = 0) || decide (x.crc = crc)) = true := by
          by_cases h0 : crc = 0
          · simp [h0]
          · have : x.crc = crc := by
              by_contra h1
              exact hok ⟨h0, h1⟩
            simp [this]
        have hloop := replayLoop_cons_next crcByte (verifyStep c snap) term x xs crc crc x.crc
          v v hdec hstep
        obtain ⟨i1, i2⟩ := ih x.crc v hks (metaAgrees_tail _ x xs hm)
        rw [hloop, hcv, hhead, Bool.true_and]
        refine ⟨fun h => ?_, i2⟩
        obtain ⟨md, crc1, he⟩ := i1 h
        refine ⟨md, crc1, ?_⟩
        rw [he]
        simp [hasSnapshot, List.any_cons, hns]
    · -- a record with a payload
      have hcv : chainValid crcByte crc (x :: xs) =
          (decide (x.crc = crcUpdate crcByte crc x.data) &&
            chainValid crcByte (crcUpdate crcByte crc x.data) xs) := by
        simp only [chainValid, hc, if_false]
      by_cases hp : x.crc = crcUpdate crcByte crc x.data
      · have hdec : decodeRecord crcByte crc x = Except.ok (crcUpdate crcByte crc x.data) := by
          simp [decodeRecord, hc, hp]
        rw [hcv]
        simp only [hp, decide_True, Bool.true_and]
        by_cases hmd : x.type = metadataType
        · have hns : ¬ (x.type = snapshotType) := by rw [hmd]; decide
          have hstep := verifyStep_metadata c snap v (crcUpdate crcByte crc x.data) x hmd
          have hno : ¬ (v.metadata ≠ none ∧ ¬ bytesEqual v.metadata x.data = true) := by
            rintro ⟨h1, h2⟩
            rcases hm.1 x (List.mem_cons_self _ _) hmd with h | h
            · exact h1 h
            · exact h2 h
          rw [if_neg hno] at hstep
          have hloop := replayLoop_cons_next crcByte (verifyStep c snap) term x xs crc _ _
            v _ hdec hstep
          obtain ⟨i1, i2⟩ := ih (crcUpdate crcByte crc x.data) { v with metadata := x.data } hks
            (metaAgrees_step _ x xs hm hmd)
          rw [hloop]
          refine ⟨fun h => ?_, i2⟩
          obtain ⟨md, crc1, he⟩ := i1 h
          refine ⟨md, crc1, ?_⟩
          rw [he]
          simp [hasSnapshot, List.any_cons, hns]
        · by_cases hsn : x.type = snapshotType
          · have hstep := verifyStep_snapshot c snap v (crcUpdate crcByte crc x.data) x hsn
            have hloop := replayLoop_cons_next crcByte (verifyStep c snap) term x xs crc _ _
              v _ hdec hstep
            obtain ⟨i1, i2⟩ := ih (crcUpdate crcByte crc x.data)
              ⟨v.metadata, v.isMatch ||
                decide ((c.mustUnmarshalSnapshot x.data).index = snap.index)⟩ hks
              (metaAgrees_tail _ x xs hm)
            rw [hloop]
            refine ⟨fun h => ?_, i2⟩
            obtain ⟨md, crc1, he⟩ := i1 h
            refine ⟨md, crc1, ?_⟩
            rw [he]
            simp [hasSnapshot, List.any_cons, hsn, Bool.or_assoc]
          · have hes : x.type = entryType ∨ x.type = stateType := by
              rcases hx with h | h | h | h | h
              · exact absurd h hmd
              · exact Or.inl h
              · exact Or.inr h
              · exact absurd h hc
              · exact absurd h hsn
            have hstep := verifyStep_skip c snap v (crcUpdate crcByte crc x.data) x hes
            have hloop := replayLoop_cons_next crcByte (verifyStep c snap) term x xs crc _ _
              v v hdec hstep
            obtain ⟨i1, i2⟩ := ih (crcUpdate crcByte crc x.data) v hks
              (metaAgrees_tail _ x xs hm)
            rw [hloop]
            refine ⟨fun h => ?_, i2⟩
            obtain ⟨md, crc1, he⟩ := i1 h
            refine ⟨md, crc1, ?_⟩
            rw [he]
            simp [hasSnapshot, List.any_cons, hsn]
      · -- the payload CRC is wrong: decoding fails
        have hdec : decodeRecord crcByte crc x = Except.error Error.ErrCRCMismatch := by
          simp [decodeRecord, hc, hp]
        have hfalse : chainValid crcByte crc (x :: xs) = false := by
          rw [hcv]
          simp [hp]
        refine ⟨fun h => ?_, fun _ => Or.inr ⟨v, crc, ?_⟩⟩
        · rw [hfalse] at h; cases h
        · simp only [replayLoop, hdec]

/-- The first frame of a stream with a valid CRC chain is decoded, and a record other than
a metadata record lets the loop of `Verify` go on with the metadata variable unchanged. -/
theorem verify_chain_head (crcByte : Nat → Nat → Nat) (c : Codec) (snap : Snapshot)
    (x : Record) (xs : List Record) (crc : Nat) (v : VerifyVars)
    (hk : knownTypes (x :: xs) = true) (hcv : chainValid crcByte crc (x :: xs) = true) :
    ∃ c1 c2, decodeRecord crcByte crc x = Except.ok c1 ∧ chainValid crcByte c2 xs = true ∧
      (x.type = metadataType → c2 = c1) ∧
      (x.type ≠ metadataType →
        ∃ v1, verifyStep c snap v c1 x = Step.next v1 c2 ∧ v1.metadata = v.metadata) := by
  obtain ⟨hx, _⟩ := knownTypes_cons x xs hk
  by_cases hc : x.type = crcType
  · have hcv1 : ((decide (crc = 0) || decide (x.crc = crc)) &&
        chainValid crcByte x.crc xs) = true := by
      simpa only [chainValid, hc, if_true] using hcv
    rw [Bool.and_eq_true, Bool.or_eq_true, decide_eq_true_eq, decide_eq_true_eq] at hcv1
    have hstep := verifyStep_crc c snap v crc x hc
    have hno : ¬ (crc ≠ 0 ∧ x.crc ≠ crc) := by
      rintro ⟨h1, h2⟩
      rcases hcv1.1 with h | h
      · exact h1 h
      · exact h2 h
    rw [if_neg hno] at hstep
    refine ⟨crc, x.crc, decodeRecord_crc crcByte crc x hc, hcv1.2, ?_, fun _ => ⟨v, hstep, rfl⟩⟩
    intro hm
    rw [hc] at hm
    exact absurd hm (by decide)
  · have hcv1 : (decide (x.crc = crcUpdate crcByte crc x.data) &&
        chainValid crcByte (crcUpdate crcByte crc x.data) xs) = true := by
      simpa only [chainValid, hc, if_false] using hcv
    rw [Bool.and_eq_true, decide_eq_true_eq] at hcv1
    have hdec : decodeRecord crcByte crc x = Except.ok (crcUpdate crcByte crc x.data) := by
      simp [decodeRecord, hc, hcv1.1]
    refine ⟨_, _, hdec, hcv1.2, fun _ => rfl, fun hmd => ?_⟩
    by_cases hsn : x.type = snapshotType
    · exact ⟨_, verifyStep_snapshot c snap v _ x hsn, rfl⟩
    · have hes : x.type = entryType ∨ x.type = stateType := by
        rcases hx with h | h | h | h | h
        · exact absurd h hmd
        · exact Or.inl h
        · exact Or.inr h
        · exact absurd h hc
        · exact absurd h hsn
      exact ⟨v, verifyStep_skip c snap v _ x hes, rfl⟩

/-- The loop of `Verify` returns `ErrMetadataConflict` when, after a first metadata record
carrying the non-empty bytes `A`, a metadata record carries other bytes. -/
theorem verifyLoop_conflict (crcByte : Nat → Nat → Nat) (c : Codec) (snap : Snapshot)
    (term : Error) (A : List Nat) (hA : A ≠ []) :
    ∀ (frames : List Record) (crc : Nat) (v : VerifyVars),
      knownTypes frames = true → chainValid crcByte crc frames = true →
      ((v.metadata = none ∧ ∃ p0 mA rest, frames = p0 ++ mA :: rest ∧
          (∀ r ∈ p0, r.type ≠ metadataType) ∧ mA.type = metadataType ∧ mA.data = some A ∧
          ∃ r ∈ rest, r.type = metadataType ∧ bytesEqual (some A) r.data = false) ∨
        (v.metadata = some A ∧
          ∃ r ∈ frames, r.type = metadataType ∧ bytesEqual (some A) r.data = false)) →
      ∃ v1, replayLoop crcByte (verifyStep c snap) term frames crc v =
        LoopExit.returned v1 (some Error.ErrMetadataConflict) := by
  intro frames
  induction frames with
  | nil =>
    intro crc v _ _ h
    rcases h with ⟨_, p0, mA, rest, hf, _⟩ | ⟨_, r, hr, _⟩
    · cases p0 <;> simp at hf
    · simp at hr
  | cons x xs ih =>
    intro crc v hk hcv h
    obtain ⟨_, hks⟩ := knownTypes_cons x xs hk
    obtain ⟨c1, c2, hdec, hcv2, hc12, hother⟩ := verify_chain_head crcByte c snap x xs crc v hk hcv
    rcases h with ⟨hv, p0, mA, rest, hf, hp0, hmA, hAd, r, hr, hrt, hrd⟩ | ⟨hv, r, hr, hrt, hrd⟩
    · cases p0 with
      | nil =>
        simp only [List.nil_append, List.cons.injEq] at hf
        obtain ⟨hx, hxs⟩ := hf
        subst hx
        subst hxs
        have hstep := verifyStep_metadata c snap v c1 x hmA
        rw [if_neg (by simp [hv])] at hstep
        rw [replayLoop_cons_next crcByte _ term x xs crc c1 c1 v _ hdec hstep]
        rw [hc12 hmA] at hcv2
        exact ih c1 _ hks hcv2 (Or.inr ⟨hAd, r, hr, hrt, hrd⟩)
      | cons y p1 =>
        simp only [List.cons_append, List.cons.injEq] at hf
        obtain ⟨hx, hxs⟩ := hf
        subst hx
        have hxm : x.type ≠ metadataType := hp0 x (List.mem_cons_self _ _)
        obtain ⟨v1, hstep, hmeta⟩ := hother hxm
        rw [replayLoop_cons_next crcByte _ term x xs crc c1 c2 v v1 hdec hstep]
        exact ih c2 v1 hks hcv2 (Or.inl ⟨by rw [hmeta, hv], p1, mA, rest, hxs,
          fun q hq => hp0 q (List.mem_cons_of_mem _ hq), hmA, hAd, r, hr, hrt, hrd⟩)
    · by_cases hxm : x.type = metadataType
      · have hstep := verifyStep_metadata c snap v c1 x hxm
        by_cases hxe : bytesEqual (some A) x.data = true
        · have hxd : x.data = some A := bytesEqual_some_nonempty A hA _ hxe
          rw [if_neg (by rw [hv]; simp [hxe])] at hstep
          rw [replayLoop_cons_next crcByte _ term x xs crc c1 c1 v _ hdec hstep]
          rw [hc12 hxm] at hcv2
          have hrx : r ∈ xs := by
            rcases List.mem_cons.mp hr with h | h
            · subst h
              rw [hxe] at hrd
              cases hrd
            · exact h
          exact ih c1 _ hks hcv2 (Or.inr ⟨hxd, r, hrx, hrt, hrd⟩)
        · rw [if_pos (by rw [hv]; exact ⟨by simp, hxe⟩)] at hstep
          exact ⟨v, by simp only [replayLoop, hdec, hstep]⟩
      · obtain ⟨v1, hstep, hmeta⟩ := hother hxm
        rw [replayLoop_cons_next crcByte _ term x xs crc c1 c2 v v1 hdec hstep]
        have hrx : r ∈ xs := by
          rcases List.mem_cons.mp hr with h | h
          · subst h
            exact absurd hrt hxm
          · exact h
        exact ih c2 v1 hks hcv2 (Or.inr ⟨by rw [hmeta, hv], r, hrx, hrt, hrd⟩)

/-- C12, as amended: let the files selected for the snapshot `snap` be opened without
failure and hold a stream `frames` of metadata, entry, state, crc and snapshot records,
read up to the decoder error `term`. When the stream ends in EOF or UnexpectedEOF, its
metadata records all agree and its CRC chain is valid, `Verify` returns nil if the stream
holds a snapshot record whose index is `snap.index` and `ErrSnapshotNotFound` otherwise.
With agreeing metadata and a broken CRC chain it returns `ErrCRCMismatch`. With a valid
chain it returns `ErrMetadataConflict` when the first metadata record carries non-empty
bytes and a later metadata record carries other bytes. -/
theorem C12_verify (crcByte : Nat → Nat → Nat) (c : Codec) (fs : FsEnv)
    (dir : List LockedFile) (snap : Snapshot) (names : List LockedFile) (nameIndex : Nat)
    (frames : List Record) (term : Error)
    (hsel : selectWALFiles dir snap = Except.ok (names, nameIndex))
    (hopen : fs.fail FsOp.openFile = none)
    (hframes : (newDecoder (names.drop nameIndex)).frames = frames)
    (hterm : (newDecoder (names.drop nameIndex)).term = term)
    (hk : knownTypes frames = true) :
    ((term = Error.EOF ∨ term = Error.ErrUnexpectedEOF) →
      metadataConsistent frames = true → chainValid crcByte 0 frames = true →
      Verify crcByte c fs dir snap =
        if hasSnapshot c frames snap.index = true then none
        else some Error.ErrSnapshotNotFound) ∧
    (metadataConsistent frames = true → chainValid crcByte 0 frames = false →
      Verify crcByte c fs dir snap = some Error.ErrCRCMismatch) ∧
    (chainValid crcByte 0 frames = true →
      ∀ (A : List Nat) (p0 rest : List Record) (mA r : Record),
        A ≠ [] → frames = p0 ++ mA :: rest → (∀ q ∈ p0, q.type ≠ metadataType) →
        mA.type = metadataType → mA.data = some A →
        r ∈ rest → r.type = metadataType → bytesEqual (some A) r.data = false →
        Verify crcByte c fs dir snap = some Error.ErrMetadataConflict) := by
  have hv := verify_eq crcByte c fs dir snap names nameIndex hsel hopen
  rw [hframes, hterm] at hv
  refine ⟨fun ht hm hcv => ?_, fun hm hcv => ?_, fun hcv A p0 rest mA r hA hf hp0 hmA hAd hr hrt hrd => ?_⟩
  · obtain ⟨md, crc1, hloop⟩ :=
      (verifyLoop_chain crcByte c snap term frames 0 ⟨none, false⟩ hk
        (metaAgrees_of_consistent frames hm)).1 hcv
    rw [hv, hloop]
    have hno : ¬ (term ≠ Error.EOF ∧ term ≠ Error.ErrUnexpectedEOF) := by
      rintro ⟨h1, h2⟩
      rcases ht with h | h
      · exact h1 h
      · exact h2 h
    simp only [if_neg hno, Bool.false_or]
    by_cases hs : hasSnapshot c frames snap.index = true
    · simp [hs]
    · simp [hs]
  · rcases (verifyLoop_chain crcByte c snap term frames 0 ⟨none, false⟩ hk
        (metaAgrees_of_consistent frames hm)).2 hcv with ⟨v1, hloop⟩ | ⟨v1, crc1, hloop⟩
    · rw [hv, hloop]
    · rw [hv, hloop]
      simp
  · obtain ⟨v1, hloop⟩ := verifyLoop_conflict crcByte c snap term A hA frames 0 ⟨none, false⟩
      hk hcv (Or.inl ⟨rfl, p0, mA, rest, hf, hp0, hmA, hAd, r, hr, hrt, hrd⟩)
    rw [hv, hloop]

/-- C12 as stated fails: after a first metadata record with nil bytes, a metadata record
with the bytes "B" differs from it, and `Verify` returns nil. -/
theorem C12_nil_metadata_counterexample :
    metadataConsistent (newDecoder (conflictDir none (some [66]))).frames = false ∧
    chainValid sampleCrcByte 0 (newDecoder (conflictDir none (some [66]))).frames = true ∧
    Verify sampleCrcByte sampleCodec FsEnv.quiet (conflictDir none (some [66])) ⟨0, 0⟩ =
      none := by
  decide

/-- C12 on sample directories: with the markers 0, 5 and 12 on disk `Verify` returns nil
for the snapshot at index 5 and `ErrSnapshotNotFound` for index 7; after metadata "A"
followed by metadata "B" it returns `ErrMetadataConflict`. -/
theorem C12_verify_witness :
    Verify sampleCrcByte sampleCodec FsEnv.quiet snapshotDir ⟨5, 1⟩ = none ∧
    Verify sampleCrcByte sampleCodec FsEnv.quiet snapshotDir ⟨7, 1⟩ =
      some Error.ErrSnapshotNotFound ∧
    Verify sampleCrcByte sampleCodec FsEnv.quiet (conflictDir (some [65]) (some [66]))
      ⟨0, 0⟩ = some Error.ErrMetadataConflict :=
  ⟨((C12_verify sampleCrcByte sampleCodec FsEnv.quiet snapshotDir ⟨5, 1⟩ snapshotDir 0
        (newDecoder snapshotDir).frames Error.EOF rfl rfl rfl (by decide)
        (by decide)).1 (Or.inl rfl) (by decide) (by decide)).trans (if_pos (by decide)),
   ((C12_verify sampleCrcByte sampleCodec FsEnv.quiet snapshotDir ⟨7, 1⟩ snapshotDir 0
        (newDecoder snapshotDir).frames Error.EOF rfl rfl rfl (by decide)
        (by decide)).1 (Or.inl rfl) (by decide) (by decide)).trans (if_neg (by decide)),
   (C12_verify sampleCrcByte sampleCodec FsEnv.quiet (conflictDir (some [65]) (some [66]))
        ⟨0, 0⟩ (conflictDir (some [65]) (some [66])) 0
        (newDecoder (conflictDir (some [65]) (some [66]))).frames Error.EOF
        rfl rfl rfl (by decide) (by decide)).2.2 (by decide) [65]
      [⟨crcType, 0, none⟩] [⟨snapshotType, 63458, some [0, 0]⟩, ⟨metadataType, 1967265, some [66]⟩]
      ⟨metadataType, 66, some [65]⟩ ⟨metadataType, 1967265, some [66]⟩
      (by decide) (by decide) (by decide) (by decide) (by decide) (by decide) (by decide)
      (by decide)⟩

/-! ### ReadWAL -/

/-- `Close` always returns: the tail is only synced when there is one. -/
theorem close_ret (fs : FsEnv) (w : WAL) : ∃ w1 e, w.Close fs = Res.ret w1 e := by
  unfold WAL.Close
  cases ht : w.tail with
  | none => exact ⟨w, _, rfl⟩
  | some t =>
    simp only [WAL.sync]
    by_cases hs : w.unsafeNoSync = true
    · simp only [hs, if_true]
      exact ⟨w, _, rfl⟩
    · simp only [hs, Bool.false_eq_true, if_false]
      cases hfl : (if w.encoder.isSome = true then fs.fail FsOp.flush else none) with
      | some e => exact ⟨w, some e, rfl⟩
      | none =>
        obtain ⟨t1, ht1⟩ := tail_flushed w t ht
        simp only [tailCall, ht1, fsCall]
        cases hd : fs.fail FsOp.fdatasync with
        | none => exact ⟨w.flushed, _, rfl⟩
        | some e => exact ⟨w.flushed, some e, rfl⟩

/-- After a repair the loop of `ReadWAL` makes one more turn and ends. -/
theorem readWALLoop_repaired (crcByte : Nat → Nat → Nat) (c : Codec) (reg : Registry)
    (fs : Nat → FsEnv) (Repair : List LockedFile → Bool × List LockedFile) (snap : Snapshot)
    (unsafeNoFsync : Bool) (fuel turn : Nat) (waldir : List LockedFile) :
    lastTurn (readWALLoop crcByte c reg fs Repair snap unsafeNoFsync (fuel + 1) turn waldir
      true) := by
  unfold readWALLoop
  cases ho : Open (fs turn) waldir snap with
  | error e => exact Or.inl ⟨e, rfl⟩
  | ok w0 =>
    simp only []
    generalize (if unsafeNoFsync = true then w0.SetUnsafeNoFsync else w0) = w
    rcases hr : ReadAll crcByte c reg (fs turn) w with ⟨w1, ⟨m, st, ents, recs, err⟩⟩
    cases err with
    | none => exact Or.inr (Or.inl ⟨w1, m, st, ents, rfl⟩)
    | some e =>
      obtain ⟨w2, e2, hc⟩ := close_ret (fs turn) w1
      simp only [hc, true_or, if_true]
      exact Or.inr (Or.inr ⟨e, rfl⟩)

/-- The runs of `ReadWAL`: the five ways its loop goes when it has fuel for two turns. -/
theorem readWAL_shape (crcByte : Nat → Nat → Nat) (c : Codec) (reg : Registry)
    (fs : Nat → FsEnv) (Repair : List LockedFile → Bool × List LockedFile)
    (waldir : List LockedFile) (snap : Snapshot) (unsafeNoFsync : Bool) (fuel : Nat) :
    (∃ e, ReadWAL crcByte c reg fs Repair waldir snap unsafeNoFsync (fuel + 2) =
      (Outcome.fatal, [Event.openFailed e, Event.fatal])) ∨
    (∃ w m st ents, ReadWAL crcByte c reg fs Repair waldir snap unsafeNoFsync (fuel + 2) =
      (Outcome.returned w m st ents, [Event.opened, Event.readAll none])) ∨
    (∃ e, e ≠ Error.ErrUnexpectedEOF ∧
      ReadWAL crcByte c reg fs Repair waldir snap unsafeNoFsync (fuel + 2) =
        (Outcome.fatal, [Event.opened, Event.readAll (some e), Event.closed, Event.fatal])) ∨
    (ReadWAL crcByte c reg fs Repair waldir snap unsafeNoFsync (fuel + 2) =
      (Outcome.fatal, [Event.opened, Event.readAll (some Error.ErrUnexpectedEOF),
        Event.closed, Event.repair false, Event.fatal])) ∨
    (∃ r, lastTurn r ∧
      ReadWAL crcByte c reg fs Repair waldir snap unsafeNoFsync (fuel + 2) =
        (r.1, [Event.opened, Event.readAll (some Error.ErrUnexpectedEOF), Event.closed,
          Event.repair true] ++ r.2)) := by
  unfold ReadWAL
  rw [readWALLoop]
  cases ho : Open (fs 0) waldir snap with
  | error e => exact Or.inl ⟨e, rfl⟩
  | ok w0 =>
    simp only []
    generalize (if unsafeNoFsync = true then w0.SetUnsafeNoFsync else w0) = w
    rcases hr : ReadAll crcByte c reg (fs 0) w with ⟨w1, ⟨m, st, ents, recs, err⟩⟩
    cases err with
    | none => exact Or.inr (Or.inl ⟨w1, m, st, ents, rfl⟩)
    | some e =>
      obtain ⟨w2, e2, hc⟩ := close_ret (fs 0) w1
      simp only [hc, false_or]
      by_cases he : e = Error.ErrUnexpectedEOF
      · subst he
        simp only [ne_eq, not_true_eq_false, if_false]
        rcases hrep : Repair waldir with ⟨ok, waldir1⟩
        cases ok with
        | false => exact Or.inr (Or.inr (Or.inr (Or.inl rfl)))
        | true =>
          exact Or.inr (Or.inr (Or.inr (Or.inr
            ⟨_, readWALLoop_repaired crcByte c reg fs Repair snap unsafeNoFsync fuel 1 waldir1,
              rfl⟩)))
      · simp only [ne_eq, he, not_false_eq_true, if_true]
        exact Or.inr (Or.inr (Or.inl ⟨e, he, rfl⟩))

/-- C13: in every execution of `ReadWAL` (with fuel for two turns of its loop) the loop
ends, `Repair` is called at most once, the loop runs at most twice, every call of `Repair`
comes right after a `ReadAll` that failed with UnexpectedEOF and the `Close` that follows
it, and after a `ReadAll` that fails with another error, or that fails after a repair,
nothing follows but `Close` and `lg.Fatal`. -/
theorem C13_read_wal_repairs_once (crcByte : Nat → Nat → Nat) (c : Codec) (reg : Registry)
    (fs : Nat → FsEnv) (Repair : List LockedFile → Bool × List LockedFile)
    (waldir : List LockedFile) (snap : Snapshot) (unsafeNoFsync : Bool) (fuel : Nat)
    (res : Outcome) (tr : List Event) (hfuel : 2 ≤ fuel)
    (hrun : ReadWAL crcByte c reg fs Repair waldir snap unsafeNoFsync fuel = (res, tr)) :
    res ≠ Outcome.outOfFuel ∧ res ≠ Outcome.panicked ∧
    repairCalls tr ≤ 1 ∧ loopRuns tr ≤ 2 ∧
    (∀ i ok, tr.get? i = some (Event.repair ok) →
      2 ≤ i ∧ tr.get? (i - 2) = some (Event.readAll (some Error.ErrUnexpectedEOF)) ∧
        tr.get? (i - 1) = some Event.closed) ∧
    (∀ i e, tr.get? i = some (Event.readAll (some e)) →
      (e ≠ Error.ErrUnexpectedEOF ∨ ∃ j ok, j < i ∧ tr.get? j = some (Event.repair ok)) →
      res = Outcome.fatal ∧ tr.drop (i + 1) = [Event.closed, Event.fatal]) := by
  obtain ⟨n, rfl⟩ : ∃ n, fuel = n + 2 := ⟨fuel - 2, by omega⟩
  rcases readWAL_shape crcByte c reg fs Repair waldir snap unsafeNoFsync n with
    ⟨e, h⟩ | ⟨w, m, st, ents, h⟩ | ⟨e, he, h⟩ | h | ⟨r, hr, h⟩
  · rw [h] at hrun
    obtain ⟨rfl, rfl⟩ := Prod.mk.inj hrun
    refine ⟨by simp, by simp, by simp [repairCalls], by simp [loopRuns], ?_, ?_⟩
    · intro i ok hi
      rcases i with _ | _ | i <;> simp at hi
    · intro i e1 hi
      rcases i with _ | _ | i <;> simp at hi
  · rw [h] at hrun
    obtain ⟨rfl, rfl⟩ := Prod.mk.inj hrun
    refine ⟨by simp, by simp, by simp [repairCalls], by simp [loopRuns], ?_, ?_⟩
    · intro i ok hi
      rcases i with _ | _ | i <;> simp at hi
    · intro i e1 hi
      rcases i with _ | _ | i <;> simp at hi
  · rw [h] at hrun
    obtain ⟨rfl, rfl⟩ := Prod.mk.inj hrun
    refine ⟨by simp, by simp, by simp [repairCalls], by simp [loopRuns], ?_, ?_⟩
    · intro i ok hi
      rcases i with _ | _ | _ | _ | i <;> simp at hi
    · intro i e1 hi _
      rcases i with _ | _ | _ | _ | i <;> simp at hi
      exact ⟨rfl, rfl⟩
  · rw [h] at hrun
    obtain ⟨rfl, rfl⟩ := Prod.mk.inj hrun
    refine ⟨by simp, by simp, by simp [repairCalls], by simp [loopRuns], ?_, ?_⟩
    · intro i ok hi
      rcases i with _ | _ | _ | _ | _ | i <;> simp at hi
      exact ⟨by omega, rfl, rfl⟩
    · intro i e1 hi hor
      rcases i with _ | _ | _ | _ | _ | i <;> simp at hi
      subst hi
      rcases hor with hne | ⟨j, ok, hj, hjr⟩
      · exact absurd rfl hne
      · rcases j with _ | j
        · simp at hjr
        · omega
  · rw [h] at hrun
    obtain ⟨rfl, rfl⟩ := Prod.mk.inj hrun
    rcases hr with ⟨e, hr⟩ | ⟨w, m, st, ents, hr⟩ | ⟨e, hr⟩
    · rw [hr]
      refine ⟨by simp, by simp, by simp [repairCalls], by simp [loopRuns], ?_, ?_⟩
      · intro i ok hi
        rcases i with _ | _ | _ | _ | _ | _ | i <;> simp at hi
        exact ⟨by omega, rfl, rfl⟩
      · intro i e1 hi hor
        rcases i with _ | _ | _ | _ | _ | _ | i <;> simp at hi
        subst hi
        rcases hor with hne | ⟨j, ok, hj, hjr⟩
        · exact absurd rfl hne
        · rcases j with _ | j
          · simp at hjr
          · omega
    · rw [hr]
      refine ⟨by simp, by simp, by simp [repairCalls], by simp [loopRuns], ?_, ?_⟩
      · intro i ok hi
        rcases i with _ | _ | _ | _ | _ | _ | i <;> simp at hi
        exact ⟨by omega, rfl, rfl⟩
      · intro i e1 hi hor
        rcases i with _ | _ | _ | _ | _ | _ | i <;> simp at hi
        subst hi
        rcases hor with hne | ⟨j, ok, hj, hjr⟩
        · exact absurd rfl hne
        · rcases j with _ | j
          · simp at hjr
          · omega
    · rw [hr]
      refine ⟨by simp, by simp, by simp [repairCalls], by simp [loopRuns], ?_, ?_⟩
      · intro i ok hi
        rcases i with _ | _ | _ | _ | _ | _ | _ | _ | i <;> simp at hi
        exact ⟨by omega, rfl, rfl⟩
      · intro i e1 hi hor
        rcases i with _ | _ | _ | _ | _ | _ | _ | _ | i <;> simp at hi
        · subst hi
          rcases hor with hne | ⟨j, ok, hj, hjr⟩
          · exact absurd rfl hne
          · rcases j with _ | j
            · simp at hjr
            · omega
        · exact ⟨rfl, rfl⟩

/-- C13 on the torn sample directory: when `Repair` heals it, `ReadWAL` repairs once and
returns after the second turn; when `Repair` leaves it torn, the second failure of `ReadAll`
is followed by `Close` and `lg.Fatal` only. -/
theorem C13_read_wal_repairs_once_witness :
    2 ≤ 2 ∧
    repairedRun.2 = [Event.opened, Event.readAll (some Error.ErrUnexpectedEOF), Event.closed,
      Event.repair true, Event.opened, Event.readAll none] ∧
    unrepairedRun = (Outcome.fatal,
      [Event.opened, Event.readAll (some Error.ErrUnexpectedEOF), Event.closed,
        Event.repair true, Event.opened, Event.readAll (some Error.ErrUnexpectedEOF),
        Event.closed, Event.fatal]) ∧
    (repairCalls repairedRun.2 ≤ 1 ∧ loopRuns repairedRun.2 ≤ 2) ∧
    (∀ i e, unrepairedRun.2.get? i = some (Event.readAll (some e)) →
      (e ≠ Error.ErrUnexpectedEOF ∨
        ∃ j ok, j < i ∧ unrepairedRun.2.get? j = some (Event.repair ok)) →
      unrepairedRun.1 = Outcome.fatal ∧
        unrepairedRun.2.drop (i + 1) = [Event.closed, Event.fatal]) :=
  ⟨by decide, by decide, by decide,
    ⟨(C13_read_wal_repairs_once sampleCrcByte sampleCodec emptyRegistry (fun _ => FsEnv.quiet)
        sampleRepair tornDir ⟨0, 0⟩ false 2 repairedRun.1 repairedRun.2 (by decide) rfl).2.2.1,
      (C13_read_wal_repairs_once sampleCrcByte sampleCodec emptyRegistry (fun _ => FsEnv.quiet)
        sampleRepair tornDir ⟨0, 0⟩ false 2 repairedRun.1 repairedRun.2 (by decide)
        rfl).2.2.2.1⟩,
    (C13_read_wal_repairs_once sampleCrcByte sampleCodec emptyRegistry (fun _ => FsEnv.quiet)
      (fun dir => (true, dir)) tornDir ⟨0, 0⟩ false 2 unrepairedRun.1 unrepairedRun.2
      (by decide) rfl).2.2.2.2.2⟩

/-! ### The first index of the segments -/

theorem ascendingFrom_last : ∀ (ents : List Entry) (prev : Nat),
    ascendingFrom prev ents = true → prev + 1 < u64 →
    prev ≤ lastIndex prev ents ∧ lastIndex prev ents + 1 < u64 ∧
      ∀ e ∈ ents, e.index ≤ lastIndex prev ents := by
  intro ents
  induction ents with
  | nil =>
    intro prev _ hp
    exact ⟨Nat.le_refl _, hp, fun e he => by simp at he⟩
  | cons e rest ih =>
    intro prev h _
    simp only [ascendingFrom, Bool.and_eq_true, decide_eq_true_eq] at h
    obtain ⟨⟨h1, h2⟩, h3⟩ := h
    obtain ⟨i1, i2, i3⟩ := ih e.index h3 h2
    rw [lastIndex_cons]
    refine ⟨by omega, i2, ?_⟩
    intro x hx
    rcases List.mem_cons.mp hx with hxe | hxr
    · rw [hxe]; exact i1
    · exact i3 x hxr

theorem entryIndices_append (c : Codec) (f : LockedFile) (rs : List Record) :
    entryIndices c { f with recs := f.recs ++ rs } =
      entryIndices c f ++ entryIndices c ⟨f.name, rs, f.ending⟩ := by
  simp [entryIndices, List.filter_append]

theorem entryIndices_frames (crcByte : Nat → Nat → Nat) (c : Codec) (n : WalName) (e : Error) :
    ∀ (rs : List Record) (crc : Nat),
      entryIndices c ⟨n, frameRecords crcByte crc rs, e⟩ = entryIndices c ⟨n, rs, e⟩ := by
  intro rs
  induction rs with
  | nil => intro crc; rfl
  | cons r rest ih =>
    intro crc
    have h := ih (crcUpdate crcByte crc r.data)
    simp only [entryIndices] at h ⊢
    simp only [frameRecords]
    by_cases ht : r.type = entryType
    · rw [List.filter_cons_of_pos (by simpa using ht), List.filter_cons_of_pos (by simpa using ht)]
      simp only [List.map_cons]
      rw [h]
    · rw [List.filter_cons_of_neg (by simpa using ht), List.filter_cons_of_neg (by simpa using ht)]
      exact h

theorem entryIndices_saveRecords (c : Codec) (hc : c.faithful) (n : WalName) (e : Error)
    (k : Nat) (st : HardState) (ents : List Entry) :
    entryIndices c ⟨n, saveRecords c k st ents, e⟩ = ents.map fun x => x.index := by
  have hst : ¬ (stateType = entryType) := by decide
  have hents : ∀ (l : List Entry),
      ((l.map (entryRecord c)).filter fun r => decide (r.type = entryType)).map
        (fun r => (c.mustUnmarshalEntry r.data).index) = l.map fun x => x.index := by
    intro l
    induction l with
    | nil => rfl
    | cons x xs ih =>
      simp only [List.map_cons]
      rw [List.filter_cons_of_pos (by simp [entryRecord])]
      simp only [List.map_cons, ih]
      simp [entryRecord, hc.1 x]
  simp only [entryIndices, saveRecords, List.filter_append, List.map_append, hents]
  by_cases hs : st.committed ≠ 0 ∧ st.committed ≠ k
  · rw [if_pos hs]
    simp [stateRecord, hst]
  · rw [if_neg hs]
    simp

theorem chain_replace_last (c : Codec) (files : List LockedFile) (last last1 : LockedFile)
    (hname : firstIndex last1 = firstIndex last)
    (h : List.Chain' (segmentOrder c) (files ++ [last])) :
    List.Chain' (segmentOrder c) (files ++ [last1]) := by
  rw [List.chain'_append] at h ⊢
  refine ⟨h.1, List.chain'_singleton _, ?_⟩
  intro x hx y hy
  simp only [List.head?_cons, Option.mem_def, Option.some.injEq] at hy
  subst hy
  have hr := h.2.2 x hx last (by simp)
  exact ⟨by rw [hname]; exact hr.1, fun z hz => by rw [hname]; exact hr.2 z hz⟩

theorem chain_snoc (c : Codec) (files : List LockedFile) (last new : LockedFile)
    (h : List.Chain' (segmentOrder c) (files ++ [last])) (hr : segmentOrder c last new) :
    List.Chain' (segmentOrder c) ((files ++ [last]) ++ [new]) := by
  rw [List.chain'_append]
  refine ⟨h, List.chain'_singleton _, ?_⟩
  intro x hx y hy
  simp only [List.head?_cons, Option.mem_def, Option.some.injEq] at hy
  subst hy
  have hlast : (files ++ [last]).getLast? = some last := by simp
  rw [hlast] at hx
  simp only [Option.mem_def, Option.some.injEq] at hx
  subst hx
  exact hr

theorem chain_get? {α : Type} (R : α → α → Prop) : ∀ (l : List α), List.Chain' R l →
    ∀ (i : Nat) (s t : α), l.get? i = some s → l.get? (i + 1) = some t → R s t := by
  intro l
  induction l with
  | nil => intro _ i s t hs _; simp at hs
  | cons a rest ih =>
    intro h i s t hs ht
    cases rest with
    | nil => simp at ht
    | cons b rest1 =>
      rw [List.chain'_cons] at h
      cases i with
      | zero =>
        simp at hs ht
        subst hs
        subst ht
        exact h.1
      | succ i =>
        exact ih h.2 i s t (by simpa using hs) (by simpa using ht)

/-- Records appended to the tail keep the segments in order when `enti` does not go down
and no appended entry is above the new `enti`. -/
theorem orderInv_append (c : Codec) (w w1 : WAL) (files : List LockedFile)
    (last : LockedFile) (enc1 : Encoder) (rs : List Record)
    (hcan : ∀ f ∈ files ++ [last], f.name.isCanonical = true)
    (hchain : List.Chain' (segmentOrder c) (files ++ [last]))
    (hfirst : firstIndex last ≤ w.enti + 1)
    (hents : ∀ x ∈ entryIndices c last, x ≤ w.enti)
    (hl1 : w1.locks = files.map some ++ [some { last with recs := last.recs ++ rs }])
    (he1 : w1.encoder = some enc1) (hbuf1 : enc1.buf = []) (hns1 : w1.unsafeNoSync = false)
    (hle : w.enti ≤ w1.enti) (hb : w1.enti + 1 < u64)
    (hrs : ∀ x ∈ entryIndices c ⟨last.name, rs, last.ending⟩, x ≤ w1.enti) :
    OrderInv c w1 := by
  refine ⟨hb, hns1, files, { last with recs := last.recs ++ rs }, enc1, by rw [hl1]; simp,
    he1, hbuf1, ?_, chain_replace_last c files last _ rfl hchain, by show firstIndex last ≤ _; omega, ?_⟩
  · intro f hf
    rcases List.mem_append.mp hf with h | h
    · exact hcan f (List.mem_append_left _ h)
    · simp only [List.mem_singleton] at h
      subst h
      exact hcan last (by simp)
  · intro x hx
    rw [entryIndices_append] at hx
    rcases List.mem_append.mp hx with h | h
    · exact Nat.le_trans (hents x h) hle
    · exact hrs x h

/-- A successful `cut` keeps the segments in order. -/
theorem orderInv_cut (crcByte : Nat → Nat → Nat) (c : Codec) (fs : FsEnv) (w w1 : WAL)
    (hinv : OrderInv c w) (h : cut crcByte c fs w = Res.ret w1 none) :
    OrderInv c w1 ∧ w1.enti = w.enti := by
  obtain ⟨hen, hns, files, last, enc, hl, he, hbuf, hcan, hchain, hfirst, hents⟩ := hinv
  obtain ⟨seq, _, hw⟩ := cut_ok_clean crcByte c fs w w1 enc hns he hbuf h
  have hidx : (w.enti + 1) % u64 = w.enti + 1 := Nat.mod_eq_of_lt hen
  rw [hw, hidx]
  refine ⟨⟨hen, hns, files ++ [last],
    (⟨walName ((seq + 1) % u64) (w.enti + 1),
      [⟨crcType, enc.crc, none⟩,
        ⟨metadataType, crcUpdate crcByte enc.crc w.metadata, w.metadata⟩], Error.EOF⟩ :
      LockedFile),
    (⟨crcUpdate crcByte enc.crc w.metadata, []⟩ : Encoder), ?_, rfl, rfl, ?_, ?_, ?_, ?_⟩,
    rfl⟩
  · show w.locks ++ _ = _
    rw [hl]
    simp
  · intro f hf
    rcases List.mem_append.mp hf with h1 | h1
    · exact hcan f h1
    · simp only [List.mem_singleton] at h1
      subst h1
      rfl
  · exact chain_snoc c files last _ hchain
      ⟨hfirst, fun x hx => Nat.succ_le_succ (hents x hx)⟩
  · exact Nat.le_refl _
  · intro x hx
    have d1 : ¬ (crcType = entryType) := by decide
    have d2 : ¬ (metadataType = entryType) := by decide
    simp [entryIndices, d1, d2] at hx

/-- A successful `Save` of entries that do not rewind keeps the segments in order. -/
theorem orderInv_save (crcByte : Nat → Nat → Nat) (c : Codec) (hc : c.faithful) (fs : FsEnv)
    (w w1 : WAL) (st : HardState) (ents : List Entry) (hinv : OrderInv c w)
    (hasc : ascendingFrom w.enti ents = true)
    (h : Save crcByte c fs w st ents = Res.ret w1 none) :
    OrderInv c w1 ∧ w1.enti = lastIndex w.enti ents := by
  by_cases hne : ents.length = 0 ∧ st.committed = 0
  · have hw : w1 = w := by
      unfold Save at h
      rw [if_pos hne] at h
      injection h with h _
      exact h.symm
    have he0 : ents = [] := List.length_eq_zero.mp hne.1
    subst hw
    subst he0
    exact ⟨hinv, rfl⟩
  · obtain ⟨hen, hns, files, last, enc, hl, he, hbuf, hcan, hchain, hfirst, hents⟩ := hinv
    have hl1 : w.locks = files.map some ++ [some last] := by rw [hl]; simp
    obtain ⟨a1, a2, a3⟩ := ascendingFrom_last ents w.enti hasc hen
    have hmid : ∀ (wm : WAL),
        wm = { w with
          state := if st.committed ≠ 0 ∧ st.committed ≠ w.state.committed then st else w.state,
          encoder := some ⟨crcAfter crcByte enc.crc (saveRecords c w.state.committed st ents),
            []⟩,
          locks := files.map some ++ [some { last with
            recs := last.recs ++
              frameRecords crcByte enc.crc (saveRecords c w.state.committed st ents) }],
          enti := lastIndex w.enti ents } →
        OrderInv c wm ∧ wm.enti = lastIndex w.enti ents := by
      intro wm hwm
      refine ⟨orderInv_append c w wm files last _ _ hcan hchain hfirst hents
        (by rw [hwm]) (by rw [hwm]) rfl (by rw [hwm]; exact hns) (by rw [hwm]; exact a1)
        (by rw [hwm]; exact a2) ?_,
        by rw [hwm]⟩
      intro x hx
      rw [entryIndices_frames, entryIndices_saveRecords c hc] at hx
      obtain ⟨e, he1, hex⟩ := List.mem_map.mp hx
      rw [hwm, ← hex]
      exact a3 e he1
    rcases save_ok crcByte c fs w w1 st ents (files.map some) last enc hl1 he hns hbuf hne
        h with
      ⟨_, hw⟩ | ⟨_, hcut⟩
    · exact hmid w1 hw
    · obtain ⟨hm1, hm2⟩ := hmid _ rfl
      obtain ⟨hc1, hc2⟩ := orderInv_cut crcByte c fs _ w1 hm1 hcut
      exact ⟨hc1, by rw [hc2]⟩

/-- A successful `SaveSnapshot` keeps the segments in order. -/
theorem orderInv_snapshot (crcByte : Nat → Nat → Nat) (c : Codec) (fs : FsEnv)
    (w w1 : WAL) (e : Snapshot) (hinv : OrderInv c w) (hb : e.index + 1 < u64)
    (h : SaveSnapshot crcByte c fs w e = Res.ret w1 none) :
    OrderInv c w1 ∧ w1.enti = if w.enti < e.index then e.index else w.enti := by
  obtain ⟨hen, hns, files, last, enc, hl, he, hbuf, hcan, hchain, hfirst, hents⟩ := hinv
  have hl1 : w.locks = files.map some ++ [some last] := by rw [hl]; simp
  have hw := saveSnapshot_ok crcByte c fs w w1 e (files.map some) last enc hl1 he hns h
  rw [hbuf, List.nil_append] at hw
  have henti : w1.enti = if w.enti < e.index then e.index else w.enti := by rw [hw]
  refine ⟨orderInv_append c w w1 files last _
    [⟨snapshotType, crcUpdate crcByte enc.crc (c.marshalSnapshot e), c.marshalSnapshot e⟩]
    hcan hchain hfirst hents (by rw [hw]) (by rw [hw]) rfl (by rw [hw]; exact hns) ?_ ?_ ?_,
    henti⟩
  · rw [henti]
    split <;> omega
  · rw [henti]
    split <;> omega
  · intro x hx
    have d1 : ¬ (snapshotType = entryType) := by decide
    simp [entryIndices, d1] at hx

/-- The WAL a successful `Create` returns has its one segment in order. -/
theorem orderInv_create (crcByte : Nat → Nat → Nat) (c : Codec) (fs : FsEnv) (M : Bytes)
    (w0 : WAL) (h : Create crcByte c fs M = Res.ret (some w0) none) :
    OrderInv c w0 ∧ w0.enti = 0 := by
  rw [create_ok crcByte c fs M w0 h]
  have hu := u64_pos
  have d1 : ¬ (crcType = entryType) := by decide
  have d2 : ¬ (metadataType = entryType) := by decide
  have d3 : ¬ (snapshotType = entryType) := by decide
  refine ⟨⟨by show 0 + 1 < u64; omega, rfl, [], _, _, rfl, rfl, rfl, ?_, ?_, ?_, ?_⟩, rfl⟩
  · intro f hf
    simp at hf
    subst hf
    rfl
  · exact List.chain'_singleton _
  · exact Nat.zero_le _
  · intro x hx
    simp [entryIndices, d1, d2, d3] at hx

/-- Calls that all succeed and do not rewind keep the segments in order. -/
theorem runCalls_inv (crcByte : Nat → Nat → Nat) (c : Codec) (hc : c.faithful) :
    ∀ (calls : List Call) (w w1 : WAL), OrderInv c w → noRewind w.enti calls = true →
      runCalls crcByte c w calls = Res.ret w1 none → OrderInv c w1 := by
  intro calls
  induction calls with
  | nil =>
    intro w w1 hinv _ h
    simp only [runCalls] at h
    injection h with h _
    subst h
    exact hinv
  | cons call rest ih =>
    intro w w1 hinv hno h
    cases call with
    | save fs st ents =>
      simp only [runCalls] at h
      simp only [noRewind, Bool.and_eq_true] at hno
      obtain ⟨a, h1, k1⟩ := andThen_ok _ _ _ h
      obtain ⟨i1, i2⟩ := orderInv_save crcByte c hc fs w a st ents hinv hno.1 h1
      exact ih a w1 i1 (by rw [i2]; exact hno.2) k1
    | saveSnapshot fs e =>
      simp only [runCalls] at h
      simp only [noRewind, Bool.and_eq_true, decide_eq_true_eq] at hno
      obtain ⟨a, h1, k1⟩ := andThen_ok _ _ _ h
      obtain ⟨i1, i2⟩ := orderInv_snapshot crcByte c fs w a e hinv hno.1 h1
      exact ih a w1 i1 (by rw [i2]; exact hno.2) k1

/-- C11, as amended: let a WAL be made by `Create` and let a sequence of `Save` and
`SaveSnapshot` calls on it succeed, in which no entry is saved at an index below the last
index recorded before it and all indices stay below the largest unsigned 64 bit integer.
Then the files of the WAL all carry segment names, and for all consecutive segments `s`,
`t` the first index of `t` is at least the first index of `s` and above the index of
every entry that `s` holds. -/
theorem C11_segment_first_index (crcByte : Nat → Nat → Nat) (c : Codec) (hc : c.faithful)
    (fs0 : FsEnv) (M : Bytes) (w0 w1 : WAL) (calls : List Call)
    (hcreate : Create crcByte c fs0 M = Res.ret (some w0) none)
    (hasc : noRewind 0 calls = true)
    (hrun : runCalls crcByte c w0 calls = Res.ret w1 none) :
    ∃ files : List LockedFile, w1.locks = files.map some ∧ (∀ f ∈ files, f.name.isCanonical = true) ∧
      ∀ i s t, files.get? i = some s → files.get? (i + 1) = some t →
        firstIndex s ≤ firstIndex t ∧ ∀ x ∈ entryIndices c s, x + 1 ≤ firstIndex t := by
  obtain ⟨h0, h00⟩ := orderInv_create crcByte c fs0 M w0 hcreate
  obtain ⟨_, _, files, last, _, hl, _, _, hcan, hchain, _, _⟩ :=
    runCalls_inv crcByte c hc calls w0 w1 h0 (by rw [h00]; exact hasc) hrun
  exact ⟨files ++ [last], hl, hcan,
    fun i s t hs ht => chain_get? (segmentOrder c) _ hchain i s t hs ht⟩

/-- C11 as stated fails. After the entries 1, 2, 3 and a rewind to the entry 1, each
followed by a cut, the segments have the first indices 0, 4, 2. After one `Save` of the
entries 5, 2 and a cut, the first segment holds the entry 5 and the next one starts at 3. -/
theorem C11_rewind_counterexample :
    (noRewind 0 rewindCalls = false ∧
      ((calledWAL rewindCalls).locks.filterMap id).map firstIndex = [0, 4, 2]) ∧
    (noRewind 0 unorderedCalls = false ∧
      ((calledWAL unorderedCalls).locks.filterMap id).map firstIndex = [0, 3] ∧
      ((calledWAL unorderedCalls).locks.filterMap id).map (entryIndices sampleCodec) =
        [[5, 2], []]) := by
  decide

/-- C11 on the calls `Save` of the entries 1, 2, 3, `SaveSnapshot` at 3 and `Save` of the
entries 4, 5, each `Save` ending with a cut: the segments start at 0, 4 and 6 and hold the
entries 1 to 3, 4 to 5 and none. -/
theorem C11_segment_first_index_witness :
    ((calledWAL ascendingCalls).locks.filterMap id).map firstIndex = [0, 4, 6] ∧
    ((calledWAL ascendingCalls).locks.filterMap id).map (entryIndices sampleCodec) =
      [[1, 2, 3], [4, 5], []] ∧
    ∃ files : List LockedFile, (calledWAL ascendingCalls).locks = files.map some ∧
      (∀ f ∈ files, f.name.isCanonical = true) ∧
      ∀ i s t, files.get? i = some s → files.get? (i + 1) = some t →
        firstIndex s ≤ firstIndex t ∧
          ∀ x ∈ entryIndices sampleCodec s, x + 1 ≤ firstIndex t :=
  ⟨by decide, by decide,
    C11_segment_first_index sampleCrcByte sampleCodec sampleCodec_faithful FsEnv.quiet
      (some [77]) createdWAL (calledWAL ascendingCalls) ascendingCalls (by decide) (by decide)
      (by decide)⟩

end Wal
